import Mathlib

/-!
Fee pricing (`fee-pricing/fee_pricing.go`)

A shallow embedding of the Go package `fees`: the `L2GasPricer` record, its constructor
`NewGasPricer`, the pure computation `CalcNextGasPrice` and the mutator `UpdateGasPrice`.

Numbers.

Go's `float64` is embedded twice, and the pricer once over each embedding.

`F64` is the idealisation in which the specification writes its formulas: a finite value is
an exact rational, and the three IEEE-754 special values `NaN`, `-Inf`, `+Inf` are kept, with
the special-value rules of the Go operators `/`, `*`, `+`, `-`, `>=`, `==` and of `math.Min`,
`math.Max`, `math.Ceil`.  What this embedding abstracts: finite arithmetic is exact (no
rounding to 53 bits, no overflow to an infinity), and zero carries no sign (a zero divisor
behaves as `+0`).  The pricer over `F64` is `L2GasPricer` in the top namespace.

`Float64` is binary64 as the program computes it: `+0` and `-0` are distinct values, and the
result of `+`, `-`, `*`, `/` on finite operands is the exact result rounded to nearest, ties
to even, on the grid of binary64 (53 significant bits, multiples of `2^-1074` in the
subnormal range), an infinity once the rounded magnitude reaches `2^1024`, and a zero of the
sign of the exact result on underflow.  The comparisons and `math.Min`, `math.Max`,
`math.Ceil` follow the Go library, signed zeros included.  No two operations of
`CalcNextGasPrice` can be fused: the quotient is converted explicitly and the product is an
argument of `math.Max`, so each operation is rounded on its own.  A finite value `fin q` is
written for any rational `q`; the values a Go variable can hold are those with
`Float64.Valid`, and a statement that needs it says so.  The pricer over `Float64` is
`Fees.L2GasPricer`; every statement that depends on a rounding, on an overflow or on the sign
of a zero is made there.

The target supplier.

`getTargetGasPerSecond` is a Go closure `func() float64` that may carry state of its own (the
test `TestGasPricerDynamicTarget` counts its invocations).  It is embedded with explicit state
passing: a function from the closure's state `σ` to the returned value and the next state.
In `Fees`, `CalcNextGasPrice` returns, with the price and the supplier's next state, the
receiver as the call leaves it.
-/

/-! Definitions: the idealised embedding `F64` and the pricer over it. -/

/-- Go `float64`: finite values are exact rationals, plus the IEEE-754 special values. -/
inductive F64 where
  | nan : F64
  | ninf : F64
  | fin : ℚ → F64
  | pinf : F64
deriving DecidableEq

namespace F64

instance : Inhabited F64 := ⟨fin 0⟩

instance (n : Nat) : OfNat F64 n := ⟨fin n⟩

/-- Go `-x`. -/
def neg : F64 → F64
  | nan => nan
  | ninf => pinf
  | fin a => fin (-a)
  | pinf => ninf

/-- Go `x + y`: `Inf + -Inf` is `NaN`, an infinity absorbs a finite value. -/
def add : F64 → F64 → F64
  | nan, _ => nan
  | _, nan => nan
  | pinf, ninf => nan
  | ninf, pinf => nan
  | pinf, _ => pinf
  | _, pinf => pinf
  | ninf, _ => ninf
  | _, ninf => ninf
  | fin a, fin b => fin (a + b)

/-- Go `x - y`. -/
def sub (x y : F64) : F64 := add x (neg y)

/-- Go `x * y`: `Inf * 0` is `NaN`, otherwise an infinity takes the sign of the product. -/
def mul : F64 → F64 → F64
  | nan, _ => nan
  | _, nan => nan
  | pinf, pinf => pinf
  | pinf, ninf => ninf
  | ninf, pinf => ninf
  | ninf, ninf => pinf
  | pinf, fin b => if b = 0 then nan else if 0 < b then pinf else ninf
  | ninf, fin b => if b = 0 then nan else if 0 < b then ninf else pinf
  | fin a, pinf => if a = 0 then nan else if 0 < a then pinf else ninf
  | fin a, ninf => if a = 0 then nan else if 0 < a then ninf else pinf
  | fin a, fin b => fin (a * b)

/-- Go `x / y`: `0 / 0` and `Inf / Inf` are `NaN`, a non-zero finite value over zero is an
infinity of the sign of the dividend, a finite value over an infinity is zero. -/
def div : F64 → F64 → F64
  | nan, _ => nan
  | _, nan => nan
  | pinf, pinf => nan
  | pinf, ninf => nan
  | ninf, pinf => nan
  | ninf, ninf => nan
  | pinf, fin b => if 0 ≤ b then pinf else ninf
  | ninf, fin b => if 0 ≤ b then ninf else pinf
  | fin _, pinf => fin 0
  | fin _, ninf => fin 0
  | fin a, fin b =>
    if b = 0 then (if a = 0 then nan else if 0 < a then pinf else ninf) else fin (a / b)

instance : Neg F64 := ⟨neg⟩

instance : Add F64 := ⟨add⟩

instance : Sub F64 := ⟨sub⟩

instance : Mul F64 := ⟨mul⟩

instance : Div F64 := ⟨div⟩

/-- Go `x <= y`: false as soon as an operand is `NaN`. -/
def le : F64 → F64 → Bool
  | nan, _ => false
  | _, nan => false
  | ninf, _ => true
  | _, pinf => true
  | pinf, _ => false
  | _, ninf => false
  | fin a, fin b => decide (a ≤ b)

/-- Go `x < y`: false as soon as an operand is `NaN`. -/
def lt : F64 → F64 → Bool
  | nan, _ => false
  | _, nan => false
  | pinf, _ => false
  | _, ninf => false
  | ninf, _ => true
  | _, pinf => true
  | fin a, fin b => decide (a < b)

/-- Go `x == y`: `NaN` is equal to nothing, itself included. -/
def beq : F64 → F64 → Bool
  | nan, _ => false
  | _, nan => false
  | x, y => decide (x = y)

instance : LE F64 := ⟨fun x y => le x y = true⟩

instance : LT F64 := ⟨fun x y => lt x y = true⟩

instance (x y : F64) : Decidable (x ≤ y) := inferInstanceAs (Decidable (le x y = true))

instance (x y : F64) : Decidable (x < y) := inferInstanceAs (Decidable (lt x y = true))

/-- Go `math.Min(x, y)`: `-Inf` wins first, then `NaN`, then the smaller operand. -/
def Min : F64 → F64 → F64
  | ninf, _ => ninf
  | _, ninf => ninf
  | nan, _ => nan
  | _, nan => nan
  | x, y => if x < y then x else y

/-- Go `math.Max(x, y)`: `+Inf` wins first, then `NaN`, then the larger operand. -/
def Max : F64 → F64 → F64
  | pinf, _ => pinf
  | _, pinf => pinf
  | nan, _ => nan
  | _, nan => nan
  | x, y => if x > y then x else y

/-- Go `math.Ceil(x)`: the least integer value not below `x`; special values are kept. -/
def Ceil : F64 → F64
  | fin a => fin (⌈a⌉ : ℤ)
  | x => x

end F64

/-- Go `type GetTargetGasPerSecond func() float64`, with the closure's state passed
explicitly: one invocation maps the state before it to the value returned and the state after. -/
abbrev GetTargetGasPerSecond (σ : Type) : Type := σ → F64 × σ

/-- Go `type L2GasPricer struct`. -/
structure L2GasPricer (σ : Type) where
  curPrice : F64
  floorPrice : F64
  getTargetGasPerSecond : GetTargetGasPerSecond σ
  maxPercentChangePerEpoch : F64

/-- Go `error`: `none` is `nil`. -/
abbrev GoError : Type := Option String

/-- Go `func NewGasPricer`: a zero `curPrice` is replaced by `floorPrice`; the error
returned is always `nil`. -/
def NewGasPricer {σ : Type} (curPrice : F64) (floorPrice : F64)
    (getTargetGasPerSecond : GetTargetGasPerSecond σ) (maxPercentChangePerEpoch : F64) :
    L2GasPricer σ × GoError :=
  let curPrice := if F64.beq curPrice 0 = true then floorPrice else curPrice
  let p : L2GasPricer σ := L2GasPricer.mk curPrice floorPrice getTargetGasPerSecond
    maxPercentChangePerEpoch
  (p, none)

/-- Go `func (p *L2GasPricer) CalcNextGasPrice`: the supplier is invoked once, on the state
`s`; the result is the price and the supplier's state after the invocation.  The receiver is
read only. -/
def L2GasPricer.CalcNextGasPrice {σ : Type} (p : L2GasPricer σ)
    (avgGasPerSecondLastEpoch : F64) (s : σ) : F64 × σ :=
  let target := p.getTargetGasPerSecond s
  let proportionOfTarget := avgGasPerSecondLastEpoch / target.1
  let proportionToChangeBy :=
    if proportionOfTarget ≥ 1 then
      F64.Min proportionOfTarget (1 + p.maxPercentChangePerEpoch)
    else
      F64.Max proportionOfTarget (1 - p.maxPercentChangePerEpoch)
  (F64.Ceil (F64.Max p.floorPrice (p.curPrice * proportionToChangeBy)), target.2)

/-- Go `func (p *L2GasPricer) UpdateGasPrice`: assigns the computed price to `curPrice`. -/
def L2GasPricer.UpdateGasPrice {σ : Type} (p : L2GasPricer σ)
    (avgGasPerSecondLastEpoch : F64) (s : σ) : L2GasPricer σ × σ :=
  let next := p.CalcNextGasPrice avgGasPerSecondLastEpoch s
  (L2GasPricer.mk next.1 p.floorPrice p.getTargetGasPerSecond p.maxPercentChangePerEpoch,
    next.2)

/-- Go `returnConstFn` of the test file: a supplier without state. -/
def returnConstFn (retVal : F64) : GetTargetGasPerSecond Unit := fun _ => (retVal, ())

/-- The adjustment factor in the words of the specification, over exact numbers:
`min(ratio, 1 + m)` when `ratio >= 1`, `max(ratio, 1 - m)` when `ratio < 1`. -/
def specFactor (m ratio : ℚ) : ℚ :=
  if ratio ≥ 1 then min ratio (1 + m) else max ratio (1 - m)

/-- The final price in the words of the specification, over exact numbers:
`ceiling(max(floorPrice, currentPrice * f))`. -/
def specPrice (curPrice floorPrice f : ℚ) : ℤ :=
  ⌈max floorPrice (curPrice * f)⌉

/-- The local `proportionToChangeBy` of `CalcNextGasPrice` as a function of the maximum
change and of the quotient `proportionOfTarget`: the two branches of the `if`. -/
def proportionToChangeBy (maxPercentChangePerEpoch proportionOfTarget : F64) : F64 :=
  if proportionOfTarget ≥ 1 then
    F64.Min proportionOfTarget (1 + maxPercentChangePerEpoch)
  else
    F64.Max proportionOfTarget (1 - maxPercentChangePerEpoch)

/-- The single symmetric clamp in the words of the specification: the ratio clamped to the
interval `[1 - m, 1 + m]`, that is `max(1 - m, min(ratio, 1 + m))`. -/
def symmetricClamp (m ratio : F64) : F64 :=
  F64.Max (1 - m) (F64.Min ratio (1 + m))

/-! Definitions: binary64 arithmetic `Float64` and the pricer over it. -/

/-- Round to the nearest integer, ties to the even one. -/
def roundHalfEven (q : ℚ) : ℤ :=
  if q - ⌊q⌋ < 1 / 2 then ⌊q⌋
  else if 1 / 2 < q - ⌊q⌋ then ⌊q⌋ + 1
  else if ⌊q⌋ % 2 = 0 then ⌊q⌋ else ⌊q⌋ + 1

/-- The exponent of the unit in the last place of binary64 at `q`: 52 below the binary
exponent of `q`, and `-1074` throughout the subnormal range. -/
def ulpExp (q : ℚ) : ℤ := max (Int.log 2 |q|) (-1022) - 52

/-- The multiple of the unit in the last place nearest to `q`, ties to the even multiple:
binary64 rounding (round to nearest, ties to even) before the overflow test. -/
def roundToGrid (q : ℚ) : ℚ := (roundHalfEven (q / 2 ^ ulpExp q) : ℚ) * 2 ^ ulpExp q

/-- Go `math.MaxFloat64`, `2^1024 - 2^971`. -/
def MaxFloat64 : ℚ := 2 ^ 1024 - 2 ^ 971

/-- Go `float64` with binary64 arithmetic: `fin q` is the finite value `q` (`fin 0` is `+0`),
`nzero` is `-0`, and `nan`, `ninf`, `pinf` are `NaN`, `-Inf`, `+Inf`. -/
inductive Float64 where
  | nan : Float64
  | ninf : Float64
  | nzero : Float64
  | fin : ℚ → Float64
  | pinf : Float64
deriving DecidableEq

namespace Float64

instance : Inhabited Float64 := ⟨fin 0⟩

instance (n : Nat) : OfNat Float64 n := ⟨fin n⟩

/-- Go `math.Signbit`. -/
def signBit : Float64 → Bool
  | ninf => true
  | nzero => true
  | fin q => decide (q < 0)
  | _ => false

/-- The numeric value of a finite `float64` (both zeros have the value 0). -/
def toRat : Float64 → ℚ
  | fin q => q
  | _ => 0

/-- Whether the value is `+Inf` or `-Inf`. -/
def isInf : Float64 → Bool
  | ninf => true
  | pinf => true
  | _ => false

/-- Whether the value is `+0` or `-0`. -/
def isZero : Float64 → Bool
  | nzero => true
  | fin q => decide (q = 0)
  | _ => false

/-- Whether the value is finite: a zero or a non-zero finite value. -/
def isFinite : Float64 → Bool
  | nzero => true
  | fin _ => true
  | _ => false

/-- The zero of the given sign. -/
def signedZero (neg : Bool) : Float64 := if neg then nzero else fin 0

/-- The infinity of the given sign. -/
def signedInf (neg : Bool) : Float64 := if neg then ninf else pinf

/-- The binary64 value of the exact result `q` of an arithmetic operation: `q` rounded to
nearest, ties to even; an infinity when the rounded magnitude reaches `2^1024`; a zero of the
sign of `q` on underflow.  `zeroNeg` is the sign the operation gives to an exact zero. -/
def round (zeroNeg : Bool) (q : ℚ) : Float64 :=
  if q = 0 then signedZero zeroNeg
  else if 2 ^ 1024 ≤ |roundToGrid q| then signedInf (decide (q < 0))
  else if roundToGrid q = 0 then signedZero (decide (q < 0))
  else fin (roundToGrid q)

/-- Go `-x`. -/
def neg : Float64 → Float64
  | nan => nan
  | ninf => pinf
  | nzero => fin 0
  | fin q => if q = 0 then nzero else fin (-q)
  | pinf => ninf

/-- Go `x + y`: `Inf + -Inf` is `NaN`, an infinity absorbs a finite value, a finite sum is
rounded; an exact zero sum is `-0` only when both operands are negative zeros. -/
def add : Float64 → Float64 → Float64
  | nan, _ => nan
  | _, nan => nan
  | pinf, ninf => nan
  | ninf, pinf => nan
  | pinf, _ => pinf
  | _, pinf => pinf
  | ninf, _ => ninf
  | _, ninf => ninf
  | x, y => round (signBit x && signBit y) (toRat x + toRat y)

/-- Go `x - y`. -/
def sub (x y : Float64) : Float64 := add x (neg y)

/-- Go `x * y`: `Inf * 0` is `NaN`, an infinite product has the sign of the product, a
finite product is rounded. -/
def mul : Float64 → Float64 → Float64
  | nan, _ => nan
  | _, nan => nan
  | x, y =>
    if isInf x || isInf y then
      if isZero x || isZero y then nan else signedInf (xor (signBit x) (signBit y))
    else round (xor (signBit x) (signBit y)) (toRat x * toRat y)

/-- Go `x / y`: `Inf / Inf` and `0 / 0` are `NaN`, a non-zero value over a zero is an
infinity and a finite value over an infinity a zero, each of the sign of the quotient; a
finite quotient is rounded. -/
def div : Float64 → Float64 → Float64
  | nan, _ => nan
  | _, nan => nan
  | x, y =>
    if isInf x then (if isInf y then nan else signedInf (xor (signBit x) (signBit y)))
    else if isInf y then signedZero (xor (signBit x) (signBit y))
    else if isZero y then
      (if isZero x then nan else signedInf (xor (signBit x) (signBit y)))
    else round (xor (signBit x) (signBit y)) (toRat x / toRat y)

instance : Neg Float64 := ⟨neg⟩

instance : Add Float64 := ⟨add⟩

instance : Sub Float64 := ⟨sub⟩

instance : Mul Float64 := ⟨mul⟩

instance : Div Float64 := ⟨div⟩

/-- Go `x <= y`: false as soon as an operand is `NaN`; the two zeros are equal. -/
def le : Float64 → Float64 → Bool
  | nan, _ => false
  | _, nan => false
  | ninf, _ => true
  | _, pinf => true
  | pinf, _ => false
  | _, ninf => false
  | x, y => decide (toRat x ≤ toRat y)

/-- Go `x < y`: false as soon as an operand is `NaN`; the two zeros are equal. -/
def lt : Float64 → Float64 → Bool
  | nan, _ => false
  | _, nan => false
  | pinf, _ => false
  | _, ninf => false
  | ninf, _ => true
  | _, pinf => true
  | x, y => decide (toRat x < toRat y)

/-- Go `x == y`: `NaN` is equal to nothing, itself included; the two zeros are equal. -/
def beq : Float64 → Float64 → Bool
  | nan, _ => false
  | _, nan => false
  | ninf, y => decide (y = ninf)
  | pinf, y => decide (y = pinf)
  | _, ninf => false
  | _, pinf => false
  | x, y => decide (toRat x = toRat y)

instance : LE Float64 := ⟨fun x y => le x y = true⟩

instance : LT Float64 := ⟨fun x y => lt x y = true⟩

instance (x y : Float64) : Decidable (x ≤ y) := inferInstanceAs (Decidable (le x y = true))

instance (x y : Float64) : Decidable (x < y) := inferInstanceAs (Decidable (lt x y = true))

/-- Go `math.Min(x, y)`: `-Inf` wins first, then `NaN`; of two zeros the negative one; else
`x` if `x < y` and `y` otherwise. -/
def Min : Float64 → Float64 → Float64
  | ninf, _ => ninf
  | _, ninf => ninf
  | nan, _ => nan
  | _, nan => nan
  | x, y =>
    if isZero x && isZero y then (if signBit x then x else y)
    else if x < y then x else y

/-- Go `math.Max(x, y)`: `+Inf` wins first, then `NaN`; of two zeros the positive one; else
`x` if `x > y` and `y` otherwise. -/
def Max : Float64 → Float64 → Float64
  | pinf, _ => pinf
  | _, pinf => pinf
  | nan, _ => nan
  | _, nan => nan
  | x, y =>
    if isZero x && isZero y then (if signBit x then y else x)
    else if x > y then x else y

/-- Go `math.Ceil(x)`: the least integer value not below `x`, which is `-0` for `x` in
`(-1, 0)`; zeros, infinities and `NaN` are returned as they are. -/
def Ceil : Float64 → Float64
  | fin q => if q < 0 ∧ ⌈q⌉ = 0 then nzero else fin (⌈q⌉ : ℤ)
  | x => x

end Float64

/-- The finite values of binary64: `n * 2^e` with `|n| < 2^53` and `-1074 <= e <= 971`. -/
def IsBinary64 (q : ℚ) : Prop :=
  ∃ n e : ℤ, |n| < 2 ^ 53 ∧ -1074 ≤ e ∧ e ≤ 971 ∧ q = n * 2 ^ e

/-- The values a Go `float64` can hold: the special values, and the finite values of
binary64. -/
def Float64.Valid : Float64 → Prop
  | Float64.fin q => IsBinary64 q
  | _ => True

namespace Fees

open Float64

/-- Go `type GetTargetGasPerSecond func() float64`, the closure's state passed explicitly:
an invocation maps the state before it to the value returned and the state after it. -/
abbrev GetTargetGasPerSecond (σ : Type) : Type := σ → Float64 × σ

/-- Go `type L2GasPricer struct`. -/
structure L2GasPricer (σ : Type) where
  curPrice : Float64
  floorPrice : Float64
  getTargetGasPerSecond : GetTargetGasPerSecond σ
  maxPercentChangePerEpoch : Float64

/-- Go `func NewGasPricer`: a zero `curPrice` is replaced by `floorPrice`; the error
returned is always `nil` (`none`). -/
def NewGasPricer {σ : Type} (curPrice : Float64) (floorPrice : Float64)
    (getTargetGasPerSecond : GetTargetGasPerSecond σ) (maxPercentChangePerEpoch : Float64) :
    L2GasPricer σ × Option String :=
  let curPrice := if Float64.beq curPrice 0 = true then floorPrice else curPrice
  let p : L2GasPricer σ := L2GasPricer.mk curPrice floorPrice getTargetGasPerSecond
    maxPercentChangePerEpoch
  (p, none)

/-- Go `func (p *L2GasPricer) CalcNextGasPrice`, a method on a pointer receiver: the result
is the value returned, the receiver after the call and the supplier's state after the call.
The supplier is invoked once, on the state `s`; no statement assigns to the receiver. -/
def L2GasPricer.CalcNextGasPrice {σ : Type} (p : L2GasPricer σ)
    (avgGasPerSecondLastEpoch : Float64) (s : σ) : Float64 × L2GasPricer σ × σ :=
  let target := p.getTargetGasPerSecond s
  let proportionOfTarget := avgGasPerSecondLastEpoch / target.1
  let proportionToChangeBy :=
    if proportionOfTarget ≥ 1 then
      Float64.Min proportionOfTarget (1 + p.maxPercentChangePerEpoch)
    else
      Float64.Max proportionOfTarget (1 - p.maxPercentChangePerEpoch)
  (Float64.Ceil (Float64.Max p.floorPrice (p.curPrice * proportionToChangeBy)), p, target.2)

/-- Go `func (p *L2GasPricer) UpdateGasPrice`: calls `CalcNextGasPrice` and assigns the
value returned to `curPrice` of the receiver as the call left it. -/
def L2GasPricer.UpdateGasPrice {σ : Type} (p : L2GasPricer σ)
    (avgGasPerSecondLastEpoch : Float64) (s : σ) : L2GasPricer σ × σ :=
  let next := p.CalcNextGasPrice avgGasPerSecondLastEpoch s
  (L2GasPricer.mk next.1 next.2.1.floorPrice next.2.1.getTargetGasPerSecond
    next.2.1.maxPercentChangePerEpoch, next.2.2)

/-- Go `returnConstFn` of the test file: a supplier without state. -/
def returnConstFn (retVal : Float64) : GetTargetGasPerSecond Unit := fun _ => (retVal, ())

/-- The local `proportionToChangeBy` of `CalcNextGasPrice` as a function of the maximum
change and of the quotient `proportionOfTarget`: the two branches of the `if`. -/
def proportionToChangeBy (maxPercentChangePerEpoch proportionOfTarget : Float64) : Float64 :=
  if proportionOfTarget ≥ 1 then
    Float64.Min proportionOfTarget (1 + maxPercentChangePerEpoch)
  else
    Float64.Max proportionOfTarget (1 - maxPercentChangePerEpoch)

/-- The pricing rule of the specification as a step on the price, in binary64 arithmetic:
from the price `p`, the observed rate `x` and the target `t`, the ratio `x / t`, the factor
clamped by the maximum change, the candidate `p * f` and the price
`ceiling(max(floorPrice, candidate))`. -/
def step (floorPrice maxPercentChangePerEpoch p x t : Float64) : Float64 :=
  Float64.Ceil (Float64.Max floorPrice
    (p * proportionToChangeBy maxPercentChangePerEpoch (x / t)))

/-- The callers' loop: one `UpdateGasPrice` per observed rate, in order, threading the
supplier's state. -/
def UpdateGasPriceAll {σ : Type} (p : L2GasPricer σ) : List Float64 → σ → L2GasPricer σ × σ
  | [], s => (p, s)
  | x :: xs, s => UpdateGasPriceAll (p.UpdateGasPrice x s).1 xs (p.UpdateGasPrice x s).2

/-- The runs on which every quotient of `CalcNextGasPrice` is defined: at each call, in
order, the supplier does not return `NaN`, and the observed rate and the target are not both
zero (`0 / 0` is `NaN`). -/
def TargetsDefined {σ : Type} (g : GetTargetGasPerSecond σ) : List ℚ → σ → Prop
  | [], _ => True
  | x :: xs, s =>
    ((g s).1 ≠ Float64.nan ∧ (x ≠ 0 ∨ Float64.isZero (g s).1 = false)) ∧
      TargetsDefined g xs (g s).2

/-- Go `dynamicGetTarget` of the test `TestGasPricerDynamicTarget`: the closure's state is
its `counter`; an invocation adds one to the counter and returns the new value. -/
def dynamicGetTarget : GetTargetGasPerSecond Float64 :=
  fun counter => (counter + 1, counter + 1)

end Fees

/-- The adjustment factor in the words of the specification with every operation rounded to
binary64: `min(ratio, 1 + m)` when `ratio >= 1`, `max(ratio, 1 - m)` otherwise, for
`ratio = x / T`. -/
def specFactor64 (m x T : ℚ) : ℚ :=
  if 1 ≤ roundToGrid (x / T) then min (roundToGrid (x / T)) (roundToGrid (1 + m))
  else max (roundToGrid (x / T)) (roundToGrid (1 - m))

/-- The final price in the words of the specification with every operation rounded to
binary64: `ceiling(max(floorPrice, currentPrice * f))`. -/
def specPrice64 (curPrice floorPrice m x T : ℚ) : ℤ :=
  ⌈max floorPrice (roundToGrid (curPrice * specFactor64 m x T))⌉

/-! Theorems over the idealised embedding `F64`. -/

namespace F64

@[simp] theorem one_def : (1 : F64) = fin 1 := by
  show fin ((1 : ℕ) : ℚ) = fin 1
  norm_num

@[simp] theorem zero_def : (0 : F64) = fin 0 := by
  show fin ((0 : ℕ) : ℚ) = fin 0
  norm_num

@[simp] theorem fin_add (a b : ℚ) : fin a + fin b = fin (a + b) := rfl

@[simp] theorem fin_sub (a b : ℚ) : fin a - fin b = fin (a - b) := by
  show add (fin a) (neg (fin b)) = fin (a - b)
  simp [add, neg, sub_eq_add_neg]

@[simp] theorem fin_mul (a b : ℚ) : fin a * fin b = fin (a * b) := rfl

theorem fin_div (a b : ℚ) (hb : b ≠ 0) : fin a / fin b = fin (a / b) := by
  show div (fin a) (fin b) = fin (a / b)
  simp [div, hb]

theorem fin_div_zero_pos (a : ℚ) (ha : 0 < a) : fin a / fin 0 = pinf := by
  show div (fin a) (fin 0) = pinf
  simp [div, ha, ha.ne.symm]

theorem fin_div_zero_neg (a : ℚ) (ha : a < 0) : fin a / fin 0 = ninf := by
  show div (fin a) (fin 0) = ninf
  simp [div, ha.ne, not_lt.mpr ha.le]

@[simp] theorem fin_le_fin (a b : ℚ) : fin a ≤ fin b ↔ a ≤ b := by
  show le (fin a) (fin b) = true ↔ a ≤ b
  simp [le]

@[simp] theorem fin_lt_fin (a b : ℚ) : fin a < fin b ↔ a < b := by
  show lt (fin a) (fin b) = true ↔ a < b
  simp [lt]

@[simp] theorem Min_fin (a b : ℚ) : Min (fin a) (fin b) = fin (min a b) := by
  simp only [Min, fin_lt_fin]
  rcases lt_or_le a b with h | h
  · simp [h, h.le]
  · simp [not_lt.mpr h, h]

@[simp] theorem Max_fin (a b : ℚ) : Max (fin a) (fin b) = fin (max a b) := by
  simp only [Max, gt_iff_lt, fin_lt_fin]
  rcases lt_or_le b a with h | h
  · simp [h, h.le]
  · simp [not_lt.mpr h, h]

@[simp] theorem Ceil_fin (a : ℚ) : Ceil (fin a) = fin (⌈a⌉ : ℤ) := rfl

@[simp] theorem Min_pinf_fin (b : ℚ) : Min pinf (fin b) = fin b := rfl

@[simp] theorem Max_ninf_fin (b : ℚ) : Max ninf (fin b) = fin b := rfl

end F64

/-- On finite fields, a finite observed rate and a finite non-zero target, the computed
price is the finite value `specPrice` of the clamped factor of the exact quotient. -/
theorem calcNextGasPrice_fin {σ : Type} (g : GetTargetGasPerSecond σ) (s : σ)
    (cur floor m x T : ℚ) (hg : (g s).1 = F64.fin T) (hT : T ≠ 0) :
    ((L2GasPricer.mk (F64.fin cur) (F64.fin floor) g (F64.fin m)).CalcNextGasPrice
      (F64.fin x) s).1 = F64.fin (specPrice cur floor (specFactor m (x / T)) : ℤ) := by
  simp only [L2GasPricer.CalcNextGasPrice, hg, F64.fin_div x T hT, specPrice, specFactor,
    ge_iff_le, F64.one_def, F64.fin_le_fin, F64.fin_add, F64.fin_sub]
  split_ifs <;> simp

/-- With a non-negative maximum change the clamped factor lies in `[1 - m, 1 + m]`. -/
theorem specFactor_bounds (m r : ℚ) (hm : 0 ≤ m) :
    1 - m ≤ specFactor m r ∧ specFactor m r ≤ 1 + m := by
  unfold specFactor
  split_ifs with h
  · exact ⟨le_min (by linarith) (by linarith), min_le_right _ _⟩
  · exact ⟨le_max_right _ _, max_le (by linarith [not_le.mp h]) (by linarith)⟩

/-- With a non-negative maximum change the clamped factor is monotone in the ratio. -/
theorem specFactor_mono (m r r' : ℚ) (hm : 0 ≤ m) (h : r ≤ r') :
    specFactor m r ≤ specFactor m r' := by
  unfold specFactor
  split_ifs with h1 h2 h2
  · exact min_le_min_right _ h
  · exact absurd (le_trans h1 h) h2
  · exact max_le (le_min (by linarith [not_le.mp h1]) (by linarith))
      (le_min (by linarith) (by linarith))
  · exact max_le_max_right _ h

/-- A ratio of at least one gives a factor of at least one, a smaller ratio a factor of at
most one (non-negative maximum change). -/
theorem specFactor_side (m r : ℚ) (hm : 0 ≤ m) :
    (1 ≤ r → 1 ≤ specFactor m r) ∧ (r < 1 → specFactor m r ≤ 1) := by
  unfold specFactor
  constructor
  · intro h
    rw [if_pos h]
    exact le_min h (by linarith)
  · intro h
    rw [if_neg (not_le.mpr h)]
    exact max_le h.le (by linarith)

/-- A zero target under a zero observed rate: the quotient `0 / 0` is `NaN`, and so is the
computed price, whatever the finite fields are. -/
theorem calcNextGasPrice_zero_over_zero {σ : Type} (g : GetTargetGasPerSecond σ) (s : σ)
    (cur floor m : ℚ) (hg : (g s).1 = F64.fin 0) :
    ((L2GasPricer.mk (F64.fin cur) (F64.fin floor) g (F64.fin m)).CalcNextGasPrice
      (F64.fin 0) s).1 = F64.nan := by
  have h0 : F64.fin 0 / F64.fin 0 = F64.nan := by
    show F64.div (F64.fin 0) (F64.fin 0) = F64.nan
    simp [F64.div]
  have h1 : ¬ (F64.nan ≥ F64.fin 1) := by decide
  have h2 : F64.Max F64.nan (F64.fin (1 - m)) = F64.nan := rfl
  have h3 : F64.fin cur * F64.nan = F64.nan := rfl
  have h4 : F64.Max (F64.fin floor) F64.nan = F64.nan := rfl
  simp only [L2GasPricer.CalcNextGasPrice, hg, h0, F64.one_def, if_neg h1, F64.fin_sub, h2, h3,
    h4]
  rfl

/-- The price `specPrice` is never below the floor. -/
theorem floor_le_specPrice (cur floor f : ℚ) : floor ≤ (specPrice cur floor f : ℤ) :=
  le_trans (le_max_left _ _) (Int.le_ceil _)

/-- The six cases of `TestCalcGasPriceFarFromFloor` (price 100, floor 1, target 10,
maximum change 1/2): observed rates 10, 1, 5, 15/2, 100, 25/2 give 100, 50, 50, 75, 150, 125. -/
theorem test_CalcGasPriceFarFromFloor :
    ((L2GasPricer.mk (F64.fin 100) (F64.fin 1) (returnConstFn (F64.fin 10))
      (F64.fin (1/2))).CalcNextGasPrice (F64.fin 10) ()).1 = F64.fin 100 ∧
    ((L2GasPricer.mk (F64.fin 100) (F64.fin 1) (returnConstFn (F64.fin 10))
      (F64.fin (1/2))).CalcNextGasPrice (F64.fin 1) ()).1 = F64.fin 50 ∧
    ((L2GasPricer.mk (F64.fin 100) (F64.fin 1) (returnConstFn (F64.fin 10))
      (F64.fin (1/2))).CalcNextGasPrice (F64.fin 5) ()).1 = F64.fin 50 ∧
    ((L2GasPricer.mk (F64.fin 100) (F64.fin 1) (returnConstFn (F64.fin 10))
      (F64.fin (1/2))).CalcNextGasPrice (F64.fin (15/2)) ()).1 = F64.fin 75 ∧
    ((L2GasPricer.mk (F64.fin 100) (F64.fin 1) (returnConstFn (F64.fin 10))
      (F64.fin (1/2))).CalcNextGasPrice (F64.fin 100) ()).1 = F64.fin 150 ∧
    ((L2GasPricer.mk (F64.fin 100) (F64.fin 1) (returnConstFn (F64.fin 10))
      (F64.fin (1/2))).CalcNextGasPrice (F64.fin (25/2)) ()).1 = F64.fin 125 := by
  refine ⟨?_, ?_, ?_, ?_, ?_, ?_⟩ <;>
    rw [calcNextGasPrice_fin _ _ _ _ _ _ 10 rfl (by norm_num)] <;>
    norm_num [specPrice, specFactor]

/-- The three cases of `TestCalcGasPriceAtFloor` (price 100, floor 100, target 10, maximum
change 1/2): observed rates 10, 1, 100 give 100, 100, 150. -/
theorem test_CalcGasPriceAtFloor :
    ((L2GasPricer.mk (F64.fin 100) (F64.fin 100) (returnConstFn (F64.fin 10))
      (F64.fin (1/2))).CalcNextGasPrice (F64.fin 10) ()).1 = F64.fin 100 ∧
    ((L2GasPricer.mk (F64.fin 100) (F64.fin 100) (returnConstFn (F64.fin 10))
      (F64.fin (1/2))).CalcNextGasPrice (F64.fin 1) ()).1 = F64.fin 100 ∧
    ((L2GasPricer.mk (F64.fin 100) (F64.fin 100) (returnConstFn (F64.fin 10))
      (F64.fin (1/2))).CalcNextGasPrice (F64.fin 100) ()).1 = F64.fin 150 := by
  refine ⟨?_, ?_, ?_⟩ <;>
    rw [calcNextGasPrice_fin _ _ _ _ _ _ 10 rfl (by norm_num)] <;>
    norm_num [specPrice, specFactor]

/-- The test `TestGasPricerUpdates`: from price 100 and floor 100, target 10 and maximum
change 1/2, `UpdateGasPrice(12.5)` leaves `curPrice` at 125. -/
theorem test_GasPricerUpdates :
    ((L2GasPricer.mk (F64.fin 100) (F64.fin 100) (returnConstFn (F64.fin 10))
      (F64.fin (1/2))).UpdateGasPrice (F64.fin (25/2)) ()).1.curPrice = F64.fin 125 := by
  show ((L2GasPricer.mk (F64.fin 100) (F64.fin 100) (returnConstFn (F64.fin 10))
      (F64.fin (1/2))).CalcNextGasPrice (F64.fin (25/2)) ()).1 = F64.fin 125
  rw [calcNextGasPrice_fin _ _ _ _ _ _ 10 rfl (by norm_num)]
  norm_num [specPrice, specFactor]

/-- C2. Floor invariant: on finite fields, a finite observed rate and a finite non-zero
target, the price computed by `CalcNextGasPrice` is at least `floorPrice`. -/
theorem calcNextGasPrice_ge_floor {σ : Type} (g : GetTargetGasPerSecond σ) (s : σ)
    (cur floor m x T : ℚ) (hg : (g s).1 = F64.fin T) (hT : T ≠ 0) :
    F64.fin floor ≤ ((L2GasPricer.mk (F64.fin cur) (F64.fin floor) g
      (F64.fin m)).CalcNextGasPrice (F64.fin x) s).1 := by
  rw [calcNextGasPrice_fin g s cur floor m x T hg hT, F64.fin_le_fin, specPrice]
  exact le_trans (le_max_left _ _) (Int.le_ceil _)

/-- At price 100, floor 100, target 10, maximum change 1/2 and observed rate 1 the computed
price is not below the floor 100. -/
theorem calcNextGasPrice_ge_floor_witness :
    F64.fin 100 ≤ ((L2GasPricer.mk (F64.fin 100) (F64.fin 100) (returnConstFn (F64.fin 10))
      (F64.fin (1/2))).CalcNextGasPrice (F64.fin 1) ()).1 :=
  calcNextGasPrice_ge_floor (returnConstFn (F64.fin 10)) () 100 100 (1/2) 1 10 rfl (by norm_num)

/-- C5. Monotonicity: on finite fields with `curPrice >= 0` and `m >= 0` and a fixed finite
positive target, observed rates `x <= y` give `CalcNextGasPrice(x) <= CalcNextGasPrice(y)`. -/
theorem calcNextGasPrice_mono {σ : Type} (g : GetTargetGasPerSecond σ) (s : σ)
    (cur floor m T x y : ℚ) (hg : (g s).1 = F64.fin T) (hcur : 0 ≤ cur) (hm : 0 ≤ m)
    (hT : 0 < T) (hxy : x ≤ y) :
    ((L2GasPricer.mk (F64.fin cur) (F64.fin floor) g (F64.fin m)).CalcNextGasPrice
        (F64.fin x) s).1 ≤
      ((L2GasPricer.mk (F64.fin cur) (F64.fin floor) g (F64.fin m)).CalcNextGasPrice
        (F64.fin y) s).1 := by
  rw [calcNextGasPrice_fin g s cur floor m x T hg hT.ne.symm,
    calcNextGasPrice_fin g s cur floor m y T hg hT.ne.symm, F64.fin_le_fin, specPrice, specPrice]
  have hr : x / T ≤ y / T := div_le_div_of_nonneg_right hxy hT.le
  exact_mod_cast Int.ceil_le_ceil
    (max_le_max le_rfl (mul_le_mul_of_nonneg_left (specFactor_mono m _ _ hm hr) hcur))

/-- At price 100, floor 1, target 10 and maximum change 1/2, the observed rates 5 and 25/2
are ordered and so are the computed prices. -/
theorem calcNextGasPrice_mono_witness :
    ((L2GasPricer.mk (F64.fin 100) (F64.fin 1) (returnConstFn (F64.fin 10))
        (F64.fin (1/2))).CalcNextGasPrice (F64.fin 5) ()).1 ≤
      ((L2GasPricer.mk (F64.fin 100) (F64.fin 1) (returnConstFn (F64.fin 10))
        (F64.fin (1/2))).CalcNextGasPrice (F64.fin (25/2)) ()).1 :=
  calcNextGasPrice_mono (returnConstFn (F64.fin 10)) () 100 1 (1/2) 10 5 (25/2) rfl
    (by norm_num) (by norm_num) (by norm_num) (by norm_num)

/-- C6. No-change fixed point: on finite fields with `curPrice >= floorPrice` and `m >= 0`,
an observed rate equal to the finite non-zero target gives `ceiling(curPrice)`. -/
theorem calcNextGasPrice_at_target {σ : Type} (g : GetTargetGasPerSecond σ) (s : σ)
    (cur floor m T : ℚ) (hg : (g s).1 = F64.fin T) (hT : T ≠ 0) (hm : 0 ≤ m)
    (hfloor : floor ≤ cur) :
    ((L2GasPricer.mk (F64.fin cur) (F64.fin floor) g (F64.fin m)).CalcNextGasPrice
      (F64.fin T) s).1 = F64.Ceil (F64.fin cur) := by
  rw [calcNextGasPrice_fin g s cur floor m T T hg hT, F64.Ceil_fin, specPrice, div_self hT]
  have hf : specFactor m 1 = 1 := by
    unfold specFactor
    rw [if_pos le_rfl]
    exact min_eq_left (by linarith)
  rw [hf, mul_one, max_eq_right hfloor]

/-- At price 100, floor 1, target 10 and maximum change 1/2 ("No change expected when already
at target"), the observed rate 10 gives `ceiling(100)`. -/
theorem calcNextGasPrice_at_target_witness :
    ((L2GasPricer.mk (F64.fin 100) (F64.fin 1) (returnConstFn (F64.fin 10))
      (F64.fin (1/2))).CalcNextGasPrice (F64.fin 10) ()).1 = F64.Ceil (F64.fin 100) :=
  calcNextGasPrice_at_target (returnConstFn (F64.fin 10)) () 100 1 (1/2) 10 rfl (by norm_num)
    (by norm_num) (by norm_num)

/-- C9. Floor overrides the downward move: on finite fields with
`curPrice = floorPrice >= 0` and `m >= 0`, every finite observed rate below a finite positive
target gives `ceiling(floorPrice)`. -/
theorem calcNextGasPrice_at_floor_below_target {σ : Type} (g : GetTargetGasPerSecond σ)
    (s : σ) (floor m x T : ℚ) (hg : (g s).1 = F64.fin T) (hfloor : 0 ≤ floor) (hm : 0 ≤ m)
    (hT : 0 < T) (hx : x < T) :
    ((L2GasPricer.mk (F64.fin floor) (F64.fin floor) g (F64.fin m)).CalcNextGasPrice
      (F64.fin x) s).1 = F64.Ceil (F64.fin floor) := by
  rw [calcNextGasPrice_fin g s floor floor m x T hg hT.ne.symm, F64.Ceil_fin, specPrice]
  have hr : x / T < 1 := (div_lt_one hT).mpr hx
  have hf : specFactor m (x / T) ≤ 1 := (specFactor_side m (x / T) hm).2 hr
  have hle : floor * specFactor m (x / T) ≤ floor := by
    calc floor * specFactor m (x / T) ≤ floor * 1 := mul_le_mul_of_nonneg_left hf hfloor
      _ = floor := mul_one floor
  rw [max_eq_left hle]

/-- At price 100 and floor 100, target 10 and maximum change 1/2 ("No change expected when at
floorPrice"), the observed rate 1 gives `ceiling(100)`. -/
theorem calcNextGasPrice_at_floor_below_target_witness :
    ((L2GasPricer.mk (F64.fin 100) (F64.fin 100) (returnConstFn (F64.fin 10))
      (F64.fin (1/2))).CalcNextGasPrice (F64.fin 1) ()).1 = F64.Ceil (F64.fin 100) :=
  calcNextGasPrice_at_floor_below_target (returnConstFn (F64.fin 10)) () 100 (1/2) 1 10 rfl
    (by norm_num) (by norm_num) (by norm_num) (by norm_num)

/-- C10. `UpdateGasPrice(x)` sets `curPrice` to the value `CalcNextGasPrice(x)` computes on
the pre-state, with the target of the one supplier invocation made during the call, and
leaves `floorPrice`, the supplier and `maxPercentChangePerEpoch` unchanged. -/
theorem updateGasPrice_frame {σ : Type} (p : L2GasPricer σ) (x : F64) (s : σ) :
    (p.UpdateGasPrice x s).1.curPrice = (p.CalcNextGasPrice x s).1 ∧
    (p.UpdateGasPrice x s).1.floorPrice = p.floorPrice ∧
    (p.UpdateGasPrice x s).1.getTargetGasPerSecond = p.getTargetGasPerSecond ∧
    (p.UpdateGasPrice x s).1.maxPercentChangePerEpoch = p.maxPercentChangePerEpoch ∧
    (p.UpdateGasPrice x s).2 = (p.getTargetGasPerSecond s).2 :=
  ⟨rfl, rfl, rfl, rfl, rfl⟩

/-- C13. `NewGasPricer` never returns an error (the error is `nil` for every argument,
special values included, so nothing is rejected); the pricer returned has the `floorPrice`,
supplier and `maxPercentChangePerEpoch` given, and its `curPrice` is `floorPrice` if the
initial price is zero and the initial price otherwise. -/
theorem newGasPricer_result {σ : Type} (curPrice floorPrice : F64)
    (g : GetTargetGasPerSecond σ) (maxPercentChangePerEpoch : F64) :
    (NewGasPricer curPrice floorPrice g maxPercentChangePerEpoch).2 = none ∧
    (NewGasPricer curPrice floorPrice g maxPercentChangePerEpoch).1.floorPrice = floorPrice ∧
    (NewGasPricer curPrice floorPrice g maxPercentChangePerEpoch).1.getTargetGasPerSecond = g ∧
    (NewGasPricer curPrice floorPrice g maxPercentChangePerEpoch).1.maxPercentChangePerEpoch =
      maxPercentChangePerEpoch ∧
    (NewGasPricer curPrice floorPrice g maxPercentChangePerEpoch).1.curPrice =
      if curPrice = F64.fin 0 then floorPrice else curPrice := by
  refine ⟨rfl, rfl, rfl, rfl, ?_⟩
  rcases curPrice with _ | _ | c | _
  · rfl
  · rfl
  · by_cases h : c = 0
    · simp [NewGasPricer, F64.beq, h]
    · simp [NewGasPricer, F64.beq, h]
  · rfl

/-- C15. Symmetric clamp equivalence: for every `m >= 0` and every ratio (all `float64`
values), the two-branch factor of `CalcNextGasPrice` equals the single clamp
`max(1 - m, min(ratio, 1 + m))`, and so the computed price is
`ceiling(max(floorPrice, curPrice * clamp))` for the clamp of the quotient. -/
theorem proportionToChangeBy_eq_symmetricClamp {σ : Type} (p : L2GasPricer σ) (x : F64)
    (s : σ) (hm : 0 ≤ p.maxPercentChangePerEpoch) :
    (∀ ratio : F64, proportionToChangeBy p.maxPercentChangePerEpoch ratio =
      symmetricClamp p.maxPercentChangePerEpoch ratio) ∧
    (p.CalcNextGasPrice x s).1 = F64.Ceil (F64.Max p.floorPrice (p.curPrice *
      symmetricClamp p.maxPercentChangePerEpoch (x / (p.getTargetGasPerSecond s).1))) := by
  have key : ∀ ratio : F64, proportionToChangeBy p.maxPercentChangePerEpoch ratio =
      symmetricClamp p.maxPercentChangePerEpoch ratio := by
    intro r
    obtain ⟨cur, floor, g, m⟩ := p
    simp only at hm ⊢
    rcases m with _ | _ | m | _
    · exact absurd hm (by decide)
    · exact absurd hm (by decide)
    · rw [F64.zero_def, F64.fin_le_fin] at hm
      rcases r with _ | _ | r | _
      · rfl
      · rfl
      · simp only [proportionToChangeBy, symmetricClamp, F64.one_def, F64.fin_add,
          F64.fin_sub, ge_iff_le, F64.fin_le_fin, F64.Min_fin, F64.Max_fin]
        split_ifs with h
        · rw [max_eq_right (le_min (by linarith) (by linarith))]
        · rw [min_eq_left (by linarith [not_le.mp h]), max_comm]
      · have h1 : F64.pinf ≥ F64.fin 1 := by decide
        simp only [proportionToChangeBy, symmetricClamp, F64.one_def, if_pos h1, F64.fin_add,
          F64.fin_sub, F64.Min_pinf_fin, F64.Max_fin]
        rw [max_eq_right (by linarith)]
    · rcases r with _ | _ | r | _
      · rfl
      · rfl
      · have e1 : (1 : F64) + F64.pinf = F64.pinf := rfl
        have e2 : (1 : F64) - F64.pinf = F64.ninf := rfl
        have e3 : F64.Min (F64.fin r) F64.pinf = F64.fin r := rfl
        have e4 : F64.Max (F64.fin r) F64.ninf = F64.fin r := rfl
        simp only [proportionToChangeBy, symmetricClamp, e1, e2, e3, e4, F64.Max_ninf_fin,
          ite_self]
      · rfl
  exact ⟨key, congrArg (fun f => F64.Ceil (F64.Max p.floorPrice (p.curPrice * f)))
    (key (x / (p.getTargetGasPerSecond s).1))⟩

/-- At price 100, floor 1, target 10 and maximum change 1/2, the factor is the single clamp
for every ratio, and the price at observed rate 100 is the clamped one. -/
theorem proportionToChangeBy_eq_symmetricClamp_witness :
    (∀ ratio : F64, proportionToChangeBy (F64.fin (1/2)) ratio =
      symmetricClamp (F64.fin (1/2)) ratio) ∧
    ((L2GasPricer.mk (F64.fin 100) (F64.fin 1) (returnConstFn (F64.fin 10))
      (F64.fin (1/2))).CalcNextGasPrice (F64.fin 100) ()).1 =
      F64.Ceil (F64.Max (F64.fin 1) (F64.fin 100 *
        symmetricClamp (F64.fin (1/2)) (F64.fin 100 / F64.fin 10))) :=
  proportionToChangeBy_eq_symmetricClamp
    (L2GasPricer.mk (F64.fin 100) (F64.fin 1) (returnConstFn (F64.fin 10)) (F64.fin (1/2)))
    (F64.fin 100) ()
    (by
      show (0 : F64) ≤ F64.fin (1/2)
      rw [F64.zero_def, F64.fin_le_fin]
      norm_num)

/-- Multiplying a `float64` value by one leaves it unchanged, special values included. -/
theorem F64.mul_fin_one (c : F64) : c * F64.fin 1 = c := by
  rcases c with _ | _ | c | _
  · rfl
  · show F64.mul F64.ninf (F64.fin 1) = F64.ninf
    simp [F64.mul]
  · rw [F64.fin_mul, mul_one]
  · show F64.mul F64.pinf (F64.fin 1) = F64.pinf
    simp [F64.mul]

/-- C16, as stated, fails: at price 7, floor 3, maximum change 0, target 0 and observed
rate 0 the quotient `0 / 0` is `NaN` and `CalcNextGasPrice` returns `NaN`, not
`ceiling(max(3, 7)) = 7`. -/
theorem zero_max_change_counterexample :
    ((L2GasPricer.mk (F64.fin 7) (F64.fin 3) (returnConstFn (F64.fin 0))
      (F64.fin 0)).CalcNextGasPrice (F64.fin 0) ()).1 = F64.nan ∧
    F64.Ceil (F64.Max (F64.fin 3) (F64.fin 7)) = F64.fin 7 ∧
    F64.nan ≠ F64.fin 7 := by
  refine ⟨calcNextGasPrice_zero_over_zero (returnConstFn (F64.fin 0)) () 7 3 0 rfl, ?_,
    fun h => F64.noConfusion h⟩
  rw [F64.Max_fin, F64.Ceil_fin]
  norm_num

/-- C16, amended. Zero maximum change pins the price: for every pricer with
`maxPercentChangePerEpoch = 0` and every observed rate and target whose quotient is not `NaN`
(all `float64` values; for finite ones, observed rate and target not both zero),
`CalcNextGasPrice` returns `ceiling(max(floorPrice, curPrice))`. -/
theorem calcNextGasPrice_zero_max_change {σ : Type} (p : L2GasPricer σ) (x : F64) (s : σ)
    (hm : p.maxPercentChangePerEpoch = F64.fin 0)
    (h : x / (p.getTargetGasPerSecond s).1 ≠ F64.nan) :
    (p.CalcNextGasPrice x s).1 = F64.Ceil (F64.Max p.floorPrice p.curPrice) := by
  obtain ⟨cur, floor, g, m⟩ := p
  simp only at hm h ⊢
  subst hm
  simp only [L2GasPricer.CalcNextGasPrice]
  generalize x / (g s).1 = r at h ⊢
  have hf : (if r ≥ 1 then F64.Min r (1 + F64.fin 0) else F64.Max r (1 - F64.fin 0)) =
      F64.fin 1 := by
    rcases r with _ | _ | r | _
    · exact absurd rfl h
    · have h1 : ¬ (F64.ninf ≥ (1 : F64)) := by decide
      rw [if_neg h1, F64.one_def, F64.fin_sub, F64.Max_ninf_fin, sub_zero]
    · simp only [F64.one_def, F64.fin_add, F64.fin_sub, ge_iff_le, F64.fin_le_fin,
        F64.Min_fin, F64.Max_fin, add_zero, sub_zero]
      split_ifs with h1
      · rw [min_eq_right h1]
      · rw [max_eq_right (not_le.mp h1).le]
    · have h1 : F64.pinf ≥ (1 : F64) := by decide
      rw [if_pos h1, F64.one_def, F64.fin_add, F64.Min_pinf_fin, add_zero]
  rw [hf, F64.mul_fin_one]

/-- At price 100, floor 1, target 10 and maximum change 0, the observed rate 5 (quotient
`1/2`, not `NaN`) gives `ceiling(max(1, 100))`. -/
theorem calcNextGasPrice_zero_max_change_witness :
    ((L2GasPricer.mk (F64.fin 100) (F64.fin 1) (returnConstFn (F64.fin 10))
      (F64.fin 0)).CalcNextGasPrice (F64.fin 5) ()).1 =
      F64.Ceil (F64.Max (F64.fin 1) (F64.fin 100)) :=
  calcNextGasPrice_zero_max_change
    (L2GasPricer.mk (F64.fin 100) (F64.fin 1) (returnConstFn (F64.fin 10)) (F64.fin 0))
    (F64.fin 5) () rfl
    (by
      show F64.fin 5 / F64.fin 10 ≠ F64.nan
      rw [F64.fin_div 5 10 (by norm_num)]
      exact fun h => F64.noConfusion h)

/-- One `UpdateGasPrice` on finite fields, a finite observed rate and a finite non-zero
target: the new `curPrice` is the finite `specPrice`, the other fields are kept. -/
theorem updateGasPrice_fin {σ : Type} (g : GetTargetGasPerSecond σ) (s : σ)
    (cur floor m x T : ℚ) (hg : (g s).1 = F64.fin T) (hT : T ≠ 0) :
    ((L2GasPricer.mk (F64.fin cur) (F64.fin floor) g (F64.fin m)).UpdateGasPrice
      (F64.fin x) s).1 =
      L2GasPricer.mk (F64.fin (specPrice cur floor (specFactor m (x / T)) : ℤ)) (F64.fin floor)
        g (F64.fin m) := by
  have h := calcNextGasPrice_fin g s cur floor m x T hg hT
  simp only [L2GasPricer.UpdateGasPrice, h]

/-- At the target the factor is one (non-negative maximum change). -/
theorem specFactor_one (m : ℚ) (hm : 0 ≤ m) : specFactor m 1 = 1 := by
  unfold specFactor
  rw [if_pos le_rfl]
  exact min_eq_left (by linarith)

/-- C19. At-target update is idempotent: with a supplier that always returns the finite
non-zero target `T`, finite fields and `m >= 0`, calling `UpdateGasPrice(T)` twice leaves the
pricer as calling it once does; and a pricer whose `curPrice` is a whole number at or above
`floorPrice` is left unchanged by `UpdateGasPrice(T)`. -/
theorem updateGasPrice_at_target_idempotent {σ : Type} (g : GetTargetGasPerSecond σ)
    (cur floor m T : ℚ) (hg : ∀ s, (g s).1 = F64.fin T) (hT : T ≠ 0) (hm : 0 ≤ m) (s : σ) :
    (((L2GasPricer.mk (F64.fin cur) (F64.fin floor) g (F64.fin m)).UpdateGasPrice
        (F64.fin T) s).1.UpdateGasPrice (F64.fin T)
        ((L2GasPricer.mk (F64.fin cur) (F64.fin floor) g (F64.fin m)).UpdateGasPrice
          (F64.fin T) s).2).1 =
      ((L2GasPricer.mk (F64.fin cur) (F64.fin floor) g (F64.fin m)).UpdateGasPrice
        (F64.fin T) s).1 ∧
    (∀ n : ℤ, floor ≤ (n : ℚ) →
      ((L2GasPricer.mk (F64.fin (n : ℚ)) (F64.fin floor) g (F64.fin m)).UpdateGasPrice
        (F64.fin T) s).1 = L2GasPricer.mk (F64.fin (n : ℚ)) (F64.fin floor) g (F64.fin m)) := by
  have fixed : ∀ (n : ℤ) (s' : σ), floor ≤ (n : ℚ) →
      ((L2GasPricer.mk (F64.fin (n : ℚ)) (F64.fin floor) g (F64.fin m)).UpdateGasPrice
        (F64.fin T) s').1 = L2GasPricer.mk (F64.fin (n : ℚ)) (F64.fin floor) g (F64.fin m) := by
    intro n s' hn
    rw [updateGasPrice_fin g s' n floor m T T (hg s') hT, div_self hT, specFactor_one m hm,
      specPrice, mul_one, max_eq_right hn, Int.ceil_intCast]
  refine ⟨?_, fun n hn => fixed n s hn⟩
  rw [updateGasPrice_fin g s cur floor m T T (hg s) hT]
  exact fixed _ _ (floor_le_specPrice _ _ _)

/-- From price 199/2 and floor 1, with constant target 10 and maximum change 1/2, a second
`UpdateGasPrice(10)` changes nothing, and the whole price 100 is a fixed point. -/
theorem updateGasPrice_at_target_idempotent_witness :
    (((L2GasPricer.mk (F64.fin (199/2)) (F64.fin 1) (returnConstFn (F64.fin 10))
        (F64.fin (1/2))).UpdateGasPrice (F64.fin 10) ()).1.UpdateGasPrice (F64.fin 10)
        ((L2GasPricer.mk (F64.fin (199/2)) (F64.fin 1) (returnConstFn (F64.fin 10))
          (F64.fin (1/2))).UpdateGasPrice (F64.fin 10) ()).2).1 =
      ((L2GasPricer.mk (F64.fin (199/2)) (F64.fin 1) (returnConstFn (F64.fin 10))
        (F64.fin (1/2))).UpdateGasPrice (F64.fin 10) ()).1 ∧
    ((L2GasPricer.mk (F64.fin ((100 : ℤ) : ℚ)) (F64.fin 1) (returnConstFn (F64.fin 10))
        (F64.fin (1/2))).UpdateGasPrice (F64.fin 10) ()).1 =
      L2GasPricer.mk (F64.fin ((100 : ℤ) : ℚ)) (F64.fin 1) (returnConstFn (F64.fin 10))
        (F64.fin (1/2)) :=
  ⟨(updateGasPrice_at_target_idempotent (returnConstFn (F64.fin 10)) (199/2) 1 (1/2) 10
      (fun _ => rfl) (by norm_num) (by norm_num) ()).1,
    (updateGasPrice_at_target_idempotent (returnConstFn (F64.fin 10)) (199/2) 1 (1/2) 10
      (fun _ => rfl) (by norm_num) (by norm_num) ()).2 100 (by norm_num)⟩

/-- C20. The price moves in the direction of demand: on finite fields with `curPrice >= 0`
and `m >= 0` and a finite positive target `T`, an observed rate `x >= T` gives a price at
least `curPrice`, and an observed rate `x < T` gives a price at most
`ceiling(max(floorPrice, curPrice))`. -/
theorem calcNextGasPrice_direction {σ : Type} (g : GetTargetGasPerSecond σ) (s : σ)
    (cur floor m x T : ℚ) (hg : (g s).1 = F64.fin T) (hcur : 0 ≤ cur) (hm : 0 ≤ m)
    (hT : 0 < T) :
    (T ≤ x → F64.fin cur ≤
      ((L2GasPricer.mk (F64.fin cur) (F64.fin floor) g (F64.fin m)).CalcNextGasPrice
        (F64.fin x) s).1) ∧
    (x < T →
      ((L2GasPricer.mk (F64.fin cur) (F64.fin floor) g (F64.fin m)).CalcNextGasPrice
        (F64.fin x) s).1 ≤ F64.Ceil (F64.Max (F64.fin floor) (F64.fin cur))) := by
  rw [calcNextGasPrice_fin g s cur floor m x T hg hT.ne.symm, F64.Max_fin, F64.Ceil_fin,
    F64.fin_le_fin, F64.fin_le_fin, specPrice]
  constructor
  · intro hx
    have hr : 1 ≤ x / T := (one_le_div hT).mpr hx
    have hf : 1 ≤ specFactor m (x / T) := (specFactor_side m (x / T) hm).1 hr
    calc cur = cur * 1 := (mul_one cur).symm
      _ ≤ cur * specFactor m (x / T) := mul_le_mul_of_nonneg_left hf hcur
      _ ≤ max floor (cur * specFactor m (x / T)) := le_max_right _ _
      _ ≤ _ := Int.le_ceil _
  · intro hx
    have hr : x / T < 1 := (div_lt_one hT).mpr hx
    have hf : specFactor m (x / T) ≤ 1 := (specFactor_side m (x / T) hm).2 hr
    have hle : cur * specFactor m (x / T) ≤ cur := by
      calc cur * specFactor m (x / T) ≤ cur * 1 := mul_le_mul_of_nonneg_left hf hcur
        _ = cur := mul_one cur
    exact_mod_cast Int.ceil_le_ceil (max_le_max le_rfl hle)

/-- At price 100, floor 1, target 10 and maximum change 1/2: the observed rate 25/2 gives a
price of at least 100, the observed rate 5 a price of at most `ceiling(max(1, 100))`. -/
theorem calcNextGasPrice_direction_witness :
    F64.fin 100 ≤
      ((L2GasPricer.mk (F64.fin 100) (F64.fin 1) (returnConstFn (F64.fin 10))
        (F64.fin (1/2))).CalcNextGasPrice (F64.fin (25/2)) ()).1 ∧
    ((L2GasPricer.mk (F64.fin 100) (F64.fin 1) (returnConstFn (F64.fin 10))
        (F64.fin (1/2))).CalcNextGasPrice (F64.fin 5) ()).1 ≤
      F64.Ceil (F64.Max (F64.fin 1) (F64.fin 100)) :=
  ⟨(calcNextGasPrice_direction (returnConstFn (F64.fin 10)) () 100 1 (1/2) (25/2) 10 rfl
      (by norm_num) (by norm_num) (by norm_num)).1 (by norm_num),
    (calcNextGasPrice_direction (returnConstFn (F64.fin 10)) () 100 1 (1/2) 5 10 rfl
      (by norm_num) (by norm_num) (by norm_num)).2 (by norm_num)⟩

/-! Rounding to the nearest integer, ties to even. -/

theorem roundHalfEven_intCast (n : ℤ) : roundHalfEven (n : ℚ) = n := by
  simp [roundHalfEven]

theorem roundHalfEven_cases (q : ℚ) :
    (roundHalfEven q = ⌊q⌋ ∧ q - ⌊q⌋ ≤ 1 / 2) ∨ (roundHalfEven q = ⌊q⌋ + 1 ∧ 1 / 2 ≤ q - ⌊q⌋) := by
  unfold roundHalfEven
  split_ifs with h1 h2 h3
  · exact Or.inl ⟨rfl, h1.le⟩
  · exact Or.inr ⟨rfl, h2.le⟩
  · exact Or.inl ⟨rfl, not_lt.mp h2⟩
  · exact Or.inr ⟨rfl, not_lt.mp h1⟩

theorem roundHalfEven_of_near (q : ℚ) (n : ℤ) (h : |q - n| < 1 / 2) : roundHalfEven q = n := by
  rw [abs_lt] at h
  have hf1 : (⌊q⌋ : ℚ) ≤ q := Int.floor_le q
  have hf2 : q < ⌊q⌋ + 1 := Int.lt_floor_add_one q
  rcases roundHalfEven_cases q with ⟨he, hd⟩ | ⟨he, hd⟩
  · rw [he]
    have h1 : ((⌊q⌋ : ℤ) : ℚ) < n + 1 := by linarith [h.2]
    have h2 : (n : ℚ) < ⌊q⌋ + 1 := by linarith [h.1]
    have h1' : ⌊q⌋ < n + 1 := by exact_mod_cast h1
    have h2' : n < ⌊q⌋ + 1 := by exact_mod_cast h2
    omega
  · rw [he]
    have h1 : ((⌊q⌋ : ℤ) : ℚ) < n := by linarith [h.2]
    have h2 : (n : ℚ) < ⌊q⌋ + 2 := by linarith [h.1]
    have h1' : ⌊q⌋ < n := by exact_mod_cast h1
    have h2' : n < ⌊q⌋ + 2 := by exact_mod_cast h2
    omega

theorem roundHalfEven_mono {a b : ℚ} (h : a ≤ b) : roundHalfEven a ≤ roundHalfEven b := by
  have hfl : ⌊a⌋ ≤ ⌊b⌋ := Int.floor_le_floor h
  rcases hfl.lt_or_eq with hlt | heq
  · have ha : roundHalfEven a ≤ ⌊a⌋ + 1 := by
      rcases roundHalfEven_cases a with ⟨he, _⟩ | ⟨he, _⟩ <;> omega
    have hb : ⌊b⌋ ≤ roundHalfEven b := by
      rcases roundHalfEven_cases b with ⟨he, _⟩ | ⟨he, _⟩ <;> omega
    omega
  · unfold roundHalfEven
    rw [heq]
    have hd : a - ⌊b⌋ ≤ b - ⌊b⌋ := by linarith
    split_ifs <;> first | omega | (exfalso; linarith)

theorem roundHalfEven_neg (q : ℚ) : roundHalfEven (-q) = -roundHalfEven q := by
  by_cases hq : (⌊q⌋ : ℚ) = q
  · rw [← hq, ← Int.cast_neg, roundHalfEven_intCast, roundHalfEven_intCast]
  · have hlt : (⌊q⌋ : ℚ) < q := lt_of_le_of_ne (Int.floor_le q) hq
    have hf2 : q < ⌊q⌋ + 1 := Int.lt_floor_add_one q
    have hfn : ⌊-q⌋ = -⌊q⌋ - 1 := by
      rw [Int.floor_eq_iff]
      push_cast
      constructor <;> linarith
    unfold roundHalfEven
    rw [hfn]
    push_cast
    split_ifs <;> first | omega | (exfalso; linarith)

theorem roundHalfEven_nonneg {q : ℚ} (h : 0 ≤ q) : 0 ≤ roundHalfEven q := by
  have := roundHalfEven_mono h
  rwa [show (0 : ℚ) = ((0 : ℤ) : ℚ) by simp, roundHalfEven_intCast] at this

/-! The grid of binary64 values. -/

theorem two_zpow_pos (e : ℤ) : (0 : ℚ) < 2 ^ e := zpow_pos (by norm_num) e

theorem log_two_eq {q : ℚ} {k : ℤ} (hlo : 2 ^ k ≤ q) (hhi : q < 2 ^ (k + 1)) :
    Int.log 2 q = k := by
  have hq : 0 < q := lt_of_lt_of_le (two_zpow_pos k) hlo
  have h1 : k ≤ Int.log 2 q := by
    rw [← Int.zpow_le_iff_le_log (by norm_num) hq]
    simpa using hlo
  have h2 : Int.log 2 q < k + 1 := by
    rw [← Int.lt_zpow_iff_log_lt (by norm_num) hq]
    simpa using hhi
  omega

theorem two_zpow_log_le {q : ℚ} (hq : 0 < q) : (2 : ℚ) ^ Int.log 2 q ≤ q := by
  simpa using Int.zpow_log_le_self (b := 2) (by norm_num) hq

theorem lt_two_zpow_log_succ (q : ℚ) : q < (2 : ℚ) ^ (Int.log 2 q + 1) := by
  simpa using Int.lt_zpow_succ_log_self (b := 2) (by norm_num) q

theorem ulpExp_neg (q : ℚ) : ulpExp (-q) = ulpExp q := by
  simp [ulpExp]

theorem roundToGrid_neg (q : ℚ) : roundToGrid (-q) = -roundToGrid q := by
  unfold roundToGrid
  rw [ulpExp_neg, neg_div, roundHalfEven_neg]
  push_cast
  ring

theorem roundToGrid_zero : roundToGrid 0 = 0 := by
  simp [roundToGrid, roundHalfEven]

theorem roundToGrid_nonneg {q : ℚ} (h : 0 ≤ q) : 0 ≤ roundToGrid q := by
  unfold roundToGrid
  have h1 : 0 ≤ q / 2 ^ ulpExp q := div_nonneg h (two_zpow_pos _).le
  have h2 : (0 : ℚ) ≤ (roundHalfEven (q / 2 ^ ulpExp q) : ℚ) := by
    exact_mod_cast roundHalfEven_nonneg h1
  exact mul_nonneg h2 (two_zpow_pos _).le

theorem roundToGrid_nonpos {q : ℚ} (h : q ≤ 0) : roundToGrid q ≤ 0 := by
  have := roundToGrid_nonneg (neg_nonneg.mpr h)
  rw [roundToGrid_neg] at this
  linarith

/-- Evaluation of the rounding in a normal binade: `q` with `2^k <= |q| < 2^(k+1)` goes to
the multiple `n * 2^(k-52)` that is less than half a unit away. -/
theorem roundToGrid_eq (q : ℚ) (k n : ℤ) (hk : -1022 ≤ k) (hlo : 2 ^ k ≤ |q|)
    (hhi : |q| < 2 ^ (k + 1)) (hn : |q / 2 ^ (k - 52) - n| < 1 / 2) :
    roundToGrid q = n * 2 ^ (k - 52) := by
  have hlog : Int.log 2 |q| = k := log_two_eq hlo hhi
  have hu : ulpExp q = k - 52 := by
    unfold ulpExp
    rw [hlog, max_eq_left hk]
  unfold roundToGrid
  rw [hu, roundHalfEven_of_near _ n hn]

theorem roundToGrid_mono_pos {a b : ℚ} (ha : 0 < a) (h : a ≤ b) :
    roundToGrid a ≤ roundToGrid b := by
  have hb : 0 < b := lt_of_lt_of_le ha h
  have hle : Int.log 2 a ≤ Int.log 2 b := Int.log_mono_right ha h
  unfold roundToGrid ulpExp
  rw [abs_of_pos ha, abs_of_pos hb]
  by_cases heq : max (Int.log 2 a) (-1022) = max (Int.log 2 b) (-1022)
  · rw [heq]
    apply mul_le_mul_of_nonneg_right _ (two_zpow_pos _).le
    exact_mod_cast roundHalfEven_mono (div_le_div_of_nonneg_right h (two_zpow_pos _).le)
  · have hmax : max (Int.log 2 a) (-1022) < Int.log 2 b ∧
        max (Int.log 2 b) (-1022) = Int.log 2 b := by
      rcases le_total (Int.log 2 a) (-1022) with h1 | h1 <;>
        rcases le_total (Int.log 2 b) (-1022) with h2 | h2
      · exact absurd (by rw [max_eq_right h1, max_eq_right h2]) heq
      · rw [max_eq_right h1, max_eq_left h2] at heq ⊢
        exact ⟨lt_of_le_of_ne h2 heq, rfl⟩
      · rw [max_eq_left h1, max_eq_right h2] at heq
        exact absurd (by omega) heq
      · rw [max_eq_left h1, max_eq_left h2] at heq ⊢
        exact ⟨lt_of_le_of_ne hle heq, rfl⟩
    obtain ⟨hM, hB⟩ := hmax
    rw [hB]
    set M := max (Int.log 2 a) (-1022) with hMdef
    set lb := Int.log 2 b with hlb
    have hla : Int.log 2 a + 1 ≤ lb := by
      have : Int.log 2 a ≤ M := le_max_left _ _
      omega
    have haP : a ≤ (2 : ℚ) ^ lb :=
      le_trans (lt_two_zpow_log_succ a).le (zpow_le_zpow_right₀ (by norm_num) hla)
    have hPb : (2 : ℚ) ^ lb ≤ b := two_zpow_log_le hb
    -- the grid point `2 ^ lb` separates the two roundings
    have h1 : (roundHalfEven (a / 2 ^ (M - 52)) : ℚ) * 2 ^ (M - 52) ≤ 2 ^ lb := by
      obtain ⟨d, hd⟩ : ∃ d : ℕ, (d : ℤ) = lb - (M - 52) := ⟨(lb - (M - 52)).toNat, by omega⟩
      have hpow : (2 : ℚ) ^ lb = ((2 ^ d : ℤ) : ℚ) * 2 ^ (M - 52) := by
        have : lb = (d : ℤ) + (M - 52) := by omega
        rw [this, zpow_add₀ (by norm_num), zpow_natCast]
        push_cast
        ring
      rw [hpow]
      apply mul_le_mul_of_nonneg_right _ (two_zpow_pos _).le
      have hdiv : a / 2 ^ (M - 52) ≤ ((2 ^ d : ℤ) : ℚ) := by
        rw [div_le_iff₀ (two_zpow_pos _), ← hpow]
        exact haP
      have := roundHalfEven_mono hdiv
      rw [roundHalfEven_intCast] at this
      exact_mod_cast this
    have h2 : (2 : ℚ) ^ lb ≤ (roundHalfEven (b / 2 ^ (lb - 52)) : ℚ) * 2 ^ (lb - 52) := by
      have hpow : (2 : ℚ) ^ lb = ((2 ^ 52 : ℤ) : ℚ) * 2 ^ (lb - 52) := by
        have : lb = ((52 : ℕ) : ℤ) + (lb - 52) := by omega
        conv_lhs => rw [this, zpow_add₀ (by norm_num : (2 : ℚ) ≠ 0), zpow_natCast]
        push_cast
        ring
      rw [hpow]
      apply mul_le_mul_of_nonneg_right _ (two_zpow_pos _).le
      have hdiv : ((2 ^ 52 : ℤ) : ℚ) ≤ b / 2 ^ (lb - 52) := by
        rw [le_div_iff₀ (two_zpow_pos _), ← hpow]
        exact hPb
      have := roundHalfEven_mono hdiv
      rw [roundHalfEven_intCast] at this
      exact_mod_cast this
    exact le_trans h1 h2

/-- Rounding to binary64 is monotone. -/
theorem roundToGrid_mono {a b : ℚ} (h : a ≤ b) : roundToGrid a ≤ roundToGrid b := by
  rcases lt_trichotomy 0 a with ha | ha | ha
  · exact roundToGrid_mono_pos ha h
  · subst ha
    rw [roundToGrid_zero]
    exact roundToGrid_nonneg h
  · rcases le_or_lt 0 b with hb | hb
    · exact le_trans (roundToGrid_nonpos ha.le) (roundToGrid_nonneg hb)
    · have := roundToGrid_mono_pos (neg_pos.mpr hb) (neg_le_neg h)
      rw [roundToGrid_neg, roundToGrid_neg] at this
      linarith

/-! The order of Go's comparison operators, and the rounding of an exact result. -/

namespace Float64

theorem le_def (x y : Float64) : x ≤ y ↔ le x y = true := Iff.rfl

theorem lt_def (x y : Float64) : x < y ↔ lt x y = true := Iff.rfl

@[simp] theorem one_eq_fin : (1 : Float64) = fin 1 := by
  show fin ((1 : ℕ) : ℚ) = fin 1
  norm_num

@[simp] theorem zero_eq_fin : (0 : Float64) = fin 0 := by
  show fin ((0 : ℕ) : ℚ) = fin 0
  norm_num

@[simp] theorem fin_le_fin_iff (a b : ℚ) : fin a ≤ fin b ↔ a ≤ b := by
  simp [le_def, le, toRat]

@[simp] theorem fin_lt_fin_iff (a b : ℚ) : fin a < fin b ↔ a < b := by
  simp [lt_def, lt, toRat]

theorem le_nan_false (x : Float64) : ¬ (x ≤ nan) := by
  rcases x with _ | _ | _ | x | _ <;> simp [le_def, le]

theorem nan_le_false (x : Float64) : ¬ (nan ≤ x) := by
  simp [le_def, le]

theorem lt_nan_false (x : Float64) : ¬ (x < nan) := by
  rcases x with _ | _ | _ | x | _ <;> simp [lt_def, lt]

theorem nan_lt_false (x : Float64) : ¬ (nan < x) := by
  simp [lt_def, lt]

theorem ne_nan_of_le {x y : Float64} (h : x ≤ y) : x ≠ nan ∧ y ≠ nan := by
  constructor
  · rintro rfl
    exact nan_le_false _ h
  · rintro rfl
    exact le_nan_false _ h

theorem ninf_le {x : Float64} (h : x ≠ nan) : ninf ≤ x := by
  rcases x with _ | _ | _ | x | _ <;> simp_all [le_def, le]

theorem le_pinf {x : Float64} (h : x ≠ nan) : x ≤ pinf := by
  rcases x with _ | _ | _ | x | _ <;> simp_all [le_def, le]

theorem le_of_finite {x y : Float64} (hx : isFinite x = true) (hy : isFinite y = true) :
    x ≤ y ↔ toRat x ≤ toRat y := by
  rcases x with _ | _ | _ | x | _ <;> rcases y with _ | _ | _ | y | _ <;>
    simp_all [le_def, le, isFinite, toRat]

theorem lt_of_finite {x y : Float64} (hx : isFinite x = true) (hy : isFinite y = true) :
    x < y ↔ toRat x < toRat y := by
  rcases x with _ | _ | _ | x | _ <;> rcases y with _ | _ | _ | y | _ <;>
    simp_all [lt_def, lt, isFinite, toRat]

theorem le_refl_of_ne_nan {x : Float64} (h : x ≠ nan) : x ≤ x := by
  rcases x with _ | _ | _ | x | _ <;> simp_all [le_def, le]

theorem le_trans' {x y z : Float64} (h1 : x ≤ y) (h2 : y ≤ z) : x ≤ z := by
  rcases x with _ | _ | _ | x | _ <;> rcases y with _ | _ | _ | y | _ <;>
    rcases z with _ | _ | _ | z | _ <;>
    simp_all [le_def, le, toRat] <;> linarith

theorem lt_of_not_ge {x y : Float64} (hx : x ≠ nan) (hy : y ≠ nan) (h : ¬ (x ≥ y)) : x < y := by
  rcases x with _ | _ | _ | x | _ <;> rcases y with _ | _ | _ | y | _ <;>
    simp_all [ge_iff_le, le_def, lt_def, le, lt, toRat]

theorem not_ge_of_lt {x y : Float64} (h : x < y) : ¬ (x ≥ y) := by
  rcases x with _ | _ | _ | x | _ <;> rcases y with _ | _ | _ | y | _ <;>
    simp_all [ge_iff_le, le_def, lt_def, le, lt, toRat]

theorem le_of_lt' {x y : Float64} (h : x < y) : x ≤ y := by
  rcases x with _ | _ | _ | x | _ <;> rcases y with _ | _ | _ | y | _ <;>
    simp_all [le_def, lt_def, le, lt, toRat] <;> linarith

theorem round_of_lt (z : Bool) (q : ℚ) (h : |roundToGrid q| < 2 ^ 1024) :
    isFinite (round z q) = true ∧ toRat (round z q) = roundToGrid q := by
  unfold round
  by_cases hq : q = 0
  · subst hq
    cases z <;> simp [signedZero, isFinite, toRat, roundToGrid_zero]
  · rw [if_neg hq, if_neg (not_le.mpr h)]
    by_cases h0 : roundToGrid q = 0
    · rw [if_pos h0, h0]
      by_cases hneg : q < 0 <;> simp [signedZero, isFinite, toRat, hneg]
    · rw [if_neg h0]
      simp [isFinite, toRat]

theorem round_of_ge (z : Bool) (q : ℚ) (h : 2 ^ 1024 ≤ |roundToGrid q|) :
    round z q = signedInf (decide (q < 0)) := by
  have hq : q ≠ 0 := by
    rintro rfl
    rw [roundToGrid_zero, abs_zero] at h
    exact absurd h (by norm_num)
  unfold round
  rw [if_neg hq, if_pos h]

theorem round_ne_nan (z : Bool) (q : ℚ) : round z q ≠ nan := by
  rcases lt_or_le |roundToGrid q| (2 ^ 1024) with h | h
  · intro hn
    have := (round_of_lt z q h).1
    rw [hn] at this
    exact absurd this (by decide)
  · rw [round_of_ge z q h]
    by_cases hneg : q < 0 <;> simp [signedInf, hneg]

/-- Rounding is monotone in Go's order (the sign given to a zero does not matter). -/
theorem round_le_round (z z' : Bool) {a b : ℚ} (h : a ≤ b) : round z a ≤ round z' b := by
  have hm := roundToGrid_mono h
  rcases lt_or_le |roundToGrid a| (2 ^ 1024) with ha | ha
  · rcases lt_or_le |roundToGrid b| (2 ^ 1024) with hb | hb
    · rw [le_of_finite (round_of_lt z a ha).1 (round_of_lt z' b hb).1,
        (round_of_lt z a ha).2, (round_of_lt z' b hb).2]
      exact hm
    · rw [round_of_ge z' b hb]
      by_cases hneg : b < 0
      · exfalso
        have hb0 : roundToGrid b ≤ 0 := roundToGrid_nonpos hneg.le
        rw [abs_of_nonpos hb0] at hb
        rw [abs_lt] at ha
        linarith [ha.1]
      · simp only [hneg, decide_False, signedInf]
        exact le_pinf (round_ne_nan z a)
  · rw [round_of_ge z a ha]
    by_cases hneg : a < 0
    · simp only [hneg, decide_True, signedInf]
      exact ninf_le (round_ne_nan z' b)
    · have ha0 : 0 ≤ roundToGrid a := roundToGrid_nonneg (not_lt.mp hneg)
      rw [abs_of_nonneg ha0] at ha
      have hb : 2 ^ 1024 ≤ |roundToGrid b| := le_trans (le_trans ha hm) (le_abs_self _)
      have hbpos : ¬ (b < 0) := fun hb' => by
        have := roundToGrid_nonpos hb'.le
        linarith [le_trans ha hm, (by norm_num : (0 : ℚ) < 2 ^ 1024)]
      rw [round_of_ge z' b hb]
      simp [hneg, hbpos, signedInf, le_def, le]

/-- Evaluation of a rounding in a normal binade. -/
theorem round_eq_fin (z : Bool) (q : ℚ) (k n : ℤ) (hk : -1022 ≤ k) (hlo : 2 ^ k ≤ |q|)
    (hhi : |q| < 2 ^ (k + 1)) (hn : |q / 2 ^ (k - 52) - n| < 1 / 2)
    (hfin : |(n : ℚ) * 2 ^ (k - 52)| < 2 ^ 1024) (hn0 : n ≠ 0) :
    round z q = fin (n * 2 ^ (k - 52)) := by
  have hr := roundToGrid_eq q k n hk hlo hhi hn
  have hq : q ≠ 0 := by
    rintro rfl
    rw [abs_zero] at hlo
    exact absurd hlo (not_le.mpr (two_zpow_pos k))
  have hv : (n : ℚ) * 2 ^ (k - 52) ≠ 0 :=
    mul_ne_zero (by exact_mod_cast hn0) (two_zpow_pos _).ne.symm
  unfold round
  rw [if_neg hq, hr, if_neg (not_le.mpr hfin), if_neg hv]

end Float64

/-! Go `math.Max`, `math.Min` and `math.Ceil`. -/

namespace Float64

theorem Max_ne_nan {a y : Float64} (ha : a ≠ nan) (hy : y ≠ nan) : Max a y ≠ nan := by
  rcases a with _ | _ | _ | a | _ <;> rcases y with _ | _ | _ | y | _ <;>
    simp_all [Max, isZero, signBit] <;> split_ifs <;> simp

theorem le_Max_left {a y : Float64} (ha : a ≠ nan) (hy : y ≠ nan) : a ≤ Max a y := by
  rcases a with _ | _ | _ | a | _ <;> rcases y with _ | _ | _ | y | _ <;>
    simp_all [Max, isZero, signBit, le_def, lt_def, le, lt, toRat] <;>
    split_ifs <;> simp_all [le, toRat] <;> linarith

theorem le_Max_right {a y : Float64} (ha : a ≠ nan) (hy : y ≠ nan) : y ≤ Max a y := by
  rcases a with _ | _ | _ | a | _ <;> rcases y with _ | _ | _ | y | _ <;>
    simp_all [Max, isZero, signBit, le_def, lt_def, le, lt, toRat] <;>
    split_ifs <;> simp_all [le, toRat] <;> linarith

theorem Max_le_Max {a y y' : Float64} (ha : a ≠ nan) (h : y ≤ y') : Max a y ≤ Max a y' := by
  rcases a with _ | _ | _ | a | _ <;> rcases y with _ | _ | _ | y | _ <;>
    rcases y' with _ | _ | _ | y' | _ <;>
    simp_all [Max, isZero, signBit, le_def, lt_def, le, lt, toRat] <;>
    split_ifs <;> simp_all [le, toRat] <;> linarith

theorem Ceil_fin_eq (q : ℚ) :
    Ceil (fin q) = if q < 0 ∧ ⌈q⌉ = 0 then nzero else fin (⌈q⌉ : ℤ) := rfl

/-- The ceiling of a finite value is a finite whole number. -/
theorem Ceil_of_finite {x : Float64} (h : isFinite x = true) :
    isFinite (Ceil x) = true ∧ toRat (Ceil x) = (⌈toRat x⌉ : ℤ) := by
  rcases x with _ | _ | _ | x | _
  · exact absurd h (by decide)
  · exact absurd h (by decide)
  · exact ⟨rfl, by simp [Ceil, toRat]⟩
  · rw [Ceil_fin_eq]
    split_ifs with h1
    · exact ⟨rfl, by simp [toRat, h1.2]⟩
    · exact ⟨rfl, rfl⟩
  · exact absurd h (by decide)

theorem Ceil_of_not_finite {x : Float64} (h : isFinite x = false) : Ceil x = x := by
  rcases x with _ | _ | _ | x | _ <;> first | rfl | exact absurd h (by simp [isFinite])

theorem ne_nan_of_finite {x : Float64} (h : isFinite x = true) : x ≠ nan := by
  rintro rfl
  exact absurd h (by decide)

theorem Ceil_ne_nan {x : Float64} (h : x ≠ nan) : Ceil x ≠ nan := by
  by_cases hf : isFinite x = true
  · exact ne_nan_of_finite (Ceil_of_finite hf).1
  · rw [Ceil_of_not_finite (by simpa using hf)]
    exact h

theorem le_Ceil {x : Float64} (h : x ≠ nan) : x ≤ Ceil x := by
  by_cases hf : isFinite x = true
  · rw [le_of_finite hf (Ceil_of_finite hf).1, (Ceil_of_finite hf).2]
    exact Int.le_ceil _
  · rw [Ceil_of_not_finite (by simpa using hf)]
    exact le_refl_of_ne_nan h

theorem Ceil_le_Ceil {x y : Float64} (h : x ≤ y) : Ceil x ≤ Ceil y := by
  by_cases hx : isFinite x = true
  · by_cases hy : isFinite y = true
    · rw [le_of_finite (Ceil_of_finite hx).1 (Ceil_of_finite hy).1, (Ceil_of_finite hx).2,
        (Ceil_of_finite hy).2]
      rw [le_of_finite hx hy] at h
      exact_mod_cast Int.ceil_le_ceil h
    · have hy' : y = pinf := by
        rcases x with _ | _ | _ | x | _ <;> rcases y with _ | _ | _ | y | _ <;>
          simp_all [le_def, le, isFinite]
      rw [hy']
      exact le_pinf (Ceil_ne_nan (ne_nan_of_finite hx))
  · rw [Ceil_of_not_finite (by simpa using hx)]
    exact le_trans' h (le_Ceil (ne_nan_of_le h).2)

theorem Ceil_Ceil (x : Float64) : Ceil (Ceil x) = Ceil x := by
  rcases x with _ | _ | _ | x | _ <;> try rfl
  rw [Ceil_fin_eq]
  split_ifs with h1
  · rfl
  · rw [Ceil_fin_eq, Int.ceil_intCast, if_neg]
    rintro ⟨h2, h3⟩
    rw [h3] at h2
    simp at h2

theorem Max_of_finite {a y : Float64} (ha : isFinite a = true) (hy : isFinite y = true) :
    isFinite (Max a y) = true ∧ toRat (Max a y) = max (toRat a) (toRat y) := by
  rcases a with _ | _ | _ | a | _ <;> rcases y with _ | _ | _ | y | _ <;>
    simp_all [Max, isFinite, isZero, signBit, toRat, lt_def, lt] <;>
    split_ifs <;> simp_all [isFinite, toRat] <;>
    first | linarith | (rw [max_eq_left (by linarith)]) | (rw [max_eq_right (by linarith)])

theorem Min_of_finite {a y : Float64} (ha : isFinite a = true) (hy : isFinite y = true) :
    isFinite (Min a y) = true ∧ toRat (Min a y) = min (toRat a) (toRat y) := by
  rcases a with _ | _ | _ | a | _ <;> rcases y with _ | _ | _ | y | _ <;>
    simp_all [Min, isFinite, isZero, signBit, toRat, lt_def, lt] <;>
    split_ifs <;> simp_all [isFinite, toRat] <;>
    first | linarith | (rw [min_eq_left (by linarith)]) | (rw [min_eq_right (by linarith)])

end Float64

/-! Arithmetic on finite operands. -/

namespace Float64

theorem isFinite_fin (q : ℚ) : isFinite (fin q) = true := rfl

theorem toRat_fin (q : ℚ) : toRat (fin q) = q := rfl

theorem one_add_fin (m : ℚ) : (1 : Float64) + fin m = round false (1 + m) := by
  show add (fin ((1 : ℕ) : ℚ)) (fin m) = round false (1 + m)
  have h1 : ¬ ((1 : ℚ) < 0) := by norm_num
  simp [add, signBit, toRat, h1]

theorem one_sub_fin (m : ℚ) : (1 : Float64) - fin m = round false (1 - m) := by
  show add (fin ((1 : ℕ) : ℚ)) (neg (fin m)) = round false (1 - m)
  have h1 : ¬ ((1 : ℚ) < 0) := by norm_num
  by_cases h : m = 0
  · simp [add, neg, signBit, toRat, h, h1]
  · simp [add, neg, signBit, toRat, h, h1, sub_eq_add_neg]

theorem mul_of_finite {x y : Float64} (hx : isFinite x = true) (hy : isFinite y = true) :
    x * y = round (xor (signBit x) (signBit y)) (toRat x * toRat y) := by
  show mul x y = _
  rcases x with _ | _ | _ | x | _ <;> rcases y with _ | _ | _ | y | _ <;>
    simp_all [mul, isFinite, isInf]

theorem div_of_finite {x y : Float64} (hx : isFinite x = true) (hy : isFinite y = true)
    (h0 : isZero y = false) :
    x / y = round (xor (signBit x) (signBit y)) (toRat x / toRat y) := by
  show div x y = _
  rcases x with _ | _ | _ | x | _ <;> rcases y with _ | _ | _ | y | _ <;>
    simp_all [div, isFinite, isInf, isZero]

theorem div_ne_nan_of_finite {x y : Float64} (hx : isFinite x = true) (hy : y ≠ nan)
    (h0 : isZero x = false ∨ isZero y = false) : x / y ≠ nan := by
  by_cases hyf : isFinite y = true
  · by_cases hz : isZero y = true
    · have hxz : isZero x = false := by
        rcases h0 with h | h
        · exact h
        · rw [hz] at h
          exact absurd h (by decide)
      show div x y ≠ nan
      rcases x with _ | _ | _ | x | _ <;> rcases y with _ | _ | _ | y | _ <;>
        simp_all [div, isFinite, isInf, isZero, signedInf] <;> split_ifs <;> simp
    · rw [div_of_finite hx hyf (by simpa using hz)]
      exact round_ne_nan _ _
  · show div x y ≠ nan
    rcases x with _ | _ | _ | x | _ <;> rcases y with _ | _ | _ | y | _ <;>
      simp_all [div, isFinite, isInf, isZero, signedZero] <;> split_ifs <;> simp

theorem mul_ne_nan_of_finite {x y : Float64} (hx : isFinite x = true) (hy : isFinite y = true) :
    x * y ≠ nan := by
  rw [mul_of_finite hx hy]
  exact round_ne_nan _ _

theorem round_one (z : Bool) : round z 1 = fin 1 := by
  have h := round_eq_fin z 1 0 (2 ^ 52) (by norm_num) (by norm_num) (by norm_num)
    (by norm_num) (by norm_num) (by norm_num)
  rw [h]
  norm_num

theorem round_two (z : Bool) : round z 2 = fin 2 := by
  have h := round_eq_fin z 2 1 (2 ^ 52) (by norm_num) (by norm_num) (by norm_num)
    (by norm_num) (by norm_num) (by norm_num)
  rw [h]
  norm_num

/-- With `m >= 0` the upper factor `1 + m` is at least one. -/
theorem one_le_one_add {m : Float64} (hm : 0 ≤ m) : (1 : Float64) ≤ 1 + m := by
  rcases m with _ | _ | _ | m | _
  · exact absurd hm (le_nan_false _)
  · exact absurd hm (by simp [le_def, le])
  · show (1 : Float64) ≤ add (fin ((1 : ℕ) : ℚ)) nzero
    simp [add, signBit, toRat, round_one]
  · rw [zero_eq_fin, fin_le_fin_iff] at hm
    rw [one_add_fin, one_eq_fin, ← round_one false]
    exact round_le_round _ _ (by linarith)
  · show (1 : Float64) ≤ pinf
    simp [le_def, le]

/-- With `m >= 0` the lower factor `1 - m` is at most one. -/
theorem one_sub_le_one {m : Float64} (hm : 0 ≤ m) : (1 : Float64) - m ≤ 1 := by
  rcases m with _ | _ | _ | m | _
  · exact absurd hm (le_nan_false _)
  · exact absurd hm (by simp [le_def, le])
  · show add (fin ((1 : ℕ) : ℚ)) (neg nzero) ≤ (1 : Float64)
    simp [add, neg, signBit, toRat, round_one]
  · rw [zero_eq_fin, fin_le_fin_iff] at hm
    rw [one_sub_fin, one_eq_fin, ← round_one false]
    exact round_le_round _ _ (by linarith)
  · show ninf ≤ (1 : Float64)
    simp [le_def, le]

/-- With `m < 0` the factor `1 + m` is at most one: equal to one when `m` is absorbed. -/
theorem one_add_le_one {m : Float64} (hm : m < 0) : (1 : Float64) + m ≤ 1 := by
  rcases m with _ | _ | _ | m | _
  · exact absurd hm (nan_lt_false _)
  · show ninf ≤ (1 : Float64)
    simp [le_def, le]
  · exact absurd hm (by simp [lt_def, lt, toRat])
  · rw [zero_eq_fin, fin_lt_fin_iff] at hm
    rw [one_add_fin, one_eq_fin, ← round_one false]
    exact round_le_round _ _ (by linarith)
  · exact absurd hm (by simp [lt_def, lt])

/-- With `m < 0` the factor `1 - m` is at least one: equal to one when `m` is absorbed. -/
theorem one_le_one_sub {m : Float64} (hm : m < 0) : (1 : Float64) ≤ 1 - m := by
  rcases m with _ | _ | _ | m | _
  · exact absurd hm (nan_lt_false _)
  · show (1 : Float64) ≤ pinf
    simp [le_def, le]
  · exact absurd hm (by simp [lt_def, lt, toRat])
  · rw [zero_eq_fin, fin_lt_fin_iff] at hm
    rw [one_sub_fin, one_eq_fin, ← round_one false]
    exact round_le_round _ _ (by linarith)
  · exact absurd hm (by simp [lt_def, lt])

theorem isZero_eq_false_of_one_le {b : Float64} (h : (1 : Float64) ≤ b) : isZero b = false := by
  rcases b with _ | _ | _ | b | _
  · exact absurd h (le_nan_false _)
  · exact absurd h (by simp [le_def, le])
  · exact absurd h (by simp [le_def, le, toRat])
  · rw [one_eq_fin, fin_le_fin_iff] at h
    have : b ≠ 0 := by
      rintro rfl
      norm_num at h
    simp [isZero, this]
  · rfl

/-- Go `math.Min(r, b)` is `b` when `b <= r`, unless both are zeros. -/
theorem Min_eq_right {r b : Float64} (h : b ≤ r) (hz : isZero r = false ∨ isZero b = false) :
    Min r b = b := by
  rcases r with _ | _ | _ | r | _ <;> rcases b with _ | _ | _ | b | _ <;>
    simp_all [Min, le_def, lt_def, le, lt, isZero, signBit, toRat] <;>
    split_ifs <;> (try simp_all) <;> (try linarith)

/-- Go `math.Max(r, a)` is `a` when `r <= a`, unless `a` is `-0` and `r` is `+0`. -/
theorem Max_eq_right {r a : Float64} (h : r ≤ a) (hz : a ≠ nzero ∨ signBit r = true) :
    Max r a = a := by
  rcases r with _ | _ | _ | r | _ <;> rcases a with _ | _ | _ | a | _ <;>
    simp_all [Max, le_def, lt_def, le, lt, isZero, signBit, toRat] <;>
    split_ifs <;> (try simp_all) <;> (try linarith)

theorem le_Min {c r b : Float64} (h1 : c ≤ r) (h2 : c ≤ b) : c ≤ Min r b := by
  rcases c with _ | _ | _ | c | _ <;> rcases r with _ | _ | _ | r | _ <;>
    rcases b with _ | _ | _ | b | _ <;>
    simp_all [Min, isZero, signBit, le_def, lt_def, le, lt, toRat] <;>
    split_ifs <;> simp_all [le, toRat]

theorem Min_le_right {r b : Float64} (hr : r ≠ nan) (hb : b ≠ nan) : Min r b ≤ b := by
  rcases r with _ | _ | _ | r | _ <;> rcases b with _ | _ | _ | b | _ <;>
    simp_all [Min, isZero, signBit, le_def, lt_def, le, lt, toRat] <;>
    split_ifs <;> simp_all [le, toRat] <;> linarith

theorem Max_le {r a c : Float64} (h1 : r ≤ c) (h2 : a ≤ c) : Max r a ≤ c := by
  rcases c with _ | _ | _ | c | _ <;> rcases r with _ | _ | _ | r | _ <;>
    rcases a with _ | _ | _ | a | _ <;>
    simp_all [Max, isZero, signBit, le_def, lt_def, le, lt, toRat] <;>
    split_ifs <;> simp_all [le, toRat]

/-- A value between two finite values is finite. -/
theorem isFinite_of_between {a f b : Float64} (ha : isFinite a = true) (hb : isFinite b = true)
    (h1 : a ≤ f) (h2 : f ≤ b) : isFinite f = true := by
  rcases a with _ | _ | _ | a | _ <;> rcases b with _ | _ | _ | b | _ <;>
    rcases f with _ | _ | _ | f | _ <;>
    simp_all [isFinite, le_def, le]

theorem roundToGrid_one : roundToGrid 1 = 1 := by
  have h := roundToGrid_eq 1 0 (2 ^ 52) (by norm_num) (by norm_num) (by norm_num) (by norm_num)
  rw [h]
  norm_num

theorem roundToGrid_maxFloat_succ : roundToGrid (MaxFloat64 + 1) = MaxFloat64 := by
  have h := roundToGrid_eq (MaxFloat64 + 1) 1023 (2 ^ 53 - 1) (by norm_num)
    (by norm_num [MaxFloat64]) (by norm_num [MaxFloat64])
    (by
      rw [abs_lt]
      constructor <;> norm_num [MaxFloat64])
  rw [h]
  norm_num [MaxFloat64]

/-- A sum or difference of one and a value within the `float64` range does not overflow. -/
theorem abs_roundToGrid_lt {q : ℚ} (h : |q| ≤ MaxFloat64 + 1) : |roundToGrid q| < 2 ^ 1024 := by
  rw [abs_le] at h
  have h1 : roundToGrid q ≤ MaxFloat64 := by
    rw [← roundToGrid_maxFloat_succ]
    exact roundToGrid_mono h.2
  have h2 : -MaxFloat64 ≤ roundToGrid q := by
    rw [← roundToGrid_maxFloat_succ, ← roundToGrid_neg]
    exact roundToGrid_mono h.1
  have h3 : MaxFloat64 < 2 ^ 1024 := by norm_num [MaxFloat64]
  rw [abs_lt]
  constructor <;> linarith

/-- Evaluation of a rounding of a positive value in a normal binade, with the nearness
written as two inequalities. -/
theorem round_eq_fin_pos (z : Bool) (q : ℚ) (k n : ℤ) (hk : -1022 ≤ k) (hlo : 2 ^ k ≤ q)
    (hhi : q < 2 ^ (k + 1)) (hn1 : (n : ℚ) - 1 / 2 < q / 2 ^ (k - 52))
    (hn2 : q / 2 ^ (k - 52) < n + 1 / 2) (hfin : (n : ℚ) * 2 ^ (k - 52) < 2 ^ 1024)
    (hn0 : 0 < n) : round z q = fin (n * 2 ^ (k - 52)) := by
  have hq : 0 < q := lt_of_lt_of_le (two_zpow_pos k) hlo
  have hv : (0 : ℚ) < (n : ℚ) * 2 ^ (k - 52) :=
    mul_pos (by exact_mod_cast hn0) (two_zpow_pos _)
  apply round_eq_fin z q k n hk
  · rwa [abs_of_pos hq]
  · rwa [abs_of_pos hq]
  · rw [abs_lt]
    constructor <;> linarith
  · rwa [abs_of_pos hv]
  · exact hn0.ne.symm

/-- A positive value that is a 53-bit multiple of the unit in the last place of its binade
is a binary64 value: rounding leaves it as it is. -/
theorem round_exact_pos (z : Bool) (q : ℚ) (k n : ℤ) (hk : -1022 ≤ k) (hk' : k ≤ 1023)
    (hq : q = n * 2 ^ (k - 52)) (hlo : 2 ^ 52 ≤ n) (hhi : n < 2 ^ 53) : round z q = fin q := by
  have hn0 : 0 < n := lt_of_lt_of_le (by norm_num) hlo
  have hu : (0 : ℚ) < 2 ^ (k - 52) := two_zpow_pos _
  have e1 : (2 : ℚ) ^ k = 2 ^ 52 * 2 ^ (k - 52) := by
    rw [← zpow_natCast (2 : ℚ) 52, ← zpow_add₀ (by norm_num : (2 : ℚ) ≠ 0)]
    congr 1
    omega
  have e2 : (2 : ℚ) ^ (k + 1) = 2 ^ 53 * 2 ^ (k - 52) := by
    rw [← zpow_natCast (2 : ℚ) 53, ← zpow_add₀ (by norm_num : (2 : ℚ) ≠ 0)]
    congr 1
    omega
  have hlo' : (2 : ℚ) ^ 52 ≤ n := by exact_mod_cast hlo
  have hhi' : (n : ℚ) < 2 ^ 53 := by exact_mod_cast hhi
  have hdiv : q / 2 ^ (k - 52) = n := by
    rw [hq, mul_div_assoc, div_self hu.ne.symm, mul_one]
  have h := round_eq_fin_pos z q k n hk
    (by rw [e1, hq]; exact mul_le_mul_of_nonneg_right hlo' hu.le)
    (by rw [e2, hq]; exact mul_lt_mul_of_pos_right hhi' hu)
    (by rw [hdiv]; linarith) (by rw [hdiv]; linarith)
    (by
      have h1 : (n : ℚ) * 2 ^ (k - 52) < 2 ^ 53 * 2 ^ (k - 52) :=
        mul_lt_mul_of_pos_right hhi' hu
      have h2 : (2 : ℚ) ^ 53 * 2 ^ (k - 52) ≤ 2 ^ 1024 := by
        rw [← e2, ← zpow_natCast (2 : ℚ) 1024]
        exact zpow_le_zpow_right₀ (by norm_num) (by omega)
      linarith)
    hn0
  rw [h, hq]

theorem roundToGrid_min_subnormal : roundToGrid (2 ^ (-1074 : ℤ)) = 2 ^ (-1074 : ℤ) := by
  have hlog : Int.log 2 ((2 : ℚ) ^ (-1074 : ℤ)) = -1074 := by
    have := Int.log_zpow (R := ℚ) (b := 2) (by norm_num) (-1074)
    simpa using this
  have hu : ulpExp (2 ^ (-1074 : ℤ)) = -1074 := by
    unfold ulpExp
    rw [abs_of_pos (two_zpow_pos _), hlog]
    norm_num
  unfold roundToGrid
  rw [hu, div_self (two_zpow_pos _).ne.symm]
  have : roundHalfEven 1 = 1 := by
    have := roundHalfEven_intCast 1
    simpa using this
  rw [this]
  simp

theorem one_sub_multiple_aux (d : ℕ) (n : ℤ) (t : ℕ) :
    ∃ K : ℤ, 1 - (n : ℚ) * 2 ^ ((t : ℤ) + -(d : ℤ)) = K * 2 ^ (-(d : ℤ)) := by
  refine ⟨2 ^ d - n * 2 ^ t, ?_⟩
  have h1 : (2 : ℚ) ^ d * 2 ^ (-(d : ℤ)) = 1 := by
    rw [zpow_neg, zpow_natCast]
    exact mul_inv_cancel₀ (pow_ne_zero _ (by norm_num))
  rw [zpow_add₀ (by norm_num : (2 : ℚ) ≠ 0), zpow_natCast]
  push_cast
  rw [sub_mul, h1]
  ring

/-- For a binary64 value `q` the difference `1 - q` is a whole multiple of the least
subnormal `2^-1074`. -/
theorem IsBinary64.one_sub_multiple {q : ℚ} (h : IsBinary64 q) :
    ∃ K : ℤ, 1 - q = K * 2 ^ (-1074 : ℤ) := by
  obtain ⟨n, e, _, he, _, rfl⟩ := h
  obtain ⟨t, ht⟩ : ∃ t : ℕ, (t : ℤ) = e + 1074 := ⟨(e + 1074).toNat, by omega⟩
  have he' : e = (t : ℤ) + -((1074 : ℕ) : ℤ) := by
    simp only [Nat.cast_ofNat]
    omega
  have := one_sub_multiple_aux 1074 n t
  rw [← he'] at this
  simpa only [Nat.cast_ofNat] using this

/-- For a `float64` value `m` the difference `1 - m` is never `-0`. -/
theorem one_sub_ne_nzero {m : Float64} (hv : m.Valid) : (1 : Float64) - m ≠ nzero := by
  rcases m with _ | _ | _ | m | _
  · intro h; exact absurd h (by decide)
  · intro h; exact absurd h (by decide)
  · show add (fin ((1 : ℕ) : ℚ)) (neg nzero) ≠ nzero
    simp [add, neg, signBit, toRat, round_one]
  · rw [one_sub_fin]
    intro h
    obtain ⟨K, hK⟩ := IsBinary64.one_sub_multiple hv
    have hu : (0 : ℚ) < 2 ^ (-1074 : ℤ) := two_zpow_pos _
    unfold round at h
    by_cases h0 : 1 - m = 0
    · rw [if_pos h0] at h
      exact absurd h (by simp [signedZero])
    · rw [if_neg h0] at h
      by_cases hov : 2 ^ 1024 ≤ |roundToGrid (1 - m)|
      · rw [if_pos hov] at h
        by_cases hneg : 1 - m < 0 <;> simp [signedInf, hneg] at h
      · rw [if_neg hov] at h
        by_cases hz : roundToGrid (1 - m) = 0
        · rw [if_pos hz] at h
          by_cases hneg : 1 - m < 0
          · -- a negative difference is at most `-2^-1074`, which rounds to itself
            have hlt : (K : ℚ) < 0 := by
              by_contra hge
              rw [hK] at hneg
              exact absurd hneg (not_lt.mpr (mul_nonneg (not_lt.mp hge) hu.le))
            have hle : K ≤ -1 := by
              have : K < 0 := by exact_mod_cast hlt
              omega
            have hle' : 1 - m ≤ -2 ^ (-1074 : ℤ) := by
              rw [hK]
              have : (K : ℚ) ≤ -1 := by exact_mod_cast hle
              nlinarith
            have := roundToGrid_mono hle'
            rw [roundToGrid_neg, roundToGrid_min_subnormal, hz] at this
            linarith
          · simp [signedZero, hneg] at h
        · rw [if_neg hz] at h
          exact absurd h (by simp)
  · intro h; exact absurd h (by decide)

/-- A value that is at least one and at most one is one. -/
theorem eq_one_of_le_of_ge {a : Float64} (h1 : (1 : Float64) ≤ a) (h2 : a ≤ 1) : a = fin 1 := by
  rcases a with _ | _ | _ | a | _ <;> simp_all [le_def, le, toRat]
  · norm_num at h1
  · linarith

theorem Min_one_of_one_le {b : Float64} (h : (1 : Float64) ≤ b) : Min (fin 1) b = fin 1 := by
  rcases b with _ | _ | _ | b | _ <;>
    simp_all [Min, isZero, signBit, le_def, lt_def, le, lt, toRat]
  · norm_num at h
  · intro h'
    linarith

theorem not_lt_of_le' {x y : Float64} (h : y ≤ x) : ¬ (x < y) := by
  rcases x with _ | _ | _ | x | _ <;> rcases y with _ | _ | _ | y | _ <;>
    simp_all [le_def, lt_def, le, lt, toRat]

/-- A product of a value that is not `NaN` and a finite non-zero value is not `NaN`. -/
theorem mul_ne_nan {c f : Float64} (hc : c ≠ nan) (hf : isFinite f = true)
    (hz : isZero f = false) : c * f ≠ nan := by
  by_cases hcf : isFinite c = true
  · exact mul_ne_nan_of_finite hcf hf
  · show mul c f ≠ nan
    rcases c with _ | _ | _ | c | _ <;> rcases f with _ | _ | _ | f | _ <;>
      simp_all [mul, isFinite, isInf, isZero, signedInf] <;> split_ifs <;> simp

theorem round_zero (z : Bool) : toRat (round z 0) = 0 ∧ isFinite (round z 0) = true := by
  cases z <;> simp [round, signedZero, toRat, isFinite]

end Float64

/-! Evaluation at concrete values. -/

namespace Float64

/-- Evaluation of the rounding of a positive value in a normal binade. -/
theorem roundToGrid_eval (q v : ℚ) (k n : ℤ) (hk : -1022 ≤ k) (hlo : 2 ^ k ≤ q)
    (hhi : q < 2 ^ (k + 1)) (hn1 : (n : ℚ) - 1 / 2 < q / 2 ^ (k - 52))
    (hn2 : q / 2 ^ (k - 52) < n + 1 / 2) (hv : v = n * 2 ^ (k - 52)) : roundToGrid q = v := by
  have hq : 0 < q := lt_of_lt_of_le (two_zpow_pos k) hlo
  rw [hv]
  apply roundToGrid_eq q k n hk
  · rwa [abs_of_pos hq]
  · rwa [abs_of_pos hq]
  · rw [abs_lt]
    constructor <;> linarith

/-- A rounding with a known non-zero finite value. -/
theorem round_eq_fin_of (z : Bool) (q v : ℚ) (hv : roundToGrid q = v) (hv0 : v ≠ 0)
    (hvl : |v| < 2 ^ 1024) : round z q = fin v := by
  have hq : q ≠ 0 := by
    rintro rfl
    rw [roundToGrid_zero] at hv
    exact hv0 hv.symm
  unfold round
  rw [if_neg hq, hv, if_neg (not_le.mpr hvl), if_neg hv0]

theorem div_fin_eval (x T v : ℚ) (hT : T ≠ 0) (hv : roundToGrid (x / T) = v) (hv0 : v ≠ 0)
    (hvl : |v| < 2 ^ 1024) : fin x / fin T = fin v := by
  rw [div_of_finite (isFinite_fin x) (isFinite_fin T) (by simp [isZero, hT]), toRat_fin,
    toRat_fin]
  exact round_eq_fin_of _ _ _ hv hv0 hvl

theorem one_add_fin_eval (m v : ℚ) (hv : roundToGrid (1 + m) = v) (hv0 : v ≠ 0)
    (hvl : |v| < 2 ^ 1024) : (1 : Float64) + fin m = fin v := by
  rw [one_add_fin]
  exact round_eq_fin_of _ _ _ hv hv0 hvl

theorem one_sub_fin_eval (m v : ℚ) (hv : roundToGrid (1 - m) = v) (hv0 : v ≠ 0)
    (hvl : |v| < 2 ^ 1024) : (1 : Float64) - fin m = fin v := by
  rw [one_sub_fin]
  exact round_eq_fin_of _ _ _ hv hv0 hvl

theorem mul_fin_eval (a b v : ℚ) (hv : roundToGrid (a * b) = v) (hv0 : v ≠ 0)
    (hvl : |v| < 2 ^ 1024) : fin a * fin b = fin v := by
  rw [mul_of_finite (isFinite_fin a) (isFinite_fin b), toRat_fin, toRat_fin]
  exact round_eq_fin_of _ _ _ hv hv0 hvl

theorem Min_fin_fin (a b : ℚ) (h : a ≠ 0 ∨ b ≠ 0) : Min (fin a) (fin b) = fin (min a b) := by
  simp only [Min, isZero, lt_def, lt, toRat]
  rcases lt_or_le a b with h1 | h1
  · have : ¬ (a = 0 ∧ b = 0) := fun h' => by rcases h with h | h <;> simp_all
    simp [this, h1, min_eq_left h1.le]
  · have : ¬ (a = 0 ∧ b = 0) := fun h' => by rcases h with h | h <;> simp_all
    simp [this, not_lt.mpr h1, min_eq_right h1]

theorem Max_fin_fin (a b : ℚ) : Max (fin a) (fin b) = fin (max a b) := by
  simp only [Max, isZero, signBit, gt_iff_lt, lt_def, lt, toRat]
  by_cases h0 : a = 0 ∧ b = 0
  · obtain ⟨rfl, rfl⟩ := h0
    simp
  · rcases lt_or_le b a with h1 | h1
    · simp [h0, h1, max_eq_left h1.le]
    · simp [h0, not_lt.mpr h1, max_eq_right h1]

theorem Ceil_fin_pos (q : ℚ) (n : ℤ) (hq : 0 ≤ q) (hn : ⌈q⌉ = n) : Ceil (fin q) = fin n := by
  rw [Ceil_fin_eq, if_neg (fun h => absurd h.1 (not_lt.mpr hq)), hn]

theorem eq_fin_of_toRat {x : Float64} {q : ℚ} (hf : isFinite x = true) (hv : toRat x = q)
    (hq : q ≠ 0) : x = fin q := by
  rcases x with _ | _ | _ | x | _ <;> simp_all [isFinite, toRat]

theorem add_fin_eval (a b v : ℚ) (hv : roundToGrid (a + b) = v) (hv0 : v ≠ 0)
    (hvl : |v| < 2 ^ 1024) : fin a + fin b = fin v := by
  show add (fin a) (fin b) = fin v
  simp only [add, toRat]
  exact round_eq_fin_of _ _ _ hv hv0 hvl

end Float64

/-! The pricer over `Float64`: the factor, the candidate price, and runs of updates. -/

namespace Fees

open Float64

/-- With `m >= 0` and a quotient that is not `NaN`, the factor lies between `1 - m` and
`1 + m` (the two as computed in binary64). -/
theorem proportionToChangeBy_bounds {m r : Float64} (hm : 0 ≤ m) (hr : r ≠ nan) :
    1 - m ≤ proportionToChangeBy m r ∧ proportionToChangeBy m r ≤ 1 + m := by
  have ha : (1 : Float64) - m ≤ 1 := one_sub_le_one hm
  have hb : (1 : Float64) ≤ 1 + m := one_le_one_add hm
  unfold proportionToChangeBy
  split_ifs with h
  · exact ⟨le_Min (le_trans' ha h) (le_trans' ha hb), Min_le_right hr (ne_nan_of_le hb).2⟩
  · have hlt : r < 1 := lt_of_not_ge hr (ne_nan_of_le hb).1 h
    exact ⟨le_Max_right hr (ne_nan_of_le ha).1,
      Max_le (le_trans' (le_of_lt' hlt) hb) (le_trans' ha hb)⟩

/-- With finite `1 - m` and `1 + m` and a quotient that is not `NaN`, the factor is finite. -/
theorem proportionToChangeBy_finite {m r : Float64} (ha : isFinite (1 - m) = true)
    (hb : isFinite (1 + m) = true) (hr : r ≠ nan) :
    isFinite (proportionToChangeBy m r) = true := by
  unfold proportionToChangeBy
  generalize (1 : Float64) - m = a at ha
  generalize (1 : Float64) + m = b at hb
  rw [one_eq_fin]
  split_ifs with h
  · rcases r with _ | _ | _ | r | _ <;> rcases b with _ | _ | _ | b | _ <;>
      simp_all [Float64.Min, isFinite, isZero, signBit, le_def, lt_def, le, lt, toRat] <;>
      split_ifs <;> simp [isFinite]
  · rcases r with _ | _ | _ | r | _ <;> rcases a with _ | _ | _ | a | _ <;>
      simp_all [Float64.Max, isFinite, isZero, signBit, le_def, lt_def, le, lt, toRat] <;>
      split_ifs <;> simp [isFinite]

theorem isFinite_one_add_fin {m : ℚ} (h : |m| ≤ MaxFloat64) :
    isFinite ((1 : Float64) + fin m) = true := by
  rw [one_add_fin]
  refine (round_of_lt _ _ (abs_roundToGrid_lt ?_)).1
  rw [abs_le] at h ⊢
  have : (0 : ℚ) ≤ MaxFloat64 := by norm_num [MaxFloat64]
  constructor <;> linarith [h.1, h.2]

theorem isFinite_one_sub_fin {m : ℚ} (h : |m| ≤ MaxFloat64) :
    isFinite ((1 : Float64) - fin m) = true := by
  rw [one_sub_fin]
  refine (round_of_lt _ _ (abs_roundToGrid_lt ?_)).1
  rw [abs_le] at h ⊢
  have : (0 : ℚ) ≤ MaxFloat64 := by norm_num [MaxFloat64]
  constructor <;> linarith [h.1, h.2]

/-- Multiplication by a finite non-negative value is monotone on finite values. -/
theorem mul_le_mul_left_fin {c : ℚ} (hc : 0 ≤ c) {f f' : Float64} (hf : isFinite f = true)
    (hf' : isFinite f' = true) (h : f ≤ f') : fin c * f ≤ fin c * f' := by
  rw [mul_of_finite (isFinite_fin c) hf, mul_of_finite (isFinite_fin c) hf']
  exact round_le_round _ _ (mul_le_mul_of_nonneg_left ((le_of_finite hf hf').mp h) hc)

/-- The value returned by `CalcNextGasPrice` is the pricing step at the target returned by
the one invocation of the supplier. -/
theorem calcNextGasPrice_price {σ : Type} (p : L2GasPricer σ) (x : Float64) (s : σ) :
    (p.CalcNextGasPrice x s).1 = step p.floorPrice p.maxPercentChangePerEpoch p.curPrice x
      (p.getTargetGasPerSecond s).1 := rfl

/-- The candidate price of a call on finite fields lies between the candidates of the two
extreme factors. -/
theorem candidate_bounds {cur m : ℚ} {r : Float64} (hcur : 0 ≤ cur) (hm : 0 ≤ m)
    (hmax : m ≤ MaxFloat64) (hr : r ≠ nan) :
    fin cur * (1 - fin m) ≤ fin cur * proportionToChangeBy (fin m) r ∧
    fin cur * proportionToChangeBy (fin m) r ≤ fin cur * (1 + fin m) := by
  have habs : |m| ≤ MaxFloat64 := by rw [abs_of_nonneg hm]; exact hmax
  have hm' : (0 : Float64) ≤ fin m := by rw [zero_eq_fin, fin_le_fin_iff]; exact hm
  have ha := isFinite_one_sub_fin habs
  have hb := isFinite_one_add_fin habs
  have hf := proportionToChangeBy_finite ha hb hr
  obtain ⟨h1, h2⟩ := proportionToChangeBy_bounds hm' hr
  exact ⟨mul_le_mul_left_fin hcur ha hf h1, mul_le_mul_left_fin hcur hf hb h2⟩

/-- The quotient of a finite observed rate by a target that is not `NaN` is not `NaN`,
unless both are zero. -/
theorem quotient_ne_nan {x : ℚ} {t : Float64} (ht : t ≠ nan)
    (h0 : x ≠ 0 ∨ isZero t = false) : fin x / t ≠ nan := by
  apply div_ne_nan_of_finite (isFinite_fin x) ht
  rcases h0 with h | h
  · exact Or.inl (by simp [isZero, h])
  · exact Or.inr h

/-- A maximum change `m` with `1 - m > 0` in binary64 is below one. -/
theorem lt_one_of_pos_one_sub {m : ℚ} (h : (0 : Float64) < 1 - fin m) : m < 1 := by
  by_contra hge
  have h1 : (1 : ℚ) - m ≤ 0 := by linarith [not_lt.mp hge]
  have h2 : round false (1 - m) ≤ round false 0 := round_le_round _ _ h1
  rw [one_sub_fin] at h
  have h3 : round false 0 ≤ (0 : Float64) := by
    rw [zero_eq_fin, le_of_finite (round_zero false).2 (isFinite_fin 0), (round_zero false).1]
    simp [toRat]
  exact not_lt_of_le' (le_trans' h2 h3) h

/-- One pricing step from a price that is not `NaN`, with `0 <= m`, `1 - m > 0` and a
quotient that is not `NaN`, ends at or above a finite floor. -/
theorem floor_le_step (floor : ℚ) {m : ℚ} {c r : Float64} (hm0 : 0 ≤ m)
    (hm1 : (0 : Float64) < 1 - fin m) (hc : c ≠ nan) (hr : r ≠ nan) :
    fin floor ≤ Ceil (Float64.Max (fin floor) (c * proportionToChangeBy (fin m) r)) := by
  have hlt : m < 1 := lt_one_of_pos_one_sub hm1
  have hmaxv : (1 : ℚ) ≤ MaxFloat64 := by norm_num [MaxFloat64]
  have habs : |m| ≤ MaxFloat64 := by
    rw [abs_of_nonneg hm0]
    linarith
  have ha := isFinite_one_sub_fin habs
  have hb := isFinite_one_add_fin habs
  have hf := proportionToChangeBy_finite ha hb hr
  have hm' : (0 : Float64) ≤ fin m := by rw [zero_eq_fin, fin_le_fin_iff]; exact hm0
  obtain ⟨h1, _⟩ := proportionToChangeBy_bounds hm' hr
  have hz : isZero (proportionToChangeBy (fin m) r) = false := by
    have h0a : toRat (0 : Float64) < toRat ((1 : Float64) - fin m) :=
      (lt_of_finite (by rw [zero_eq_fin]; rfl) ha).mp hm1
    have hle := (le_of_finite ha hf).mp h1
    have hpos : 0 < toRat (proportionToChangeBy (fin m) r) := by
      rw [zero_eq_fin, toRat_fin] at h0a
      linarith
    generalize proportionToChangeBy (fin m) r = f at hpos
    rcases f with _ | _ | _ | f | _ <;> simp_all [isZero, toRat]
    exact hpos.ne.symm
  have hy := mul_ne_nan hc hf hz
  have hfl : (fin floor : Float64) ≠ nan := by simp
  exact le_trans' (le_Max_left hfl hy) (le_Ceil (Max_ne_nan hfl hy))

theorem newGasPricer_of_fin {σ : Type} (g : GetTargetGasPerSecond σ) (init floor m : ℚ) :
    (NewGasPricer (fin init) (fin floor) g (fin m)).1 =
      L2GasPricer.mk (fin (if init = 0 then floor else init)) (fin floor) g (fin m) := by
  by_cases h : init = 0
  · simp [NewGasPricer, Float64.beq, toRat, h]
  · simp [NewGasPricer, Float64.beq, toRat, h]

/-- A run of updates from a price that is not `NaN`, on a finite floor, `0 <= m`,
`1 - m > 0`, finite observed rates and defined quotients: the floor, the supplier and the
maximum change are kept, and the price ends at or above the floor if it started there or the
run made a step. -/
theorem updateGasPriceAll_inv {σ : Type} (g : GetTargetGasPerSecond σ) (floor m : ℚ)
    (hm0 : 0 ≤ m) (hm1 : (0 : Float64) < 1 - fin m) :
    ∀ (xs : List ℚ) (c : Float64) (s : σ), c ≠ nan → TargetsDefined g xs s →
      ∃ c' : Float64,
        (UpdateGasPriceAll (L2GasPricer.mk c (fin floor) g (fin m)) (xs.map fin) s).1 =
          L2GasPricer.mk c' (fin floor) g (fin m) ∧
        ((fin floor ≤ c ∨ xs ≠ []) → fin floor ≤ c') := by
  intro xs
  induction xs with
  | nil =>
    intro c s _ _
    exact ⟨c, rfl, fun h => h.elim id (fun h => absurd rfl h)⟩
  | cons x xs ih =>
    intro c s hc hd
    obtain ⟨⟨ht, h0⟩, hrest⟩ := hd
    have hr := quotient_ne_nan ht h0
    have hstep := floor_le_step floor hm0 hm1 hc hr
    obtain ⟨c', hc', hle⟩ := ih _ (g s).2 (ne_nan_of_le hstep).2 hrest
    exact ⟨c', hc', fun _ => hle (Or.inl hstep)⟩

/-- On finite operands whose roundings do not overflow, the factor computed by the code has
the value of the factor of the specification with every operation rounded. -/
theorem proportionToChangeBy_eq_spec64 (m x T : ℚ) (hT : T ≠ 0)
    (h1 : |roundToGrid (x / T)| < 2 ^ 1024) (h2 : |roundToGrid (1 + m)| < 2 ^ 1024)
    (h3 : |roundToGrid (1 - m)| < 2 ^ 1024) :
    isFinite (proportionToChangeBy (fin m) (fin x / fin T)) = true ∧
    toRat (proportionToChangeBy (fin m) (fin x / fin T)) = specFactor64 m x T := by
  have hz : isZero (fin T) = false := by simp [isZero, hT]
  have hr := round_of_lt (xor (signBit (fin x)) (signBit (fin T))) (x / T) h1
  have hb := round_of_lt false (1 + m) h2
  have ha := round_of_lt false (1 - m) h3
  rw [div_of_finite (isFinite_fin x) (isFinite_fin T) hz, toRat_fin, toRat_fin]
  unfold proportionToChangeBy specFactor64
  rw [one_add_fin, one_sub_fin]
  have hiff : Float64.round (xor (signBit (fin x)) (signBit (fin T))) (x / T) ≥ 1 ↔
      1 ≤ roundToGrid (x / T) := by
    rw [ge_iff_le, one_eq_fin, le_of_finite (isFinite_fin 1) hr.1, toRat_fin, hr.2]
  by_cases h : Float64.round (xor (signBit (fin x)) (signBit (fin T))) (x / T) ≥ 1
  · rw [if_pos h, if_pos (hiff.mp h)]
    have := Min_of_finite hr.1 hb.1
    rw [hr.2, hb.2] at this
    exact this
  · rw [if_neg h, if_neg (fun h' => h (hiff.mpr h'))]
    have := Max_of_finite hr.1 ha.1
    rw [hr.2, ha.2] at this
    exact this

/-- The value of the quotient `0 / 0` and of everything computed from it: with finite
fields, `|m| <= MaxFloat64`, a zero observed rate and a zero target, `CalcNextGasPrice`
returns `NaN`. -/
theorem calcNextGasPrice_nan_of_zero_over_zero {σ : Type} (g : GetTargetGasPerSecond σ) (s : σ)
    (cur floor m : ℚ) (hmax : |m| ≤ MaxFloat64) (hg : isZero (g s).1 = true) :
    ((L2GasPricer.mk (fin cur) (fin floor) g (fin m)).CalcNextGasPrice (fin 0) s).1 = nan := by
  have ha := isFinite_one_sub_fin hmax
  rw [calcNextGasPrice_price, step, proportionToChangeBy]
  simp only
  have hq : fin 0 / (g s).1 = nan := by
    show div (fin 0) (g s).1 = nan
    generalize (g s).1 = t at hg
    rcases t with _ | _ | _ | t | _ <;> simp_all [div, isZero, isInf]
  rw [hq, if_neg (le_nan_false _)]
  generalize (1 : Float64) - fin m = a at ha
  have h1 : Float64.Max nan a = nan := by
    rcases a with _ | _ | _ | a | _ <;> simp_all [Float64.Max, isFinite]
  rw [h1]
  rfl

/-- Evaluation of `CalcNextGasPrice` on finite fields and a finite non-zero target from the
values of the four roundings. -/
theorem calcNextGasPrice_eval {σ : Type} (g : GetTargetGasPerSecond σ) (s : σ)
    (cur floor m x T r b a f c : ℚ) (n : ℤ) (hg : (g s).1 = fin T) (hT : T ≠ 0)
    (hr : roundToGrid (x / T) = r) (hb : roundToGrid (1 + m) = b)
    (ha : roundToGrid (1 - m) = a) (hf : (if 1 ≤ r then min r b else max r a) = f)
    (hc : roundToGrid (cur * f) = c) (hrl : |r| < 2 ^ 1024) (hbl : |b| < 2 ^ 1024)
    (hal : |a| < 2 ^ 1024) (hcl : |c| < 2 ^ 1024) (hn : ⌈max floor c⌉ = n) (hn0 : n ≠ 0) :
    ((L2GasPricer.mk (fin cur) (fin floor) g (fin m)).CalcNextGasPrice (fin x) s).1 =
      fin n := by
  have hfe : specFactor64 m x T = f := by
    unfold specFactor64
    rw [hr, hb, ha, hf]
  obtain ⟨hfin, hfv⟩ := proportionToChangeBy_eq_spec64 m x T hT (by rw [hr]; exact hrl)
    (by rw [hb]; exact hbl) (by rw [ha]; exact hal)
  have hy := round_of_lt
    (xor (signBit (fin cur)) (signBit (proportionToChangeBy (fin m) (fin x / fin T))))
    (cur * f) (by rw [hc]; exact hcl)
  rw [calcNextGasPrice_price, step]
  simp only [hg]
  rw [mul_of_finite (isFinite_fin cur) hfin, toRat_fin, hfv, hfe]
  have hM := Max_of_finite (isFinite_fin floor) hy.1
  have hC := Ceil_of_finite hM.1
  rw [hM.2, hy.2, toRat_fin, hc, hn] at hC
  exact eq_fin_of_toRat hC.1 hC.2 (by exact_mod_cast hn0)

/-- Evaluation of the factor of the specification with rounding from the values of the
three roundings. -/
theorem specFactor64_eval (m x T r b a f : ℚ) (hr : roundToGrid (x / T) = r)
    (hb : roundToGrid (1 + m) = b) (ha : roundToGrid (1 - m) = a)
    (hf : (if 1 ≤ r then min r b else max r a) = f) : specFactor64 m x T = f := by
  unfold specFactor64
  rw [hr, hb, ha, hf]

/-- Evaluation of the factor on finite values. -/
theorem proportionToChangeBy_eval (m r b a f : ℚ) (hb : (1 : Float64) + fin m = fin b)
    (ha : (1 : Float64) - fin m = fin a) (hf : (if 1 ≤ r then min r b else max r a) = f) :
    proportionToChangeBy (fin m) (fin r) = fin f := by
  unfold proportionToChangeBy
  rw [hb, ha]
  have hiff : fin r ≥ (1 : Float64) ↔ 1 ≤ r := by
    rw [ge_iff_le, one_eq_fin, fin_le_fin_iff]
  by_cases h : (1 : ℚ) ≤ r
  · rw [if_pos h] at hf
    have hr0 : r ≠ 0 := (lt_of_lt_of_le one_pos h).ne.symm
    rw [if_pos (hiff.mpr h), Min_fin_fin r b (Or.inl hr0), hf]
  · rw [if_neg h] at hf
    rw [if_neg (fun h' => h (hiff.mp h')), Max_fin_fin, hf]

/-- Evaluation of the candidate price on finite values. -/
theorem candidate_eval (cur m x T r b a f c : ℚ) (hq : fin x / fin T = fin r)
    (hb : (1 : Float64) + fin m = fin b) (ha : (1 : Float64) - fin m = fin a)
    (hf : (if 1 ≤ r then min r b else max r a) = f) (hc : fin cur * fin f = fin c) :
    fin cur * proportionToChangeBy (fin m) (fin x / fin T) = fin c := by
  rw [hq, proportionToChangeBy_eval m r b a f hb ha hf, hc]

/-- One invocation of `dynamicGetTarget` at a counter `c` whose successor rounds to `v`. -/
theorem dynamicGetTarget_eval (c v : ℚ) (hv : roundToGrid (c + 1) = v) (hv0 : v ≠ 0)
    (hvl : |v| < 2 ^ 1024) : dynamicGetTarget (fin c) = (fin v, fin v) := by
  unfold dynamicGetTarget
  rw [one_eq_fin, add_fin_eval c 1 v hv hv0 hvl]

end Fees

/-! The tests of the repository, and runs outside them, in binary64 arithmetic. -/

namespace Fees

open Float64

/-- The six cases of `TestCalcGasPriceFarFromFloor` in binary64 arithmetic (price 100, floor 1,
target 10, maximum change 1/2): observed rates 10, 1, 5, 15/2, 100, 25/2 give 100, 50, 50,
75, 150, 125. -/
theorem test_binary64_CalcGasPriceFarFromFloor :
    ((Fees.L2GasPricer.mk (Float64.fin 100) (Float64.fin 1) (Fees.returnConstFn (Float64.fin 10))
      (Float64.fin (1 / 2))).CalcNextGasPrice (Float64.fin 10) ()).1 = Float64.fin 100 ∧
    ((Fees.L2GasPricer.mk (Float64.fin 100) (Float64.fin 1) (Fees.returnConstFn (Float64.fin 10))
      (Float64.fin (1 / 2))).CalcNextGasPrice (Float64.fin 1) ()).1 = Float64.fin 50 ∧
    ((Fees.L2GasPricer.mk (Float64.fin 100) (Float64.fin 1) (Fees.returnConstFn (Float64.fin 10))
      (Float64.fin (1 / 2))).CalcNextGasPrice (Float64.fin 5) ()).1 = Float64.fin 50 ∧
    ((Fees.L2GasPricer.mk (Float64.fin 100) (Float64.fin 1) (Fees.returnConstFn (Float64.fin 10))
      (Float64.fin (1 / 2))).CalcNextGasPrice (Float64.fin (15 / 2)) ()).1 = Float64.fin 75 ∧
    ((Fees.L2GasPricer.mk (Float64.fin 100) (Float64.fin 1) (Fees.returnConstFn (Float64.fin 10))
      (Float64.fin (1 / 2))).CalcNextGasPrice (Float64.fin 100) ()).1 = Float64.fin 150 ∧
    ((Fees.L2GasPricer.mk (Float64.fin 100) (Float64.fin 1) (Fees.returnConstFn (Float64.fin 10))
      (Float64.fin (1 / 2))).CalcNextGasPrice (Float64.fin (25 / 2)) ()).1 = Float64.fin 125 :=
  ⟨Fees.calcNextGasPrice_eval (Fees.returnConstFn (Float64.fin 10)) () 100 1 (1 / 2) 10 10
    1 (3 / 2) (1 / 2) 1 100 (100) rfl (by norm_num)
    (Float64.roundToGrid_eval _ _ (0) (4503599627370496) (by norm_num) (by norm_num) (by norm_num) (by norm_num) (by norm_num) (by norm_num))
    (Float64.roundToGrid_eval _ _ (0) (6755399441055744) (by norm_num) (by norm_num) (by norm_num) (by norm_num) (by norm_num) (by norm_num))
    (Float64.roundToGrid_eval _ _ (-1) (4503599627370496) (by norm_num) (by norm_num) (by norm_num) (by norm_num) (by norm_num) (by norm_num))
    (by norm_num)
    (Float64.roundToGrid_eval _ _ (6) (7036874417766400) (by norm_num) (by norm_num) (by norm_num) (by norm_num) (by norm_num) (by norm_num))
    (by rw [abs_lt]; constructor <;> norm_num) (by rw [abs_lt]; constructor <;> norm_num)
    (by rw [abs_lt]; constructor <;> norm_num) (by rw [abs_lt]; constructor <;> norm_num)
    (by rw [Int.ceil_eq_iff]; norm_num) (by norm_num),
    Fees.calcNextGasPrice_eval (Fees.returnConstFn (Float64.fin 10)) () 100 1 (1 / 2) 1 10
    (3602879701896397 / 36028797018963968) (3 / 2) (1 / 2) (1 / 2) 50 (50) rfl (by norm_num)
    (Float64.roundToGrid_eval _ _ (-4) (7205759403792794) (by norm_num) (by norm_num) (by norm_num) (by norm_num) (by norm_num) (by norm_num))
    (Float64.roundToGrid_eval _ _ (0) (6755399441055744) (by norm_num) (by norm_num) (by norm_num) (by norm_num) (by norm_num) (by norm_num))
    (Float64.roundToGrid_eval _ _ (-1) (4503599627370496) (by norm_num) (by norm_num) (by norm_num) (by norm_num) (by norm_num) (by norm_num))
    (by norm_num)
    (Float64.roundToGrid_eval _ _ (5) (7036874417766400) (by norm_num) (by norm_num) (by norm_num) (by norm_num) (by norm_num) (by norm_num))
    (by rw [abs_lt]; constructor <;> norm_num) (by rw [abs_lt]; constructor <;> norm_num)
    (by rw [abs_lt]; constructor <;> norm_num) (by rw [abs_lt]; constructor <;> norm_num)
    (by rw [Int.ceil_eq_iff]; norm_num) (by norm_num),
    Fees.calcNextGasPrice_eval (Fees.returnConstFn (Float64.fin 10)) () 100 1 (1 / 2) 5 10
    (1 / 2) (3 / 2) (1 / 2) (1 / 2) 50 (50) rfl (by norm_num)
    (Float64.roundToGrid_eval _ _ (-1) (4503599627370496) (by norm_num) (by norm_num) (by norm_num) (by norm_num) (by norm_num) (by norm_num))
    (Float64.roundToGrid_eval _ _ (0) (6755399441055744) (by norm_num) (by norm_num) (by norm_num) (by norm_num) (by norm_num) (by norm_num))
    (Float64.roundToGrid_eval _ _ (-1) (4503599627370496) (by norm_num) (by norm_num) (by norm_num) (by norm_num) (by norm_num) (by norm_num))
    (by norm_num)
    (Float64.roundToGrid_eval _ _ (5) (7036874417766400) (by norm_num) (by norm_num) (by norm_num) (by norm_num) (by norm_num) (by norm_num))
    (by rw [abs_lt]; constructor <;> norm_num) (by rw [abs_lt]; constructor <;> norm_num)
    (by rw [abs_lt]; constructor <;> norm_num) (by rw [abs_lt]; constructor <;> norm_num)
    (by rw [Int.ceil_eq_iff]; norm_num) (by norm_num),
    Fees.calcNextGasPrice_eval (Fees.returnConstFn (Float64.fin 10)) () 100 1 (1 / 2) (15 / 2) 10
    (3 / 4) (3 / 2) (1 / 2) (3 / 4) 75 (75) rfl (by norm_num)
    (Float64.roundToGrid_eval _ _ (-1) (6755399441055744) (by norm_num) (by norm_num) (by norm_num) (by norm_num) (by norm_num) (by norm_num))
    (Float64.roundToGrid_eval _ _ (0) (6755399441055744) (by norm_num) (by norm_num) (by norm_num) (by norm_num) (by norm_num) (by norm_num))
    (Float64.roundToGrid_eval _ _ (-1) (4503599627370496) (by norm_num) (by norm_num) (by norm_num) (by norm_num) (by norm_num) (by norm_num))
    (by norm_num)
    (Float64.roundToGrid_eval _ _ (6) (5277655813324800) (by norm_num) (by norm_num) (by norm_num) (by norm_num) (by norm_num) (by norm_num))
    (by rw [abs_lt]; constructor <;> norm_num) (by rw [abs_lt]; constructor <;> norm_num)
    (by rw [abs_lt]; constructor <;> norm_num) (by rw [abs_lt]; constructor <;> norm_num)
    (by rw [Int.ceil_eq_iff]; norm_num) (by norm_num),
    Fees.calcNextGasPrice_eval (Fees.returnConstFn (Float64.fin 10)) () 100 1 (1 / 2) 100 10
    10 (3 / 2) (1 / 2) (3 / 2) 150 (150) rfl (by norm_num)
    (Float64.roundToGrid_eval _ _ (3) (5629499534213120) (by norm_num) (by norm_num) (by norm_num) (by norm_num) (by norm_num) (by norm_num))
    (Float64.roundToGrid_eval _ _ (0) (6755399441055744) (by norm_num) (by norm_num) (by norm_num) (by norm_num) (by norm_num) (by norm_num))
    (Float64.roundToGrid_eval _ _ (-1) (4503599627370496) (by norm_num) (by norm_num) (by norm_num) (by norm_num) (by norm_num) (by norm_num))
    (by norm_num)
    (Float64.roundToGrid_eval _ _ (7) (5277655813324800) (by norm_num) (by norm_num) (by norm_num) (by norm_num) (by norm_num) (by norm_num))
    (by rw [abs_lt]; constructor <;> norm_num) (by rw [abs_lt]; constructor <;> norm_num)
    (by rw [abs_lt]; constructor <;> norm_num) (by rw [abs_lt]; constructor <;> norm_num)
    (by rw [Int.ceil_eq_iff]; norm_num) (by norm_num),
    Fees.calcNextGasPrice_eval (Fees.returnConstFn (Float64.fin 10)) () 100 1 (1 / 2) (25 / 2) 10
    (5 / 4) (3 / 2) (1 / 2) (5 / 4) 125 (125) rfl (by norm_num)
    (Float64.roundToGrid_eval _ _ (0) (5629499534213120) (by norm_num) (by norm_num) (by norm_num) (by norm_num) (by norm_num) (by norm_num))
    (Float64.roundToGrid_eval _ _ (0) (6755399441055744) (by norm_num) (by norm_num) (by norm_num) (by norm_num) (by norm_num) (by norm_num))
    (Float64.roundToGrid_eval _ _ (-1) (4503599627370496) (by norm_num) (by norm_num) (by norm_num) (by norm_num) (by norm_num) (by norm_num))
    (by norm_num)
    (Float64.roundToGrid_eval _ _ (6) (8796093022208000) (by norm_num) (by norm_num) (by norm_num) (by norm_num) (by norm_num) (by norm_num))
    (by rw [abs_lt]; constructor <;> norm_num) (by rw [abs_lt]; constructor <;> norm_num)
    (by rw [abs_lt]; constructor <;> norm_num) (by rw [abs_lt]; constructor <;> norm_num)
    (by rw [Int.ceil_eq_iff]; norm_num) (by norm_num)⟩

/-- The three cases of `TestCalcGasPriceAtFloor` in binary64 arithmetic (price 100, floor 100,
target 10, maximum change 1/2): observed rates 10, 1, 100 give 100, 100, 150. -/
theorem test_binary64_CalcGasPriceAtFloor :
    ((Fees.L2GasPricer.mk (Float64.fin 100) (Float64.fin 100) (Fees.returnConstFn (Float64.fin 10))
      (Float64.fin (1 / 2))).CalcNextGasPrice (Float64.fin 10) ()).1 = Float64.fin 100 ∧
    ((Fees.L2GasPricer.mk (Float64.fin 100) (Float64.fin 100) (Fees.returnConstFn (Float64.fin 10))
      (Float64.fin (1 / 2))).CalcNextGasPrice (Float64.fin 1) ()).1 = Float64.fin 100 ∧
    ((Fees.L2GasPricer.mk (Float64.fin 100) (Float64.fin 100) (Fees.returnConstFn (Float64.fin 10))
      (Float64.fin (1 / 2))).CalcNextGasPrice (Float64.fin 100) ()).1 = Float64.fin 150 :=
  ⟨Fees.calcNextGasPrice_eval (Fees.returnConstFn (Float64.fin 10)) () 100 100 (1 / 2) 10 10
    1 (3 / 2) (1 / 2) 1 100 (100) rfl (by norm_num)
    (Float64.roundToGrid_eval _ _ (0) (4503599627370496) (by norm_num) (by norm_num) (by norm_num) (by norm_num) (by norm_num) (by norm_num))
    (Float64.roundToGrid_eval _ _ (0) (6755399441055744) (by norm_num) (by norm_num) (by norm_num) (by norm_num) (by norm_num) (by norm_num))
    (Float64.roundToGrid_eval _ _ (-1) (4503599627370496) (by norm_num) (by norm_num) (by norm_num) (by norm_num) (by norm_num) (by norm_num))
    (by norm_num)
    (Float64.roundToGrid_eval _ _ (6) (7036874417766400) (by norm_num) (by norm_num) (by norm_num) (by norm_num) (by norm_num) (by norm_num))
    (by rw [abs_lt]; constructor <;> norm_num) (by rw [abs_lt]; constructor <;> norm_num)
    (by rw [abs_lt]; constructor <;> norm_num) (by rw [abs_lt]; constructor <;> norm_num)
    (by rw [Int.ceil_eq_iff]; norm_num) (by norm_num),
    Fees.calcNextGasPrice_eval (Fees.returnConstFn (Float64.fin 10)) () 100 100 (1 / 2) 1 10
    (3602879701896397 / 36028797018963968) (3 / 2) (1 / 2) (1 / 2) 50 (100) rfl (by norm_num)
    (Float64.roundToGrid_eval _ _ (-4) (7205759403792794) (by norm_num) (by norm_num) (by norm_num) (by norm_num) (by norm_num) (by norm_num))
    (Float64.roundToGrid_eval _ _ (0) (6755399441055744) (by norm_num) (by norm_num) (by norm_num) (by norm_num) (by norm_num) (by norm_num))
    (Float64.roundToGrid_eval _ _ (-1) (4503599627370496) (by norm_num) (by norm_num) (by norm_num) (by norm_num) (by norm_num) (by norm_num))
    (by norm_num)
    (Float64.roundToGrid_eval _ _ (5) (7036874417766400) (by norm_num) (by norm_num) (by norm_num) (by norm_num) (by norm_num) (by norm_num))
    (by rw [abs_lt]; constructor <;> norm_num) (by rw [abs_lt]; constructor <;> norm_num)
    (by rw [abs_lt]; constructor <;> norm_num) (by rw [abs_lt]; constructor <;> norm_num)
    (by rw [Int.ceil_eq_iff]; norm_num) (by norm_num),
    Fees.calcNextGasPrice_eval (Fees.returnConstFn (Float64.fin 10)) () 100 100 (1 / 2) 100 10
    10 (3 / 2) (1 / 2) (3 / 2) 150 (150) rfl (by norm_num)
    (Float64.roundToGrid_eval _ _ (3) (5629499534213120) (by norm_num) (by norm_num) (by norm_num) (by norm_num) (by norm_num) (by norm_num))
    (Float64.roundToGrid_eval _ _ (0) (6755399441055744) (by norm_num) (by norm_num) (by norm_num) (by norm_num) (by norm_num) (by norm_num))
    (Float64.roundToGrid_eval _ _ (-1) (4503599627370496) (by norm_num) (by norm_num) (by norm_num) (by norm_num) (by norm_num) (by norm_num))
    (by norm_num)
    (Float64.roundToGrid_eval _ _ (7) (5277655813324800) (by norm_num) (by norm_num) (by norm_num) (by norm_num) (by norm_num) (by norm_num))
    (by rw [abs_lt]; constructor <;> norm_num) (by rw [abs_lt]; constructor <;> norm_num)
    (by rw [abs_lt]; constructor <;> norm_num) (by rw [abs_lt]; constructor <;> norm_num)
    (by rw [Int.ceil_eq_iff]; norm_num) (by norm_num)⟩

/-- The test `TestGasPricerUpdates` in binary64 arithmetic: from price 100 and floor 100,
target 10 and maximum change 1/2, `UpdateGasPrice(12.5)` leaves `curPrice` at 125. -/
theorem test_binary64_GasPricerUpdates :
    ((Fees.L2GasPricer.mk (Float64.fin 100) (Float64.fin 100) (Fees.returnConstFn (Float64.fin 10))
      (Float64.fin (1 / 2))).UpdateGasPrice (Float64.fin (25 / 2)) ()).1.curPrice =
      Float64.fin 125 :=
  Fees.calcNextGasPrice_eval (Fees.returnConstFn (Float64.fin 10)) () 100 100 (1 / 2) (25 / 2) 10
    (5 / 4) (3 / 2) (1 / 2) (5 / 4) 125 (125) rfl (by norm_num)
    (Float64.roundToGrid_eval _ _ (0) (5629499534213120) (by norm_num) (by norm_num) (by norm_num) (by norm_num) (by norm_num) (by norm_num))
    (Float64.roundToGrid_eval _ _ (0) (6755399441055744) (by norm_num) (by norm_num) (by norm_num) (by norm_num) (by norm_num) (by norm_num))
    (Float64.roundToGrid_eval _ _ (-1) (4503599627370496) (by norm_num) (by norm_num) (by norm_num) (by norm_num) (by norm_num) (by norm_num))
    (by norm_num)
    (Float64.roundToGrid_eval _ _ (6) (8796093022208000) (by norm_num) (by norm_num) (by norm_num) (by norm_num) (by norm_num) (by norm_num))
    (by rw [abs_lt]; constructor <;> norm_num) (by rw [abs_lt]; constructor <;> norm_num)
    (by rw [abs_lt]; constructor <;> norm_num) (by rw [abs_lt]; constructor <;> norm_num)
    (by rw [Int.ceil_eq_iff]; norm_num) (by norm_num)

/-- The test `TestGasPricerDynamicTarget` in binary64 arithmetic: from the counter 9, price
100, floor 100 and maximum change 1/2, the first `UpdateGasPrice(12.5)` uses the target 10 and
leaves `curPrice` at `125 = ceiling(100 * 12.5 / 10)`, the second uses the target 11 and
leaves it at `143 = ceiling(125 * 12.5 / 11)`. -/
theorem test_binary64_GasPricerDynamicTarget :
    ((L2GasPricer.mk (fin 100) (fin 100) dynamicGetTarget (fin (1 / 2))).UpdateGasPrice (fin (25 / 2)) (fin 9)).1.curPrice = fin 125 ∧
    (((L2GasPricer.mk (fin 100) (fin 100) dynamicGetTarget (fin (1 / 2))).UpdateGasPrice (fin (25 / 2)) (fin 9)).1.UpdateGasPrice (fin (25 / 2))
      ((L2GasPricer.mk (fin 100) (fin 100) dynamicGetTarget (fin (1 / 2))).UpdateGasPrice (fin (25 / 2)) (fin 9)).2).1.curPrice = fin 143 := by
  have hd9 : dynamicGetTarget (fin 9) = (fin 10, fin 10) :=
    (dynamicGetTarget_eval 9 10 (by norm_num; exact (Float64.roundToGrid_eval _ _ (3) (5629499534213120) (by norm_num) (by norm_num) (by norm_num) (by norm_num) (by norm_num) (by norm_num))) (by norm_num) (by rw [abs_lt]; constructor <;> norm_num))
  have hd10 : dynamicGetTarget (fin 10) = (fin 11, fin 11) :=
    (dynamicGetTarget_eval 10 11 (by norm_num; exact (Float64.roundToGrid_eval _ _ (3) (6192449487634432) (by norm_num) (by norm_num) (by norm_num) (by norm_num) (by norm_num) (by norm_num))) (by norm_num) (by rw [abs_lt]; constructor <;> norm_num))
  have h1 : ((L2GasPricer.mk (fin 100) (fin 100) dynamicGetTarget (fin (1 / 2))).CalcNextGasPrice (fin (25 / 2)) (fin 9)).1 = fin 125 :=
    Fees.calcNextGasPrice_eval dynamicGetTarget (fin 9) 100 100 (1 / 2) (25 / 2) 10
        (5 / 4) (3 / 2) (1 / 2) (5 / 4) 125 (125) (by rw [hd9]) (by norm_num)
        (Float64.roundToGrid_eval _ _ (0) (5629499534213120) (by norm_num) (by norm_num) (by norm_num) (by norm_num) (by norm_num) (by norm_num))
        (Float64.roundToGrid_eval _ _ (0) (6755399441055744) (by norm_num) (by norm_num) (by norm_num) (by norm_num) (by norm_num) (by norm_num))
        (Float64.roundToGrid_eval _ _ (-1) (4503599627370496) (by norm_num) (by norm_num) (by norm_num) (by norm_num) (by norm_num) (by norm_num))
        (by norm_num)
        (Float64.roundToGrid_eval _ _ (6) (8796093022208000) (by norm_num) (by norm_num) (by norm_num) (by norm_num) (by norm_num) (by norm_num))
        (by rw [abs_lt]; constructor <;> norm_num) (by rw [abs_lt]; constructor <;> norm_num)
        (by rw [abs_lt]; constructor <;> norm_num) (by rw [abs_lt]; constructor <;> norm_num)
        (by rw [Int.ceil_eq_iff]; norm_num) (by norm_num)
  have h2 : ((L2GasPricer.mk (fin 125) (fin 100) dynamicGetTarget
      (fin (1 / 2))).CalcNextGasPrice (fin (25 / 2)) (fin 10)).1 = fin 143 :=
    Fees.calcNextGasPrice_eval dynamicGetTarget (fin 10) 125 100 (1 / 2) (25 / 2) 11
        (5117726849284655 / 4503599627370496) (3 / 2) (1 / 2) (5117726849284655 / 4503599627370496) (2498890063127273 / 17592186044416) (143) (by rw [hd10]) (by norm_num)
        (Float64.roundToGrid_eval _ _ (0) (5117726849284655) (by norm_num) (by norm_num) (by norm_num) (by norm_num) (by norm_num) (by norm_num))
        (Float64.roundToGrid_eval _ _ (0) (6755399441055744) (by norm_num) (by norm_num) (by norm_num) (by norm_num) (by norm_num) (by norm_num))
        (Float64.roundToGrid_eval _ _ (-1) (4503599627370496) (by norm_num) (by norm_num) (by norm_num) (by norm_num) (by norm_num) (by norm_num))
        (by norm_num)
        (Float64.roundToGrid_eval _ _ (7) (4997780126254546) (by norm_num) (by norm_num) (by norm_num) (by norm_num) (by norm_num) (by norm_num))
        (by rw [abs_lt]; constructor <;> norm_num) (by rw [abs_lt]; constructor <;> norm_num)
        (by rw [abs_lt]; constructor <;> norm_num) (by rw [abs_lt]; constructor <;> norm_num)
        (by rw [Int.ceil_eq_iff]; norm_num) (by norm_num)
  have hu : (L2GasPricer.mk (fin 100) (fin 100) dynamicGetTarget (fin (1 / 2))).UpdateGasPrice (fin (25 / 2)) (fin 9) =
      (L2GasPricer.mk (fin 125) (fin 100) dynamicGetTarget (fin (1 / 2)), fin 10) := by
    show (L2GasPricer.mk ((L2GasPricer.mk (fin 100) (fin 100) dynamicGetTarget (fin (1 / 2))).CalcNextGasPrice (fin (25 / 2)) (fin 9)).1 (fin 100)
      dynamicGetTarget (fin (1 / 2)), (dynamicGetTarget (fin 9)).2) = _
    rw [h1, hd9]
  rw [hu]
  exact ⟨rfl, h2⟩

/-- The second call of `TestGasPricerDynamicTarget` with the stale target: from the price
125 the observed rate 12.5 against the first target 10, in place of the target 11 of the
second invocation, would give 157 and not 143. -/
theorem test_binary64_stale_target :
    ((L2GasPricer.mk (fin 125) (fin 100) (returnConstFn (fin 10))
      (fin (1 / 2))).CalcNextGasPrice (fin (25 / 2)) ()).1 = fin 157 :=
  Fees.calcNextGasPrice_eval (returnConstFn (fin 10)) () 125 100 (1 / 2) (25 / 2) 10
    (5 / 4) (3 / 2) (1 / 2) (5 / 4) (625 / 4) (157) rfl (by norm_num)
    (Float64.roundToGrid_eval _ _ (0) (5629499534213120) (by norm_num) (by norm_num) (by norm_num) (by norm_num) (by norm_num) (by norm_num))
    (Float64.roundToGrid_eval _ _ (0) (6755399441055744) (by norm_num) (by norm_num) (by norm_num) (by norm_num) (by norm_num) (by norm_num))
    (Float64.roundToGrid_eval _ _ (-1) (4503599627370496) (by norm_num) (by norm_num) (by norm_num) (by norm_num) (by norm_num) (by norm_num))
    (by norm_num)
    (Float64.roundToGrid_eval _ _ (7) (5497558138880000) (by norm_num) (by norm_num) (by norm_num) (by norm_num) (by norm_num) (by norm_num))
    (by rw [abs_lt]; constructor <;> norm_num) (by rw [abs_lt]; constructor <;> norm_num)
    (by rw [abs_lt]; constructor <;> norm_num) (by rw [abs_lt]; constructor <;> norm_num)
    (by rw [Int.ceil_eq_iff]; norm_num) (by norm_num)

/-- Overflow in binary64 arithmetic: a pricer with price `2^1023`, floor 1, constant target
1 and maximum change 1 is left by `UpdateGasPrice(2)` at the price `+Inf` (the product
`2^1023 * 2` overflows), and by a following `UpdateGasPrice(0)` at `NaN` (`+Inf * 0`). -/
theorem test_binary64_overflow :
    ((L2GasPricer.mk (fin (2 ^ 1023)) (fin 1) (returnConstFn (fin 1)) (fin 1)).UpdateGasPrice (fin 2) ()).1.curPrice = pinf ∧
    (((L2GasPricer.mk (fin (2 ^ 1023)) (fin 1) (returnConstFn (fin 1)) (fin 1)).UpdateGasPrice (fin 2) ()).1.UpdateGasPrice (fin 0) ()).1.curPrice = nan := by
  have hb : (1 : Float64) + fin 1 = fin 2 :=
    (Float64.one_add_fin_eval 1 2 (Float64.roundToGrid_eval _ _ (1) (4503599627370496) (by norm_num) (by norm_num) (by norm_num) (by norm_num) (by norm_num) (by norm_num)) (by norm_num) (by rw [abs_lt]; constructor <;> norm_num))
  have ha : (1 : Float64) - fin 1 = fin 0 := by
    rw [one_sub_fin]
    simp [Float64.round, signedZero]
  have hq : fin 2 / fin 1 = fin 2 :=
    (Float64.div_fin_eval 2 1 2 (by norm_num) (Float64.roundToGrid_eval _ _ (1) (4503599627370496) (by norm_num) (by norm_num) (by norm_num) (by norm_num) (by norm_num) (by norm_num)) (by norm_num) (by rw [abs_lt]; constructor <;> norm_num))
  have hq0 : fin 0 / fin 1 = fin 0 := by
    rw [div_of_finite (isFinite_fin 0) (isFinite_fin 1) (by simp [isZero])]
    simp [Float64.round, signedZero, signBit, toRat]
  have hg : roundToGrid (2 ^ 1023 * 2) = 2 ^ 1024 :=
    Float64.roundToGrid_eval _ _ 1024 (2 ^ 52) (by norm_num) (by norm_num) (by norm_num)
      (by norm_num) (by norm_num) (by norm_num)
  have hmul : fin (2 ^ 1023) * fin 2 = pinf := by
    rw [mul_of_finite (isFinite_fin _) (isFinite_fin _), toRat_fin, toRat_fin,
      round_of_ge _ _ (by rw [hg]; norm_num)]
    simp [signedInf]
  have h1 : ((L2GasPricer.mk (fin (2 ^ 1023)) (fin 1) (returnConstFn (fin 1)) (fin 1)).CalcNextGasPrice (fin 2) ()).1 = pinf := by
    rw [calcNextGasPrice_price, step]
    show Ceil (Float64.Max (fin 1)
      (fin (2 ^ 1023) * proportionToChangeBy (fin 1) (fin 2 / fin 1))) = pinf
    rw [hq, proportionToChangeBy_eval 1 2 2 0 2 hb ha (by norm_num), hmul]
    rfl
  have h2 : ((L2GasPricer.mk pinf (fin 1) (returnConstFn (fin 1))
      (fin 1)).CalcNextGasPrice (fin 0) ()).1 = nan := by
    rw [calcNextGasPrice_price, step]
    show Ceil (Float64.Max (fin 1)
      (pinf * proportionToChangeBy (fin 1) (fin 0 / fin 1))) = nan
    rw [hq0, proportionToChangeBy_eval 1 0 2 0 0 hb ha (by norm_num)]
    rfl
  have hu : (L2GasPricer.mk (fin (2 ^ 1023)) (fin 1) (returnConstFn (fin 1)) (fin 1)).UpdateGasPrice (fin 2) () =
      (L2GasPricer.mk pinf (fin 1) (returnConstFn (fin 1)) (fin 1), ()) := by
    show (L2GasPricer.mk ((L2GasPricer.mk (fin (2 ^ 1023)) (fin 1) (returnConstFn (fin 1)) (fin 1)).CalcNextGasPrice (fin 2) ()).1 (fin 1)
      (returnConstFn (fin 1)) (fin 1), ()) = _
    rw [h1]
  rw [hu]
  exact ⟨rfl, h2⟩

/-- A zero target in binary64 arithmetic: at price 100, floor 1, maximum change 1/2 and
observed rate 3, the target `+0` makes the quotient `+Inf` and the price 150, the target `-0`
makes the quotient `-Inf` and the price 50. -/
theorem test_binary64_zero_target :
    ((L2GasPricer.mk (fin 100) (fin 1) (returnConstFn (fin 0)) (fin (1 / 2))).CalcNextGasPrice (fin 3) ()).1 = fin 150 ∧
    ((L2GasPricer.mk (fin 100) (fin 1) (returnConstFn nzero) (fin (1 / 2))).CalcNextGasPrice (fin 3) ()).1 = fin 50 := by
  have hb : (1 : Float64) + fin (1 / 2) = fin (3 / 2) :=
    (Float64.one_add_fin_eval (1 / 2) (3 / 2) (Float64.roundToGrid_eval _ _ (0) (6755399441055744) (by norm_num) (by norm_num) (by norm_num) (by norm_num) (by norm_num) (by norm_num)) (by norm_num) (by rw [abs_lt]; constructor <;> norm_num))
  have ha : (1 : Float64) - fin (1 / 2) = fin (1 / 2) :=
    (Float64.one_sub_fin_eval (1 / 2) (1 / 2) (Float64.roundToGrid_eval _ _ (-1) (4503599627370496) (by norm_num) (by norm_num) (by norm_num) (by norm_num) (by norm_num) (by norm_num)) (by norm_num) (by rw [abs_lt]; constructor <;> norm_num))
  have hp : fin 3 / fin 0 = pinf := by
    show div (fin 3) (fin 0) = pinf
    simp [div, isInf, isZero, signedInf, signBit]
  have hn : fin 3 / nzero = ninf := by
    show div (fin 3) nzero = ninf
    simp [div, isInf, isZero, signedInf, signBit]
  have hfp : proportionToChangeBy (fin (1 / 2)) pinf = fin (3 / 2) := by
    unfold proportionToChangeBy
    rw [hb, if_pos (by decide)]
    rfl
  have hfn : proportionToChangeBy (fin (1 / 2)) ninf = fin (1 / 2) := by
    unfold proportionToChangeBy
    rw [ha, if_neg (by decide)]
    rfl
  have hm1 : fin 100 * fin (3 / 2) = fin 150 :=
    (Float64.mul_fin_eval 100 (3 / 2) 150 (Float64.roundToGrid_eval _ _ (7) (5277655813324800) (by norm_num) (by norm_num) (by norm_num) (by norm_num) (by norm_num) (by norm_num)) (by norm_num) (by rw [abs_lt]; constructor <;> norm_num))
  have hm2 : fin 100 * fin (1 / 2) = fin 50 :=
    (Float64.mul_fin_eval 100 (1 / 2) 50 (Float64.roundToGrid_eval _ _ (5) (7036874417766400) (by norm_num) (by norm_num) (by norm_num) (by norm_num) (by norm_num) (by norm_num)) (by norm_num) (by rw [abs_lt]; constructor <;> norm_num))
  constructor
  · rw [calcNextGasPrice_price, step]
    show Ceil (Float64.Max (fin 1)
      (fin 100 * proportionToChangeBy (fin (1 / 2)) (fin 3 / fin 0))) = fin 150
    rw [hp, hfp, hm1, Max_fin_fin, Ceil_fin_pos _ 150 (by norm_num) (by norm_num)]
    norm_num
  · rw [calcNextGasPrice_price, step]
    show Ceil (Float64.Max (fin 1)
      (fin 100 * proportionToChangeBy (fin (1 / 2)) (fin 3 / nzero))) = fin 50
    rw [hn, hfn, hm2, Max_fin_fin, Ceil_fin_pos _ 50 (by norm_num) (by norm_num)]
    norm_num

end Fees

/-! Statements that depend on rounding, overflow or the sign of a zero. -/

namespace Fees

open Float64

/-- C1, as stated, fails: at price 100, floor 1, target 10, maximum change 1/2 and observed
rate 11 the quotient `11 / 10` and the product `100 * 1.1` are rounded to binary64, the
candidate is `110.00000000000001` and `CalcNextGasPrice` returns 111, while the formula of
the claim over the real numbers, `ceiling(max(1, 100 * min(11/10, 3/2)))`, is 110. -/
theorem real_formula_counterexample :
    ((Fees.L2GasPricer.mk (Float64.fin 100) (Float64.fin 1) (Fees.returnConstFn (Float64.fin 10))
      (Float64.fin (1 / 2))).CalcNextGasPrice (Float64.fin 11) ()).1 = Float64.fin 111 ∧
    specPrice 100 1 (specFactor (1 / 2) (11 / 10)) = 110 :=
  ⟨Fees.calcNextGasPrice_eval (Fees.returnConstFn (Float64.fin 10)) () 100 1 (1 / 2) 11 10
    (2476979795053773 / 2251799813685248) (3 / 2) (1 / 2) (2476979795053773 / 2251799813685248) (7740561859543041 / 70368744177664) (111) rfl (by norm_num)
    (Float64.roundToGrid_eval _ _ (0) (4953959590107546) (by norm_num) (by norm_num) (by norm_num) (by norm_num) (by norm_num) (by norm_num))
    (Float64.roundToGrid_eval _ _ (0) (6755399441055744) (by norm_num) (by norm_num) (by norm_num) (by norm_num) (by norm_num) (by norm_num))
    (Float64.roundToGrid_eval _ _ (-1) (4503599627370496) (by norm_num) (by norm_num) (by norm_num) (by norm_num) (by norm_num) (by norm_num))
    (by norm_num)
    (Float64.roundToGrid_eval _ _ (6) (7740561859543041) (by norm_num) (by norm_num) (by norm_num) (by norm_num) (by norm_num) (by norm_num))
    (by rw [abs_lt]; constructor <;> norm_num) (by rw [abs_lt]; constructor <;> norm_num)
    (by rw [abs_lt]; constructor <;> norm_num) (by rw [abs_lt]; constructor <;> norm_num)
    (by rw [Int.ceil_eq_iff]; norm_num) (by norm_num),
    by norm_num [specPrice, specFactor]⟩

/-- C1, amended. `CalcNextGasPrice` computes the rule of the specification with every
operation rounded to binary64: on finite fields, a finite observed rate `x` and a finite
non-zero target `T`, when none of the quotient `x / T`, the sums `1 + m` and `1 - m` and the
candidate `curPrice * f` overflows, the result is the finite value
`ceiling(max(floorPrice, fl(curPrice * f)))` for the two-branch factor `f` of
`ratio = fl(x / T)`, `fl(1 + m)` and `fl(1 - m)`, where `fl` rounds to the nearest binary64
value; and it is the exact value `ceiling(max(floorPrice, curPrice * f))` of the claim
whenever these four roundings are exact. -/
theorem calcNextGasPrice_eq_spec {σ : Type} (g : GetTargetGasPerSecond σ) (s : σ)
    (cur floor m x T : ℚ) (hg : (g s).1 = fin T) (hT : T ≠ 0)
    (h1 : |roundToGrid (x / T)| < 2 ^ 1024) (h2 : |roundToGrid (1 + m)| < 2 ^ 1024)
    (h3 : |roundToGrid (1 - m)| < 2 ^ 1024)
    (h4 : |roundToGrid (cur * specFactor64 m x T)| < 2 ^ 1024) :
    isFinite ((L2GasPricer.mk (fin cur) (fin floor) g (fin m)).CalcNextGasPrice
      (fin x) s).1 = true ∧
    toRat ((L2GasPricer.mk (fin cur) (fin floor) g (fin m)).CalcNextGasPrice (fin x) s).1 =
      specPrice64 cur floor m x T ∧
    (roundToGrid (x / T) = x / T → roundToGrid (1 + m) = 1 + m →
      roundToGrid (1 - m) = 1 - m →
      roundToGrid (cur * specFactor m (x / T)) = cur * specFactor m (x / T) →
      toRat ((L2GasPricer.mk (fin cur) (fin floor) g (fin m)).CalcNextGasPrice
        (fin x) s).1 = specPrice cur floor (specFactor m (x / T))) := by
  obtain ⟨hf, hfv⟩ := proportionToChangeBy_eq_spec64 m x T hT h1 h2 h3
  have hy := round_of_lt
    (xor (signBit (fin cur)) (signBit (proportionToChangeBy (fin m) (fin x / fin T))))
    (cur * specFactor64 m x T) h4
  have hM : isFinite (Float64.Max (fin floor)
        (fin cur * proportionToChangeBy (fin m) (fin x / fin T))) = true ∧
      toRat (Float64.Max (fin floor)
        (fin cur * proportionToChangeBy (fin m) (fin x / fin T))) =
        max floor (roundToGrid (cur * specFactor64 m x T)) := by
    rw [mul_of_finite (isFinite_fin cur) hf, toRat_fin, hfv]
    have := Max_of_finite (isFinite_fin floor) hy.1
    rw [hy.2, toRat_fin] at this
    exact this
  have hC := Ceil_of_finite hM.1
  rw [hM.2] at hC
  have hval : toRat ((L2GasPricer.mk (fin cur) (fin floor) g (fin m)).CalcNextGasPrice
      (fin x) s).1 = specPrice64 cur floor m x T := by
    rw [calcNextGasPrice_price, step]
    simp only [hg]
    exact hC.2
  refine ⟨?_, hval, fun e1 e2 e3 e4 => ?_⟩
  · rw [calcNextGasPrice_price, step]
    simp only [hg]
    exact hC.1
  · have hfe : specFactor64 m x T = specFactor m (x / T) := by
      unfold specFactor64 specFactor
      rw [e1, e2, e3]
    rw [hval, specPrice64, specPrice, hfe, e4]

/-- At price 100, floor 1, target 10 and maximum change 1/2 ("Reduce fee by 75% if at 75%
capacity"), the observed rate 15/2 gives the value of the rounded formula. -/
theorem calcNextGasPrice_eq_spec_witness :
    toRat ((Fees.L2GasPricer.mk (Float64.fin 100) (Float64.fin 1) (Fees.returnConstFn (Float64.fin 10))
      (Float64.fin (1 / 2))).CalcNextGasPrice (Float64.fin (15 / 2)) ()).1 =
      specPrice64 100 1 (1 / 2) (15 / 2) 10 :=
  (calcNextGasPrice_eq_spec (Fees.returnConstFn (Float64.fin 10)) () 100 1 (1 / 2) (15 / 2) 10 rfl
    (by norm_num)
    (abs_roundToGrid_lt (by rw [abs_le]; constructor <;> norm_num [MaxFloat64]))
    (abs_roundToGrid_lt (by rw [abs_le]; constructor <;> norm_num [MaxFloat64]))
    (abs_roundToGrid_lt (by rw [abs_le]; constructor <;> norm_num [MaxFloat64]))
    (by
      rw [specFactor64_eval (1 / 2) (15 / 2) 10 (3 / 4) (3 / 2) (1 / 2) (3 / 4)
        (Float64.roundToGrid_eval _ _ (-1) (6755399441055744) (by norm_num) (by norm_num) (by norm_num) (by norm_num) (by norm_num) (by norm_num))
        (Float64.roundToGrid_eval _ _ (0) (6755399441055744) (by norm_num) (by norm_num) (by norm_num) (by norm_num) (by norm_num) (by norm_num))
        (Float64.roundToGrid_eval _ _ (-1) (4503599627370496) (by norm_num) (by norm_num) (by norm_num) (by norm_num) (by norm_num) (by norm_num))
        (by norm_num)]
      exact abs_roundToGrid_lt (by rw [abs_le]; constructor <;> norm_num [MaxFloat64]))).2.1

/-- C3, as stated, fails: at price 1, floor 0, target 1, maximum change 1/2 and observed
rate 2 the floor does not bind (`0 <= 1 * f` for the clamped factor `f`), every operation is
exact, the computed price is `ceiling(3/2) = 2`, and the ratio `2 / 1` exceeds `1 + 1/2`. -/
theorem clamp_ratio_counterexample :
    ((Fees.L2GasPricer.mk (Float64.fin 1) (Float64.fin 0) (Fees.returnConstFn (Float64.fin 1))
      (Float64.fin (1 / 2))).CalcNextGasPrice (Float64.fin 2) ()).1 = Float64.fin 2 ∧
    Float64.fin 0 ≤ Float64.fin 1 *
      proportionToChangeBy (Float64.fin (1 / 2)) (Float64.fin 2 / Float64.fin 1) ∧
    ¬ (Float64.fin 2 / Float64.fin 1 ≤ 1 + Float64.fin (1 / 2)) := by
  refine ⟨?_, ?_, ?_⟩
  · exact Fees.calcNextGasPrice_eval (Fees.returnConstFn (Float64.fin 1)) () 1 0 (1 / 2) 2 1
        2 (3 / 2) (1 / 2) (3 / 2) (3 / 2) (2) rfl (by norm_num)
        (Float64.roundToGrid_eval _ _ (1) (4503599627370496) (by norm_num) (by norm_num) (by norm_num) (by norm_num) (by norm_num) (by norm_num))
        (Float64.roundToGrid_eval _ _ (0) (6755399441055744) (by norm_num) (by norm_num) (by norm_num) (by norm_num) (by norm_num) (by norm_num))
        (Float64.roundToGrid_eval _ _ (-1) (4503599627370496) (by norm_num) (by norm_num) (by norm_num) (by norm_num) (by norm_num) (by norm_num))
        (by norm_num)
        (Float64.roundToGrid_eval _ _ (0) (6755399441055744) (by norm_num) (by norm_num) (by norm_num) (by norm_num) (by norm_num) (by norm_num))
        (by rw [abs_lt]; constructor <;> norm_num) (by rw [abs_lt]; constructor <;> norm_num)
        (by rw [abs_lt]; constructor <;> norm_num) (by rw [abs_lt]; constructor <;> norm_num)
        (by rw [Int.ceil_eq_iff]; norm_num) (by norm_num)
  · rw [(candidate_eval 1 (1 / 2) 2 1 2 (3 / 2) (1 / 2) (3 / 2) (3 / 2)
          (Float64.div_fin_eval 2 1 2 (by norm_num) (Float64.roundToGrid_eval _ _ (1) (4503599627370496) (by norm_num) (by norm_num) (by norm_num) (by norm_num) (by norm_num) (by norm_num)) (by norm_num) (by rw [abs_lt]; constructor <;> norm_num))
          (Float64.one_add_fin_eval (1 / 2) (3 / 2) (Float64.roundToGrid_eval _ _ (0) (6755399441055744) (by norm_num) (by norm_num) (by norm_num) (by norm_num) (by norm_num) (by norm_num)) (by norm_num) (by rw [abs_lt]; constructor <;> norm_num))
          (Float64.one_sub_fin_eval (1 / 2) (1 / 2) (Float64.roundToGrid_eval _ _ (-1) (4503599627370496) (by norm_num) (by norm_num) (by norm_num) (by norm_num) (by norm_num) (by norm_num)) (by norm_num) (by rw [abs_lt]; constructor <;> norm_num))
          (by norm_num)
          (Float64.mul_fin_eval 1 (3 / 2) (3 / 2) (Float64.roundToGrid_eval _ _ (0) (6755399441055744) (by norm_num) (by norm_num) (by norm_num) (by norm_num) (by norm_num) (by norm_num)) (by norm_num) (by rw [abs_lt]; constructor <;> norm_num))), fin_le_fin_iff]
    norm_num
  · rw [(Float64.div_fin_eval 2 1 2 (by norm_num) (Float64.roundToGrid_eval _ _ (1) (4503599627370496) (by norm_num) (by norm_num) (by norm_num) (by norm_num) (by norm_num) (by norm_num)) (by norm_num) (by rw [abs_lt]; constructor <;> norm_num)),
      (Float64.one_add_fin_eval (1 / 2) (3 / 2) (Float64.roundToGrid_eval _ _ (0) (6755399441055744) (by norm_num) (by norm_num) (by norm_num) (by norm_num) (by norm_num) (by norm_num)) (by norm_num) (by rw [abs_lt]; constructor <;> norm_num)), fin_le_fin_iff]
    norm_num

/-- C3, amended. The clamp after rounding, in binary64 arithmetic: for `curPrice > 0`,
`0 <= m <= MaxFloat64` and a positive target, the computed price is at least
`ceiling(curPrice * (1 - m))`, and when the floor does not bind
(`floorPrice <= curPrice * f`) it is at most `ceiling(curPrice * (1 + m))`. -/
theorem clamp_ratio_rounded {σ : Type} (g : GetTargetGasPerSecond σ) (s : σ)
    (cur floor m x T : ℚ) (hg : (g s).1 = fin T) (hcur : 0 < cur) (hm : 0 ≤ m)
    (hmax : m ≤ MaxFloat64) (hT : 0 < T)
    (hfloor : fin floor ≤ fin cur * proportionToChangeBy (fin m) (fin x / fin T)) :
    Ceil (fin cur * (1 - fin m)) ≤
      ((L2GasPricer.mk (fin cur) (fin floor) g (fin m)).CalcNextGasPrice (fin x) s).1 ∧
    ((L2GasPricer.mk (fin cur) (fin floor) g (fin m)).CalcNextGasPrice (fin x) s).1 ≤
      Ceil (fin cur * (1 + fin m)) := by
  have ht : (g s).1 ≠ nan := by rw [hg]; simp
  have h0 : x ≠ 0 ∨ isZero (g s).1 = false := Or.inr (by simp [hg, isZero, hT.ne.symm])
  have hr := quotient_ne_nan ht h0
  rw [hg] at hr
  obtain ⟨h1, h2⟩ := candidate_bounds hcur.le hm hmax hr
  have hfl : (fin floor : Float64) ≠ nan := by simp
  rw [calcNextGasPrice_price, step]
  simp only [hg]
  exact ⟨Ceil_le_Ceil (le_trans' h1 (le_Max_right hfl (ne_nan_of_le h1).2)),
    Ceil_le_Ceil (Max_le (le_trans' hfloor h2) h2)⟩

/-- At price 1, floor 0, target 1, maximum change 1/2 and observed rate 2 the computed
price lies between `ceiling(1 * (1 - 1/2))` and `ceiling(1 * (1 + 1/2))`. -/
theorem clamp_ratio_rounded_witness :
    Ceil (Float64.fin 1 * (1 - Float64.fin (1 / 2))) ≤
      ((Fees.L2GasPricer.mk (Float64.fin 1) (Float64.fin 0) (Fees.returnConstFn (Float64.fin 1))
      (Float64.fin (1 / 2))).CalcNextGasPrice (Float64.fin 2) ()).1 ∧
    ((Fees.L2GasPricer.mk (Float64.fin 1) (Float64.fin 0) (Fees.returnConstFn (Float64.fin 1))
      (Float64.fin (1 / 2))).CalcNextGasPrice (Float64.fin 2) ()).1 ≤
      Ceil (Float64.fin 1 * (1 + Float64.fin (1 / 2))) :=
  clamp_ratio_rounded (returnConstFn (Float64.fin 1)) () 1 0 (1 / 2) 2 1 rfl (by norm_num)
    (by norm_num) (by norm_num [MaxFloat64]) (by norm_num)
    (by
      rw [(candidate_eval 1 (1 / 2) 2 1 2 (3 / 2) (1 / 2) (3 / 2) (3 / 2)
            (Float64.div_fin_eval 2 1 2 (by norm_num) (Float64.roundToGrid_eval _ _ (1) (4503599627370496) (by norm_num) (by norm_num) (by norm_num) (by norm_num) (by norm_num) (by norm_num)) (by norm_num) (by rw [abs_lt]; constructor <;> norm_num))
            (Float64.one_add_fin_eval (1 / 2) (3 / 2) (Float64.roundToGrid_eval _ _ (0) (6755399441055744) (by norm_num) (by norm_num) (by norm_num) (by norm_num) (by norm_num) (by norm_num)) (by norm_num) (by rw [abs_lt]; constructor <;> norm_num))
            (Float64.one_sub_fin_eval (1 / 2) (1 / 2) (Float64.roundToGrid_eval _ _ (-1) (4503599627370496) (by norm_num) (by norm_num) (by norm_num) (by norm_num) (by norm_num) (by norm_num)) (by norm_num) (by rw [abs_lt]; constructor <;> norm_num))
            (by norm_num)
            (Float64.mul_fin_eval 1 (3 / 2) (3 / 2) (Float64.roundToGrid_eval _ _ (0) (6755399441055744) (by norm_num) (by norm_num) (by norm_num) (by norm_num) (by norm_num) (by norm_num)) (by norm_num) (by rw [abs_lt]; constructor <;> norm_num))), fin_le_fin_iff]
      norm_num)

/-- C4, as stated, fails: `NewGasPricer` with initial price 5 and floor 10 keeps the price 5,
so before any `UpdateGasPrice` call `curPrice >= floorPrice` is false. -/
theorem newGasPricer_below_floor_counterexample :
    (UpdateGasPriceAll (NewGasPricer (Float64.fin 5) (Float64.fin 10)
      (returnConstFn (Float64.fin 10)) (Float64.fin (1 / 2))).1 [] ()).1.curPrice =
      Float64.fin 5 ∧
    ¬ ((UpdateGasPriceAll (NewGasPricer (Float64.fin 5) (Float64.fin 10)
        (returnConstFn (Float64.fin 10)) (Float64.fin (1 / 2))).1 [] ()).1.floorPrice ≤
      (UpdateGasPriceAll (NewGasPricer (Float64.fin 5) (Float64.fin 10)
        (returnConstFn (Float64.fin 10)) (Float64.fin (1 / 2))).1 [] ()).1.curPrice) := by
  rw [newGasPricer_of_fin]
  norm_num [UpdateGasPriceAll, fin_le_fin_iff]

/-- C4, amended. For a pricer built by `NewGasPricer` from a finite initial price, a finite
floor and a maximum change `m` with `0 <= m` and `1 - m > 0`, `curPrice >= floorPrice` holds
after every sequence of `UpdateGasPrice` calls with finite observed rates and targets that
are not `NaN`, no call having observed rate and target both zero, provided the initial price
is zero or at least the floor, or the sequence has at least one call. -/
theorem curPrice_ge_floor_after_updates {σ : Type} (g : GetTargetGasPerSecond σ)
    (init floor m : ℚ) (xs : List ℚ) (s : σ) (hm0 : 0 ≤ m) (hm1 : (0 : Float64) < 1 - fin m)
    (hg : TargetsDefined g xs s) (h : init = 0 ∨ floor ≤ init ∨ xs ≠ []) :
    (UpdateGasPriceAll (NewGasPricer (fin init) (fin floor) g (fin m)).1
        (xs.map fin) s).1.floorPrice ≤
      (UpdateGasPriceAll (NewGasPricer (fin init) (fin floor) g (fin m)).1
        (xs.map fin) s).1.curPrice := by
  rw [newGasPricer_of_fin]
  obtain ⟨c', hc', hle⟩ := updateGasPriceAll_inv g floor m hm0 hm1 xs
    (fin (if init = 0 then floor else init)) s (by simp) hg
  rw [hc']
  apply hle
  rcases h with h | h | h
  · exact Or.inl (by simp [h])
  · by_cases h0 : init = 0
    · exact Or.inl (by simp [h0])
    · exact Or.inl (by simp [h0, h])
  · exact Or.inr h

/-- A pricer built with initial price 5 below the floor 10 is at or above the floor after
the two updates with observed rates 1 and 20 (constant target 10, maximum change 1/2). -/
theorem curPrice_ge_floor_after_updates_witness :
    (UpdateGasPriceAll (NewGasPricer (Float64.fin 5) (Float64.fin 10)
        (returnConstFn (Float64.fin 10)) (Float64.fin (1 / 2))).1
        ([1, 20].map Float64.fin) ()).1.floorPrice ≤
      (UpdateGasPriceAll (NewGasPricer (Float64.fin 5) (Float64.fin 10)
        (returnConstFn (Float64.fin 10)) (Float64.fin (1 / 2))).1
        ([1, 20].map Float64.fin) ()).1.curPrice :=
  curPrice_ge_floor_after_updates (returnConstFn (Float64.fin 10)) 5 10 (1 / 2) [1, 20] ()
    (by norm_num)
    (by
      rw [(Float64.one_sub_fin_eval (1 / 2) (1 / 2) (Float64.roundToGrid_eval _ _ (-1) (4503599627370496) (by norm_num) (by norm_num) (by norm_num) (by norm_num) (by norm_num) (by norm_num)) (by norm_num) (by rw [abs_lt]; constructor <;> norm_num)), zero_eq_fin, fin_lt_fin_iff]
      norm_num)
    ⟨⟨by simp [returnConstFn], Or.inl (by norm_num)⟩,
      ⟨by simp [returnConstFn], Or.inl (by norm_num)⟩, trivial⟩
    (Or.inr (Or.inr (by simp)))

/-- C7, as stated, fails: at price 100, floor 1, target 1, observed rate 2 and maximum
change `m` the binary64 value of 0.09, the quotient 2 is at least `1 + m`, the sum `1 + m` and
the product `100 * (1 + m)` are rounded up, the candidate is `109.00000000000001` and
`CalcNextGasPrice` returns 110, while `ceiling(max(1, 100 * (1 + m)))` over the real numbers
is 109. -/
theorem upward_limit_counterexample :
    ((Fees.L2GasPricer.mk (Float64.fin 100) (Float64.fin 1) (Fees.returnConstFn (Float64.fin 1))
      (Float64.fin (3242591731706757 / 36028797018963968))).CalcNextGasPrice (Float64.fin 2) ()).1 = Float64.fin 110 ∧
    (1 : ℚ) + (3242591731706757 / 36028797018963968) ≤ 2 / 1 ∧
    specPrice 100 1 (1 + (3242591731706757 / 36028797018963968)) = 109 := by
  refine ⟨?_, by norm_num, ?_⟩
  · exact Fees.calcNextGasPrice_eval (Fees.returnConstFn (Float64.fin 1)) () 100 1 (3242591731706757 / 36028797018963968) 2 1
        2 (4908923593833841 / 4503599627370496) (8196551321814303 / 9007199254740992) (4908923593833841 / 4503599627370496) (7670193115365377 / 70368744177664) (110) rfl (by norm_num)
        (Float64.roundToGrid_eval _ _ (1) (4503599627370496) (by norm_num) (by norm_num) (by norm_num) (by norm_num) (by norm_num) (by norm_num))
        (Float64.roundToGrid_eval _ _ (0) (4908923593833841) (by norm_num) (by norm_num) (by norm_num) (by norm_num) (by norm_num) (by norm_num))
        (Float64.roundToGrid_eval _ _ (-1) (8196551321814303) (by norm_num) (by norm_num) (by norm_num) (by norm_num) (by norm_num) (by norm_num))
        (by norm_num)
        (Float64.roundToGrid_eval _ _ (6) (7670193115365377) (by norm_num) (by norm_num) (by norm_num) (by norm_num) (by norm_num) (by norm_num))
        (by rw [abs_lt]; constructor <;> norm_num) (by rw [abs_lt]; constructor <;> norm_num)
        (by rw [abs_lt]; constructor <;> norm_num) (by rw [abs_lt]; constructor <;> norm_num)
        (by rw [Int.ceil_eq_iff]; norm_num) (by norm_num)
  · rw [specPrice, Int.ceil_eq_iff]
    norm_num

/-- C7, amended. Upward rate limit, in binary64 arithmetic: for every pricer with `m >= 0`,
every observed rate and every target whose rounded quotient is at least the rounded sum
`1 + m` (all `float64` values, the special ones included), `CalcNextGasPrice` returns
`ceiling(max(floorPrice, curPrice * (1 + m)))` with the sum and the product rounded to
binary64, whatever the quotient is. -/
theorem calcNextGasPrice_upward_limit {σ : Type} (p : L2GasPricer σ) (x : Float64) (s : σ)
    (hm : 0 ≤ p.maxPercentChangePerEpoch)
    (h : x / (p.getTargetGasPerSecond s).1 ≥ 1 + p.maxPercentChangePerEpoch) :
    (p.CalcNextGasPrice x s).1 =
      Ceil (Float64.Max p.floorPrice (p.curPrice * (1 + p.maxPercentChangePerEpoch))) := by
  have hb : (1 : Float64) ≤ 1 + p.maxPercentChangePerEpoch := one_le_one_add hm
  have hr : x / (p.getTargetGasPerSecond s).1 ≥ 1 := le_trans' hb h
  rw [calcNextGasPrice_price, step, proportionToChangeBy, if_pos hr,
    Min_eq_right h (Or.inr (isZero_eq_false_of_one_le hb))]

/-- At price 100, floor 1, target 10 and maximum change 1/2 ("Max % change bounds the
increase in price"), the observed rate 100 gives `ceiling(max(1, 100 * (1 + 1/2)))`. -/
theorem calcNextGasPrice_upward_limit_witness :
    ((Fees.L2GasPricer.mk (Float64.fin 100) (Float64.fin 1) (Fees.returnConstFn (Float64.fin 10))
      (Float64.fin (1 / 2))).CalcNextGasPrice (Float64.fin 100) ()).1 =
      Ceil (Float64.Max (Float64.fin 1) (Float64.fin 100 * (1 + Float64.fin (1 / 2)))) :=
  calcNextGasPrice_upward_limit
    (Fees.L2GasPricer.mk (Float64.fin 100) (Float64.fin 1) (Fees.returnConstFn (Float64.fin 10))
      (Float64.fin (1 / 2)))
    (Float64.fin 100) ()
    (by
      show (0 : Float64) ≤ Float64.fin (1 / 2)
      rw [zero_eq_fin, fin_le_fin_iff]
      norm_num)
    (by
      show Float64.fin 100 / Float64.fin 10 ≥ 1 + Float64.fin (1 / 2)
      rw [(Float64.div_fin_eval 100 10 10 (by norm_num) (Float64.roundToGrid_eval _ _ (3) (5629499534213120) (by norm_num) (by norm_num) (by norm_num) (by norm_num) (by norm_num) (by norm_num)) (by norm_num) (by rw [abs_lt]; constructor <;> norm_num)),
        (Float64.one_add_fin_eval (1 / 2) (3 / 2) (Float64.roundToGrid_eval _ _ (0) (6755399441055744) (by norm_num) (by norm_num) (by norm_num) (by norm_num) (by norm_num) (by norm_num)) (by norm_num) (by rw [abs_lt]; constructor <;> norm_num)), ge_iff_le, fin_le_fin_iff]
      norm_num)

/-- C8, as stated, fails: at price 100, floor 1, target 10, observed rate 1 and maximum
change `m` the binary64 value of 0.03, the quotient is at most `1 - m`, the difference `1 - m`
is rounded and the product `100 * (1 - m)` rounds to exactly 97, so `CalcNextGasPrice`
returns 97, while `ceiling(max(1, 100 * (1 - m)))` over the real numbers is 98. -/
theorem downward_limit_counterexample :
    ((Fees.L2GasPricer.mk (Float64.fin 100) (Float64.fin 1) (Fees.returnConstFn (Float64.fin 10))
      (Float64.fin (1080863910568919 / 36028797018963968))).CalcNextGasPrice (Float64.fin 1) ()).1 = Float64.fin 97 ∧
    (1 : ℚ) / 10 ≤ 1 - (1080863910568919 / 36028797018963968) ∧
    specPrice 100 1 (1 - (1080863910568919 / 36028797018963968)) = 98 := by
  refine ⟨?_, by norm_num, ?_⟩
  · exact Fees.calcNextGasPrice_eval (Fees.returnConstFn (Float64.fin 10)) () 100 1 (1080863910568919 / 36028797018963968) 1 10
        (3602879701896397 / 36028797018963968) (4638707616191611 / 4503599627370496) (4368491638549381 / 4503599627370496) (4368491638549381 / 4503599627370496) 97 (97) rfl (by norm_num)
        (Float64.roundToGrid_eval _ _ (-4) (7205759403792794) (by norm_num) (by norm_num) (by norm_num) (by norm_num) (by norm_num) (by norm_num))
        (Float64.roundToGrid_eval _ _ (0) (4638707616191611) (by norm_num) (by norm_num) (by norm_num) (by norm_num) (by norm_num) (by norm_num))
        (Float64.roundToGrid_eval _ _ (-1) (8736983277098762) (by norm_num) (by norm_num) (by norm_num) (by norm_num) (by norm_num) (by norm_num))
        (by norm_num)
        (Float64.roundToGrid_eval _ _ (6) (6825768185233408) (by norm_num) (by norm_num) (by norm_num) (by norm_num) (by norm_num) (by norm_num))
        (by rw [abs_lt]; constructor <;> norm_num) (by rw [abs_lt]; constructor <;> norm_num)
        (by rw [abs_lt]; constructor <;> norm_num) (by rw [abs_lt]; constructor <;> norm_num)
        (by rw [Int.ceil_eq_iff]; norm_num) (by norm_num)
  · rw [specPrice, Int.ceil_eq_iff]
    norm_num

/-- C8, amended. Downward rate limit, in binary64 arithmetic: for every pricer whose `m` is
a `float64` value with `m >= 0`, every observed rate and every target whose rounded quotient
is at most the rounded difference `1 - m` (all `float64` values, the special ones included),
`CalcNextGasPrice` returns `ceiling(max(floorPrice, curPrice * (1 - m)))` with the difference
and the product rounded to binary64, whatever the quotient is. -/
theorem calcNextGasPrice_downward_limit {σ : Type} (p : L2GasPricer σ) (x : Float64) (s : σ)
    (hv : p.maxPercentChangePerEpoch.Valid) (hm : 0 ≤ p.maxPercentChangePerEpoch)
    (h : x / (p.getTargetGasPerSecond s).1 ≤ 1 - p.maxPercentChangePerEpoch) :
    (p.CalcNextGasPrice x s).1 =
      Ceil (Float64.Max p.floorPrice (p.curPrice * (1 - p.maxPercentChangePerEpoch))) := by
  have ha : (1 : Float64) - p.maxPercentChangePerEpoch ≤ 1 := one_sub_le_one hm
  have hb : (1 : Float64) ≤ 1 + p.maxPercentChangePerEpoch := one_le_one_add hm
  rw [calcNextGasPrice_price, step, proportionToChangeBy]
  by_cases hr : x / (p.getTargetGasPerSecond s).1 ≥ 1
  · -- only for a quotient of exactly one and `1 - m = 1`: both branches give the factor one
    have ha1 : (1 : Float64) - p.maxPercentChangePerEpoch = fin 1 :=
      eq_one_of_le_of_ge (le_trans' hr h) ha
    have hr1 : x / (p.getTargetGasPerSecond s).1 = fin 1 :=
      eq_one_of_le_of_ge hr (le_trans' h ha)
    rw [if_pos hr, hr1, ha1, Min_one_of_one_le hb]
  · rw [if_neg hr, Max_eq_right h (Or.inl (one_sub_ne_nzero hv))]

/-- At price 100, floor 1, target 10 and maximum change 1/2 ("Reduce fee by half if at 50%
capacity"), the observed rate 5 gives `ceiling(max(1, 100 * (1 - 1/2)))`. -/
theorem calcNextGasPrice_downward_limit_witness :
    ((Fees.L2GasPricer.mk (Float64.fin 100) (Float64.fin 1) (Fees.returnConstFn (Float64.fin 10))
      (Float64.fin (1 / 2))).CalcNextGasPrice (Float64.fin 5) ()).1 =
      Ceil (Float64.Max (Float64.fin 1) (Float64.fin 100 * (1 - Float64.fin (1 / 2)))) :=
  calcNextGasPrice_downward_limit
    (Fees.L2GasPricer.mk (Float64.fin 100) (Float64.fin 1) (Fees.returnConstFn (Float64.fin 10))
      (Float64.fin (1 / 2)))
    (Float64.fin 5) ()
    (by
      show IsBinary64 (1 / 2)
      exact ⟨1, -1, by norm_num, by norm_num, by norm_num, by norm_num⟩)
    (by
      show (0 : Float64) ≤ Float64.fin (1 / 2)
      rw [zero_eq_fin, fin_le_fin_iff]
      norm_num)
    (by
      show Float64.fin 5 / Float64.fin 10 ≤ 1 - Float64.fin (1 / 2)
      rw [(Float64.div_fin_eval 5 10 (1 / 2) (by norm_num) (Float64.roundToGrid_eval _ _ (-1) (4503599627370496) (by norm_num) (by norm_num) (by norm_num) (by norm_num) (by norm_num) (by norm_num)) (by norm_num) (by rw [abs_lt]; constructor <;> norm_num)),
        (Float64.one_sub_fin_eval (1 / 2) (1 / 2) (Float64.roundToGrid_eval _ _ (-1) (4503599627370496) (by norm_num) (by norm_num) (by norm_num) (by norm_num) (by norm_num) (by norm_num)) (by norm_num) (by rw [abs_lt]; constructor <;> norm_num)), fin_le_fin_iff])

/-- C11. Dynamic target: two successive calls `UpdateGasPrice(x1)`, `UpdateGasPrice(x2)`
leave `curPrice` at `step(step(p0, x1, t1), x2, t2)`, where `step` is the pricing rule at an
explicit target, `t1` is what the supplier returns on its first invocation and `t2` what it
returns on the second; each call invokes the supplier exactly once (the supplier's state
after a call is its state after one more invocation), and the other fields are the same
fields throughout. -/
theorem updateGasPrice_dynamic_target {σ : Type} (p : L2GasPricer σ) (x1 x2 : Float64)
    (s : σ) :
    ((p.UpdateGasPrice x1 s).1.UpdateGasPrice x2 (p.UpdateGasPrice x1 s).2).1.curPrice =
      step p.floorPrice p.maxPercentChangePerEpoch
        (step p.floorPrice p.maxPercentChangePerEpoch p.curPrice x1
          (p.getTargetGasPerSecond s).1)
        x2 (p.getTargetGasPerSecond (p.getTargetGasPerSecond s).2).1 ∧
    (p.UpdateGasPrice x1 s).2 = (p.getTargetGasPerSecond s).2 ∧
    ((p.UpdateGasPrice x1 s).1.UpdateGasPrice x2 (p.UpdateGasPrice x1 s).2).2 =
      (p.getTargetGasPerSecond (p.getTargetGasPerSecond s).2).2 := by
  refine ⟨?_, rfl, rfl⟩
  simp only [L2GasPricer.UpdateGasPrice, L2GasPricer.CalcNextGasPrice, step,
    proportionToChangeBy]

/-- C12. Purity of computation: `CalcNextGasPrice` leaves the receiver as it was (no field
of the pricer is changed), invokes the supplier once, and returns the pricing step of the
four fields, the observed rate and the target returned; so a second call on the receiver as
the first call left it, with the same observed rate and a supplier returning the same target,
returns the same price. -/
theorem calcNextGasPrice_pure {σ : Type} (p : L2GasPricer σ) (x : Float64) (s : σ) :
    (p.CalcNextGasPrice x s).2.1 = p ∧
    (p.CalcNextGasPrice x s).2.2 = (p.getTargetGasPerSecond s).2 ∧
    (p.CalcNextGasPrice x s).1 = step p.floorPrice p.maxPercentChangePerEpoch p.curPrice x
      (p.getTargetGasPerSecond s).1 ∧
    ((p.getTargetGasPerSecond (p.getTargetGasPerSecond s).2).1 =
        (p.getTargetGasPerSecond s).1 →
      ((p.CalcNextGasPrice x s).2.1.CalcNextGasPrice x (p.CalcNextGasPrice x s).2.2).1 =
        (p.CalcNextGasPrice x s).1) := by
  refine ⟨rfl, rfl, rfl, fun h => ?_⟩
  simp only [L2GasPricer.CalcNextGasPrice, h]

/-- With a supplier that counts its invocations and always returns 10, a second call on
the receiver as the first call left it returns the price of the first. -/
theorem calcNextGasPrice_pure_witness :
    (((L2GasPricer.mk (Float64.fin 100) (Float64.fin 1)
        (fun n : ℕ => (Float64.fin 10, n + 1)) (Float64.fin (1 / 2))).CalcNextGasPrice
          (Float64.fin 5) 0).2.1.CalcNextGasPrice (Float64.fin 5)
        ((L2GasPricer.mk (Float64.fin 100) (Float64.fin 1)
          (fun n : ℕ => (Float64.fin 10, n + 1)) (Float64.fin (1 / 2))).CalcNextGasPrice
            (Float64.fin 5) 0).2.2).1 =
      ((L2GasPricer.mk (Float64.fin 100) (Float64.fin 1)
        (fun n : ℕ => (Float64.fin 10, n + 1)) (Float64.fin (1 / 2))).CalcNextGasPrice
          (Float64.fin 5) 0).1 :=
  (calcNextGasPrice_pure
    (L2GasPricer.mk (Float64.fin 100) (Float64.fin 1) (fun n : ℕ => (Float64.fin 10, n + 1))
      (Float64.fin (1 / 2))) (Float64.fin 5) 0).2.2.2 rfl

/-- C14, as stated, fails: at price 100, floor 1, maximum change 1/2, target 0 and observed
rate 0 the quotient `0 / 0` is `NaN` and `CalcNextGasPrice` returns `NaN`, which is neither
finite nor an infinity and is not equal (Go `==`) to its own ceiling. -/
theorem calcNextGasPrice_integer_counterexample :
    ((Fees.L2GasPricer.mk (Float64.fin 100) (Float64.fin 1) (Fees.returnConstFn (Float64.fin 0))
      (Float64.fin (1 / 2))).CalcNextGasPrice (Float64.fin 0) ()).1 = Float64.nan ∧
    Float64.isFinite Float64.nan = false ∧
    Float64.beq (Ceil Float64.nan) Float64.nan = false :=
  ⟨calcNextGasPrice_nan_of_zero_over_zero (returnConstFn (Float64.fin 0)) () 100 1 (1 / 2)
      (by rw [abs_le]; constructor <;> norm_num [MaxFloat64]) (by simp [returnConstFn, isZero]),
    rfl, rfl⟩

/-- C14, amended. On finite fields with `|m| <= MaxFloat64`, a finite observed rate and a
target that is not `NaN`, the two not both zero, the value returned by `CalcNextGasPrice` is
`+Inf` (the candidate price overflowed) or a finite whole number, and in both cases equal to
its own ceiling. -/
theorem calcNextGasPrice_integer {σ : Type} (g : GetTargetGasPerSecond σ) (s : σ)
    (cur floor m x : ℚ) (hmax : |m| ≤ MaxFloat64) (ht : (g s).1 ≠ nan)
    (h0 : x ≠ 0 ∨ isZero (g s).1 = false) :
    (((L2GasPricer.mk (fin cur) (fin floor) g (fin m)).CalcNextGasPrice (fin x) s).1 = pinf ∨
      (isFinite ((L2GasPricer.mk (fin cur) (fin floor) g (fin m)).CalcNextGasPrice
          (fin x) s).1 = true ∧
        ∃ n : ℤ, toRat ((L2GasPricer.mk (fin cur) (fin floor) g (fin m)).CalcNextGasPrice
          (fin x) s).1 = n)) ∧
    Ceil ((L2GasPricer.mk (fin cur) (fin floor) g (fin m)).CalcNextGasPrice (fin x) s).1 =
      ((L2GasPricer.mk (fin cur) (fin floor) g (fin m)).CalcNextGasPrice (fin x) s).1 := by
  have hr := quotient_ne_nan ht h0
  have hf := proportionToChangeBy_finite (isFinite_one_sub_fin hmax) (isFinite_one_add_fin hmax)
    hr
  have hy : fin cur * proportionToChangeBy (fin m) (fin x / (g s).1) ≠ nan :=
    mul_ne_nan_of_finite (isFinite_fin cur) hf
  have hfl : (fin floor : Float64) ≠ nan := by simp
  have hM := Max_ne_nan hfl hy
  have hge := le_Max_left hfl hy
  rw [calcNextGasPrice_price, step]
  refine ⟨?_, Ceil_Ceil _⟩
  generalize Float64.Max (fin floor)
    (fin cur * proportionToChangeBy (fin m) (fin x / (g s).1)) = M at hM hge
  by_cases hMf : isFinite M = true
  · exact Or.inr ⟨(Ceil_of_finite hMf).1, ⟨_, (Ceil_of_finite hMf).2⟩⟩
  · left
    rcases M with _ | _ | _ | M | _ <;> simp_all [isFinite, le_def, le, Ceil]

/-- At price 100, floor 1, maximum change 1/2 and target 0, the observed rate 3 gives a whole
number (the quotient is `+Inf`, the factor `3/2`). -/
theorem calcNextGasPrice_integer_witness :
    (((Fees.L2GasPricer.mk (Float64.fin 100) (Float64.fin 1) (Fees.returnConstFn (Float64.fin 0))
      (Float64.fin (1 / 2))).CalcNextGasPrice (Float64.fin 3) ()).1 = Float64.pinf ∨
      (isFinite ((Fees.L2GasPricer.mk (Float64.fin 100) (Float64.fin 1) (Fees.returnConstFn (Float64.fin 0))
      (Float64.fin (1 / 2))).CalcNextGasPrice (Float64.fin 3) ()).1 = true ∧
        ∃ n : ℤ, toRat ((Fees.L2GasPricer.mk (Float64.fin 100) (Float64.fin 1) (Fees.returnConstFn (Float64.fin 0))
      (Float64.fin (1 / 2))).CalcNextGasPrice (Float64.fin 3) ()).1 = n)) ∧
    Ceil ((Fees.L2GasPricer.mk (Float64.fin 100) (Float64.fin 1) (Fees.returnConstFn (Float64.fin 0))
      (Float64.fin (1 / 2))).CalcNextGasPrice (Float64.fin 3) ()).1 =
      ((Fees.L2GasPricer.mk (Float64.fin 100) (Float64.fin 1) (Fees.returnConstFn (Float64.fin 0))
      (Float64.fin (1 / 2))).CalcNextGasPrice (Float64.fin 3) ()).1 :=
  calcNextGasPrice_integer (returnConstFn (Float64.fin 0)) () 100 1 (1 / 2) 3
    (by rw [abs_le]; constructor <;> norm_num [MaxFloat64]) (by simp [returnConstFn]) (Or.inl (by norm_num))

/-- C17, as stated, fails: at price 100, floor 1, target 10, observed rate 5 and maximum
change `m = -2^-60`, the difference `1 - m` rounds to exactly one in binary64, so the factor
is not above one and `CalcNextGasPrice` returns 100, while
`ceiling(max(1, 100 * (1 - m)))` over the real numbers is 101. -/
theorem negative_max_change_counterexample :
    ((Fees.L2GasPricer.mk (Float64.fin 100) (Float64.fin 1) (Fees.returnConstFn (Float64.fin 10))
      (Float64.fin (-1 / 1152921504606846976))).CalcNextGasPrice (Float64.fin 5) ()).1 = Float64.fin 100 ∧
    (1 : Float64) - Float64.fin (-1 / 1152921504606846976) = Float64.fin 1 ∧
    specPrice 100 1 (1 - (-1 / 1152921504606846976)) = 101 := by
  refine ⟨?_, ?_, ?_⟩
  · exact Fees.calcNextGasPrice_eval (Fees.returnConstFn (Float64.fin 10)) () 100 1 (-1 / 1152921504606846976) 5 10
        (1 / 2) 1 1 1 100 (100) rfl (by norm_num)
        (Float64.roundToGrid_eval _ _ (-1) (4503599627370496) (by norm_num) (by norm_num) (by norm_num) (by norm_num) (by norm_num) (by norm_num))
        (Float64.roundToGrid_eval _ _ (-1) (9007199254740992) (by norm_num) (by norm_num) (by norm_num) (by norm_num) (by norm_num) (by norm_num))
        (Float64.roundToGrid_eval _ _ (0) (4503599627370496) (by norm_num) (by norm_num) (by norm_num) (by norm_num) (by norm_num) (by norm_num))
        (by norm_num)
        (Float64.roundToGrid_eval _ _ (6) (7036874417766400) (by norm_num) (by norm_num) (by norm_num) (by norm_num) (by norm_num) (by norm_num))
        (by rw [abs_lt]; constructor <;> norm_num) (by rw [abs_lt]; constructor <;> norm_num)
        (by rw [abs_lt]; constructor <;> norm_num) (by rw [abs_lt]; constructor <;> norm_num)
        (by rw [Int.ceil_eq_iff]; norm_num) (by norm_num)
  · exact (Float64.one_sub_fin_eval (-1 / 1152921504606846976) 1 (Float64.roundToGrid_eval _ _ (0) (4503599627370496) (by norm_num) (by norm_num) (by norm_num) (by norm_num) (by norm_num) (by norm_num)) (by norm_num) (by rw [abs_lt]; constructor <;> norm_num))
  · rw [specPrice, Int.ceil_eq_iff]
    norm_num

/-- C17, amended. Negative maximum change, in binary64 arithmetic: for every pricer with
`m < 0` (all `float64` values) the factor `1 + m` is at most one and the factor `1 - m` at
least one; every quotient `>= 1` yields `ceiling(max(floorPrice, curPrice * (1 + m)))` and
every quotient `< 1` yields `ceiling(max(floorPrice, curPrice * (1 - m)))`. -/
theorem calcNextGasPrice_negative_max_change {σ : Type} (p : L2GasPricer σ) (x : Float64)
    (s : σ) (hm : p.maxPercentChangePerEpoch < 0) :
    (1 + p.maxPercentChangePerEpoch ≤ 1 ∧ 1 - p.maxPercentChangePerEpoch ≥ 1) ∧
    (x / (p.getTargetGasPerSecond s).1 ≥ 1 → (p.CalcNextGasPrice x s).1 =
      Ceil (Float64.Max p.floorPrice (p.curPrice * (1 + p.maxPercentChangePerEpoch)))) ∧
    (x / (p.getTargetGasPerSecond s).1 < 1 → (p.CalcNextGasPrice x s).1 =
      Ceil (Float64.Max p.floorPrice (p.curPrice * (1 - p.maxPercentChangePerEpoch)))) := by
  have hb : (1 : Float64) + p.maxPercentChangePerEpoch ≤ 1 := one_add_le_one hm
  have ha : (1 : Float64) ≤ 1 - p.maxPercentChangePerEpoch := one_le_one_sub hm
  refine ⟨⟨hb, ha⟩, fun hr => ?_, fun hr => ?_⟩
  · rw [calcNextGasPrice_price, step, proportionToChangeBy, if_pos hr,
      Min_eq_right (le_trans' hb hr) (Or.inl (isZero_eq_false_of_one_le hr))]
  · have hane : (1 : Float64) - p.maxPercentChangePerEpoch ≠ nzero := by
      intro h0
      rw [h0] at ha
      exact absurd ha (by simp [le_def, le, toRat])
    rw [calcNextGasPrice_price, step, proportionToChangeBy, if_neg (not_ge_of_lt hr),
      Max_eq_right (le_trans' (le_of_lt' hr) ha) (Or.inl hane)]

/-- At price 100, floor 1, target 10 and maximum change `-1/2`, the observed rate 20
(quotient 2) gives `ceiling(max(1, 100 * (1 - 1/2)))`: the price falls above target. -/
theorem calcNextGasPrice_negative_max_change_witness :
    ((Fees.L2GasPricer.mk (Float64.fin 100) (Float64.fin 1) (Fees.returnConstFn (Float64.fin 10))
      (Float64.fin (-1 / 2))).CalcNextGasPrice (Float64.fin 20) ()).1 =
      Ceil (Float64.Max (Float64.fin 1) (Float64.fin 100 * (1 + Float64.fin (-1 / 2)))) :=
  (calcNextGasPrice_negative_max_change
    (Fees.L2GasPricer.mk (Float64.fin 100) (Float64.fin 1) (Fees.returnConstFn (Float64.fin 10))
      (Float64.fin (-1 / 2)))
    (Float64.fin 20) ()
    (by
      show Float64.fin (-1 / 2) < (0 : Float64)
      rw [zero_eq_fin, fin_lt_fin_iff]
      norm_num)).2.1
    (by
      show Float64.fin 20 / Float64.fin 10 ≥ 1
      rw [(Float64.div_fin_eval 20 10 2 (by norm_num) (Float64.roundToGrid_eval _ _ (1) (4503599627370496) (by norm_num) (by norm_num) (by norm_num) (by norm_num) (by norm_num) (by norm_num)) (by norm_num) (by rw [abs_lt]; constructor <;> norm_num)), one_eq_fin, ge_iff_le,
        fin_le_fin_iff]
      norm_num)

/-- C18, as stated, fails: at price 100, floor 1, maximum change 1/2, target 0 and observed
rate 0 the quotient `0 / 0` is `NaN`, `CalcNextGasPrice` returns `NaN`, and `NaN` is neither
at least the lower bound `ceiling(max(1, 100 * (1 - 1/2)))` nor at most the upper bound
`ceiling(max(1, 100 * (1 + 1/2)))`. -/
theorem per_epoch_bounds_counterexample :
    ((Fees.L2GasPricer.mk (Float64.fin 100) (Float64.fin 1) (Fees.returnConstFn (Float64.fin 0))
      (Float64.fin (1 / 2))).CalcNextGasPrice (Float64.fin 0) ()).1 = Float64.nan ∧
    ¬ (Ceil (Float64.Max (Float64.fin 1) (Float64.fin 100 * (1 - Float64.fin (1 / 2)))) ≤
      Float64.nan) ∧
    ¬ (Float64.nan ≤
      Ceil (Float64.Max (Float64.fin 1) (Float64.fin 100 * (1 + Float64.fin (1 / 2))))) :=
  ⟨calcNextGasPrice_nan_of_zero_over_zero (returnConstFn (Float64.fin 0)) () 100 1 (1 / 2)
      (by rw [abs_le]; constructor <;> norm_num [MaxFloat64]) (by simp [returnConstFn, isZero]),
    le_nan_false _, nan_le_false _⟩

/-- C18, amended. Per-epoch bounds after rounding, in binary64 arithmetic: on finite fields
with `curPrice >= 0` and `0 <= m <= MaxFloat64`, for every finite observed rate and every
target that is not `NaN`, the two not both zero, the computed price lies between
`ceiling(max(floorPrice, curPrice * (1 - m)))` and
`ceiling(max(floorPrice, curPrice * (1 + m)))`; and when `curPrice * (1 + m)` does not
overflow, the price is finite and, as a real number, less than
`max(floorPrice, curPrice * (1 + m)) + 1`. -/
theorem calcNextGasPrice_per_epoch_bounds {σ : Type} (g : GetTargetGasPerSecond σ) (s : σ)
    (cur floor m x : ℚ) (hcur : 0 ≤ cur) (hm : 0 ≤ m) (hmax : m ≤ MaxFloat64)
    (ht : (g s).1 ≠ nan) (h0 : x ≠ 0 ∨ isZero (g s).1 = false) :
    Ceil (Float64.Max (fin floor) (fin cur * (1 - fin m))) ≤
      ((L2GasPricer.mk (fin cur) (fin floor) g (fin m)).CalcNextGasPrice (fin x) s).1 ∧
    ((L2GasPricer.mk (fin cur) (fin floor) g (fin m)).CalcNextGasPrice (fin x) s).1 ≤
      Ceil (Float64.Max (fin floor) (fin cur * (1 + fin m))) ∧
    (isFinite (fin cur * (1 + fin m)) = true →
      isFinite ((L2GasPricer.mk (fin cur) (fin floor) g (fin m)).CalcNextGasPrice
        (fin x) s).1 = true ∧
      toRat ((L2GasPricer.mk (fin cur) (fin floor) g (fin m)).CalcNextGasPrice (fin x) s).1 <
        max floor (toRat (fin cur * (1 + fin m))) + 1) := by
  have hr := quotient_ne_nan ht h0
  obtain ⟨h1, h2⟩ := candidate_bounds hcur hm hmax hr
  have hfl : (fin floor : Float64) ≠ nan := by simp
  have hlow : Ceil (Float64.Max (fin floor) (fin cur * (1 - fin m))) ≤
      ((L2GasPricer.mk (fin cur) (fin floor) g (fin m)).CalcNextGasPrice (fin x) s).1 :=
    Ceil_le_Ceil (Max_le_Max hfl h1)
  have hupp : ((L2GasPricer.mk (fin cur) (fin floor) g (fin m)).CalcNextGasPrice
      (fin x) s).1 ≤ Ceil (Float64.Max (fin floor) (fin cur * (1 + fin m))) :=
    Ceil_le_Ceil (Max_le_Max hfl h2)
  refine ⟨hlow, hupp, fun hfin => ?_⟩
  have hMfin := Max_of_finite (isFinite_fin floor) hfin
  have hUfin := Ceil_of_finite hMfin.1
  have hfloorL : (fin floor : Float64) ≤
      Ceil (Float64.Max (fin floor) (fin cur * (1 - fin m))) :=
    le_trans' (le_Max_left hfl (ne_nan_of_le h1).1)
      (le_Ceil (Max_ne_nan hfl (ne_nan_of_le h1).1))
  have hRfin : isFinite ((L2GasPricer.mk (fin cur) (fin floor) g (fin m)).CalcNextGasPrice
      (fin x) s).1 = true :=
    isFinite_of_between (isFinite_fin floor) hUfin.1 (le_trans' hfloorL hlow) hupp
  refine ⟨hRfin, ?_⟩
  have hle := (le_of_finite hRfin hUfin.1).mp hupp
  rw [hUfin.2, hMfin.2, toRat_fin] at hle
  have := Int.ceil_lt_add_one (max floor (toRat (fin cur * (1 + fin m))))
  linarith

/-- At price 100, floor 1, target 10 and maximum change 1/2, the price at observed rate 15/2
lies within the rounded per-epoch bounds. -/
theorem calcNextGasPrice_per_epoch_bounds_witness :
    Ceil (Float64.Max (Float64.fin 1) (Float64.fin 100 * (1 - Float64.fin (1 / 2)))) ≤
      ((Fees.L2GasPricer.mk (Float64.fin 100) (Float64.fin 1) (Fees.returnConstFn (Float64.fin 10))
      (Float64.fin (1 / 2))).CalcNextGasPrice (Float64.fin (15 / 2)) ()).1 ∧
    ((Fees.L2GasPricer.mk (Float64.fin 100) (Float64.fin 1) (Fees.returnConstFn (Float64.fin 10))
      (Float64.fin (1 / 2))).CalcNextGasPrice (Float64.fin (15 / 2)) ()).1 ≤
      Ceil (Float64.Max (Float64.fin 1) (Float64.fin 100 * (1 + Float64.fin (1 / 2)))) :=
  ⟨(calcNextGasPrice_per_epoch_bounds (Fees.returnConstFn (Float64.fin 10)) () 100 1 (1 / 2) (15 / 2) (by norm_num)
      (by norm_num) (by norm_num [MaxFloat64]) (by simp [returnConstFn])
      (Or.inl (by norm_num))).1,
    (calcNextGasPrice_per_epoch_bounds (Fees.returnConstFn (Float64.fin 10)) () 100 1 (1 / 2) (15 / 2) (by norm_num)
      (by norm_num) (by norm_num [MaxFloat64]) (by simp [returnConstFn])
      (Or.inl (by norm_num))).2.1⟩

end Fees
